import Mathlib

/-!
# Z_Zip.c of DoomRPG-RE: the ZIP archive reader

A shallow embedding of `src/Z_Zip.c` (byte readers, end-of-central-directory
search, central-directory walk, entry extraction) and the properties proved
about it.

Conventions of the embedding
* a stream (`FILE`) is its immutable byte content plus the current position;
* C `int`, `int16_t`, `int32_t` values are `Int`s in their two's-complement range;
* `DoomRPG_Error` ends the run: the function yields `Outcome.fatal`;
* `Outcome.undefined` marks runs that leave defined C behaviour (null or
  out-of-bounds access) or that depend on never-written memory: nothing is
  predicted for them;
* a malloc'd buffer handed back to the caller is a list of cells, `none` being
  a cell that was never written.
-/

namespace ZZip

/-! ## Data model -/

/-- One octet of a stream. -/
abbrev Byte := Fin 256

/-- A cell of a heap buffer: `none` until something is stored in it. -/
abbrev Cell := Option Byte

/-- Little-endian value of a byte string, first byte least significant. -/
@[irreducible] def leValue (bs : List Byte) : Nat :=
  bs.foldr (fun b acc => b.val + 256 * acc) 0

/-- Value of a 16-bit pattern read as `int16_t` (two's complement). -/
@[irreducible] def toInt16 (n : Nat) : Int :=
  if n % 65536 < 32768 then ((n % 65536 : Nat) : Int) else ((n % 65536 : Nat) : Int) - 65536

/-- Value of a 32-bit pattern read as `int32_t` (two's complement). -/
@[irreducible] def toInt32 (n : Nat) : Int :=
  if n % 4294967296 < 2147483648 then ((n % 4294967296 : Nat) : Int)
  else ((n % 4294967296 : Nat) : Int) - 4294967296

/-- A stdio stream opened for reading: the file content and the file position. -/
structure FILE where
  data : List Byte
  pos : Nat
deriving DecidableEq, Repr

/-- The `whence` argument of `fseek`. -/
inductive Whence where
  | SEEK_SET
  | SEEK_CUR
  | SEEK_END
deriving DecidableEq, Repr

/-- The stdio `fseek`: a target before the start of the file is refused and leaves the
position where it was; a target past the end is accepted (reads there yield nothing). -/
@[irreducible] def fseek (fp : FILE) (offset : Int) (whence : Whence) : FILE :=
  let base : Int :=
    match whence with
    | .SEEK_SET => 0
    | .SEEK_CUR => (fp.pos : Int)
    | .SEEK_END => (fp.data.length : Int)
  if 0 ≤ base + offset then { fp with pos := (base + offset).toNat } else fp

/-- The stdio `fread` of up to `n` bytes: the bytes obtained (fewer than `n` at end of
file) and the stream advanced past them. -/
@[irreducible] def fread (n : Nat) (fp : FILE) : List Byte × FILE :=
  let bs := (fp.data.drop fp.pos).take n
  (bs, { fp with pos := fp.pos + bs.length })

/-- The reader `_ReadShort` on an open stream: `sData` starts as 0, `fread` stores the
bytes it obtains at the lowest addresses (little-endian host), and the object is returned
as `int16_t`. At end of file the bytes that could not be read keep their initial 0. -/
@[irreducible] def _ReadShort (fp : FILE) : Int × FILE :=
  let r := fread 2 fp
  (toInt16 (leValue r.1), r.2)

/-- The reader `_ReadInt` on an open stream, as `_ReadShort` with four bytes and `int32_t`. -/
@[irreducible] def _ReadInt (fp : FILE) : Int × FILE :=
  let r := fread 4 fp
  (toInt32 (leValue r.1), r.2)

/-- The reader `_ReadShort` as declared, on a `FILE*` that may be null: the guard
`if (fp)` skips the read and 0 is returned. -/
def _ReadShort_ptr (fp : Option FILE) : Int × Option FILE :=
  match fp with
  | none => (0, none)
  | some f => ((_ReadShort f).1, some (_ReadShort f).2)

/-- The reader `_ReadInt` as declared, on a `FILE*` that may be null. -/
def _ReadInt_ptr (fp : Option FILE) : Int × Option FILE :=
  match fp with
  | none => (0, none)
  | some f => ((_ReadInt f).1, some (_ReadInt f).2)

/-- Modelled from the spec: Z_Zip.h is not among the sources. The entry record has the
four fields the code assigns. The spec describes the sizes as unsigned 32-bit magnitudes;
a field here holds the value the code assigns to it, the `int32_t` result of `_ReadInt`,
which is that magnitude whenever the magnitude is below 2^31. `name` is the content of
the malloc'd name buffer before its terminating NUL. -/
structure zip_entry_t where
  name : List Byte
  offset : Int
  csize : Int
  usize : Int
deriving DecidableEq, Repr

/-- Modelled from the spec: Z_Zip.h is not among the sources. The archive handle with the
three members Z_Zip.c uses: the stream (`none` is the null pointer), the entry count and
the entry array (`none` is the null pointer). -/
structure zip_file_t where
  file : Option FILE
  entry_count : Int
  entry : Option (List zip_entry_t)
deriving DecidableEq, Repr

/-- The fatal conditions Z_Zip.c reports, one per `DoomRPG_Error` call site. -/
inductive Fatal where
  | cannotOpen
  | cannotFindEOCD
  | wrongEOCDSig (sig : Int)
  | noEntries
  | wrongCDSig (sig : Int)
  | didNotFind
  | wrongLocalSig (sig : Int)
  | encrypted
  | inflateInit2Error
  | inflateError
  | inflateEndError
  | unknownMethod (method : Int)
deriving DecidableEq, Repr

/-- How a run of one of the functions ends. -/
inductive Outcome (α : Type) where
  | ok (a : α)
  | fatal (e : Fatal)
  | undefined
deriving DecidableEq, Repr

/-- Modelled from the spec: `DoomRPG_Error` (DoomRPG.c, not among the sources) is the
process-terminating fatal-error facility; control never comes back from it. -/
def DoomRPG_Error {α : Type} (e : Fatal) : Outcome α := Outcome.fatal e

/-- Modelled from the spec: the end-of-central-directory magic of Z_Zip.h; its bytes are
the `"PK\5\6"` that `openZipFile` searches for. -/
def ZIP_END_OF_CENTRAL_DIRECTORY_SIG : Int := 0x06054b50

/-- Modelled from the spec: the central-directory-entry magic of Z_Zip.h (`"PK\1\2"`). -/
def ZIP_CENTRAL_DIRECTORY_SIG : Int := 0x02014b50

/-- Modelled from the spec: the local-file-header magic of Z_Zip.h (`"PK\3\4"`). -/
def ZIP_LOCAL_FILE_SIG : Int := 0x04034b50

/-- Modelled from the spec: the encryption bit of the general-purpose flags (bit 0). -/
def ZIP_ENCRYPTED_FLAG : Int := 1

/-- The C test `x & flag` for a flag that is a single bit (a power of two): whether that
bit of the two's-complement value `x` is set. -/
def flagSet (x flag : Int) : Bool := decide ((x / flag) % 2 = 1)

/-- Modelled from the spec: the `MIN` macro of DoomRPG.h, the smaller of two values. -/
def MIN (a b : Int) : Int := if a < b then a else b

/-- The zlib return code `Z_OK`. -/
def Z_OK : Int := 0

/-- The zlib return code `Z_STREAM_END`. -/
def Z_STREAM_END : Int := 1

/-- What one `inflate(&stream, Z_FINISH)` call did: its return code, how many input bytes
it consumed, and the bytes it stored at `next_out`. -/
structure InflateResult where
  code : Int
  consumed : Nat
  out : List Byte
deriving DecidableEq, Repr

/-- The raw-DEFLATE service (zlib), kept abstract: `inflateInit2` maps the window-bits
argument to a return code; `inflate` maps the input bytes and the output room to its
result; `inflateEnd` gives the return code of the teardown that follows. -/
structure Zlib where
  inflateInit2 : Int → Int
  inflate : List Byte → Nat → InflateResult
  inflateEnd : List Byte → Nat → Int

/-! ## The end-of-central-directory search of `openZipFile` -/

/-- The four bytes `"PK\5\6"`. -/
def eocdMagic : List Byte := [0x50, 0x4B, 5, 6]

/-- The test `!memcmp(buf + i, "PK\5\6", 4)` on the scan buffer; `none` when one of the
four cells has never been written. -/
def memcmpMagic (buf : List Cell) (i : Nat) : Option Bool :=
  match buf.drop i with
  | some a :: some b :: some c :: some d :: _ => some (decide ([a, b, c, d] = eocdMagic))
  | _ => none

/-- The inner loop `for (i = n - 4; i > 0; i--)` of `openZipFile`, started at `i`:
the first index at which the magic is found, scanning downwards and never testing 0. -/
def openZipFile_for (buf : List Cell) : Nat → Outcome (Option Nat)
  | 0 => Outcome.ok none
  | i + 1 =>
    match memcmpMagic buf (i + 1) with
    | none => Outcome.undefined
    | some true => Outcome.ok (some (i + 1))
    | some false => openZipFile_for buf i

/-- The loop `while (back < maxback)` of `openZipFile`. The result is the stream and the
offset handed to `findAndReadZipDir`. `buf` is the 512-cell automatic array, overwritten
from its start by each `fread`. The first argument bounds the number of rounds; `back`
grows by 508 per round, so `maxback` rounds always suffice. -/
def openZipFile_while (filesize maxback : Int) :
    Nat → FILE → List Cell → Int → Outcome (FILE × Int)
  | 0, _, _, back =>
    if back < maxback then Outcome.undefined else DoomRPG_Error Fatal.cannotFindEOCD
  | fuel + 1, fp, buf, back =>
    if back < maxback then
      let fp1 := fseek fp (filesize - back) Whence.SEEK_SET
      let r := fread 512 fp1
      let buf1 : List Cell := r.1.map some ++ buf.drop r.1.length
      match openZipFile_for buf1 (512 - 4) with
      | Outcome.ok (some i) => Outcome.ok (r.2, filesize - back + (i : Int))
      | Outcome.ok none => openZipFile_while filesize maxback fuel r.2 buf1 (back + (512 - 4))
      | Outcome.fatal e => Outcome.fatal e
      | Outcome.undefined => Outcome.undefined
    else DoomRPG_Error Fatal.cannotFindEOCD

/-- The part of `openZipFile` before the call of `findAndReadZipDir`: `fopen` (whose
result is the argument: `none` when the file cannot be opened), the size computation
and the search. It yields the open stream and the offset that is handed on. -/
def openZipFile_locate (opened : Option (List Byte)) : Outcome (FILE × Int) :=
  match opened with
  | none => DoomRPG_Error Fatal.cannotOpen
  | some data =>
    let fp : FILE := { data := data, pos := 0 }
    let fp := fseek fp 0 Whence.SEEK_END
    let filesize : Int := toInt32 fp.pos
    let fp := fseek fp 0 Whence.SEEK_SET
    let maxback := MIN filesize (0xFFFF + 512)
    let back := MIN maxback 512
    openZipFile_while filesize maxback maxback.toNat fp (List.replicate 512 none) back

/-! ## The central-directory reader `findAndReadZipDir` -/

/-- The body of the loop of `findAndReadZipDir`: one central-directory record is read at
the current position. A negative `namesize` makes `malloc(namesize + 1)` and the `fread`
that follows undefined; a name cut short by the end of the file leaves never-written
bytes in the name buffer. -/
def findAndReadZipDir_body (fp : FILE) : Outcome (zip_entry_t × FILE) :=
  let r := _ReadInt fp
  let sig := r.1
  if sig ≠ ZIP_CENTRAL_DIRECTORY_SIG then DoomRPG_Error (Fatal.wrongCDSig sig) else
  let fp := (_ReadShort r.2).2
  let fp := (_ReadShort fp).2
  let fp := (_ReadShort fp).2
  let fp := (_ReadShort fp).2
  let fp := (_ReadShort fp).2
  let fp := (_ReadShort fp).2
  let fp := (_ReadInt fp).2
  let rc := _ReadInt fp
  let ru := _ReadInt rc.2
  let rn := _ReadShort ru.2
  let rm := _ReadShort rn.2
  let rk := _ReadShort rm.2
  let fp := (_ReadShort rk.2).2
  let fp := (_ReadShort fp).2
  let fp := (_ReadInt fp).2
  let ro := _ReadInt fp
  let namesize := rn.1
  if namesize < 0 then Outcome.undefined else
  let nm := fread namesize.toNat ro.2
  if nm.1.length < namesize.toNat then Outcome.undefined else
  let fp := fseek nm.2 rm.1 Whence.SEEK_CUR
  let fp := fseek fp rk.1 Whence.SEEK_CUR
  Outcome.ok ({ name := nm.1, offset := ro.1, csize := rc.1, usize := ru.1 }, fp)

/-- The loop `for (i = 0; i < count; i++)` of `findAndReadZipDir` with `n` rounds left. -/
def findAndReadZipDir_for : Nat → FILE → Outcome (List zip_entry_t × FILE)
  | 0, fp => Outcome.ok ([], fp)
  | n + 1, fp =>
    match findAndReadZipDir_body fp with
    | Outcome.ok (e, fp1) =>
      match findAndReadZipDir_for n fp1 with
      | Outcome.ok (es, fp2) => Outcome.ok (e :: es, fp2)
      | Outcome.fatal f => Outcome.fatal f
      | Outcome.undefined => Outcome.undefined
    | Outcome.fatal f => Outcome.fatal f
    | Outcome.undefined => Outcome.undefined

/-- The handle as `findAndReadZipDir` leaves it when its loop has filled the entry array. -/
def withEntries (count : Int) (o : Outcome (List zip_entry_t × FILE)) : Outcome zip_file_t :=
  match o with
  | Outcome.ok (es, fp) => Outcome.ok { file := some fp, entry_count := count, entry := some es }
  | Outcome.fatal f => Outcome.fatal f
  | Outcome.undefined => Outcome.undefined

/-- The function `findAndReadZipDir`. The `printf` calls only write to the standard
output and are left out. `fseek` on a null stream is undefined. -/
def findAndReadZipDir (zipFile : zip_file_t) (startoffset : Int) : Outcome zip_file_t :=
  match zipFile.file with
  | none => Outcome.undefined
  | some fp0 =>
    let fp := fseek fp0 startoffset Whence.SEEK_SET
    let r := _ReadInt fp
    let sig := r.1
    if sig ≠ ZIP_END_OF_CENTRAL_DIRECTORY_SIG then DoomRPG_Error (Fatal.wrongEOCDSig sig) else
    let fp := (_ReadShort r.2).2
    let fp := (_ReadShort fp).2
    let fp := (_ReadShort fp).2
    let rcount := _ReadShort fp
    let fp := (_ReadInt rcount.2).2
    let roff := _ReadInt fp
    let count := rcount.1
    if count ≤ 0 then DoomRPG_Error Fatal.noEntries else
    let fp := fseek roff.2 roff.1 Whence.SEEK_SET
    withEntries count (findAndReadZipDir_for count.toNat fp)

/-- The function `openZipFile`: the search, then `findAndReadZipDir` at the offset found. -/
def openZipFile (opened : Option (List Byte)) (zipFile : zip_file_t) : Outcome zip_file_t :=
  match openZipFile_locate opened with
  | Outcome.ok (fp, startoffset) =>
    findAndReadZipDir { zipFile with file := some fp } startoffset
  | Outcome.fatal f => Outcome.fatal f
  | Outcome.undefined => Outcome.undefined

/-- The function `closeZipFile` on a non-null handle pointer: the entry array is freed
and the stream closed; `entry_count` is left as it is. -/
def closeZipFile (zipFile : zip_file_t) : zip_file_t :=
  { zipFile with entry := none, file := none }

/-! ## The extractor `readZipFileEntry` -/

/-- The ASCII `toupper` used by `SDL_strcasecmp`. -/
def SDL_toupper (c : Byte) : Byte :=
  if h : 97 ≤ c.val ∧ c.val ≤ 122 then ⟨c.val - 32, by omega⟩ else c

/-- The SDL function `SDL_strcasecmp` (portable implementation, C locale) on two
NUL-terminated strings given by their buffers: the end of a list is the terminator, and
a zero byte inside a list ends the string early. -/
def SDL_strcasecmp : List Byte → List Byte → Int
  | a :: as, b :: bs =>
    if a ≠ 0 ∧ b ≠ 0 ∧ SDL_toupper a = SDL_toupper b then SDL_strcasecmp as bs
    else ((SDL_toupper a).val : Int) - ((SDL_toupper b).val : Int)
  | a :: _, [] => ((SDL_toupper a).val : Int)
  | [], b :: _ => - ((SDL_toupper b).val : Int)
  | [], [] => 0

/-- The lookup loop of `readZipFileEntry`, with `n` rounds left and at index `i`:
`some e` is the entry the loop breaks on, `none` the null pointer left when the loop
runs to its end. Indexing a null or too short entry array is undefined. -/
def readZipFileEntry_for (name : List Byte) (entry : Option (List zip_entry_t)) :
    Nat → Nat → Outcome (Option zip_entry_t)
  | 0, _ => Outcome.ok none
  | n + 1, i =>
    match entry with
    | none => Outcome.undefined
    | some es =>
      match es.get? i with
      | none => Outcome.undefined
      | some e =>
        if SDL_strcasecmp name e.name = 0 then Outcome.ok (some e)
        else readZipFileEntry_for name entry n (i + 1)

/-- The end of `readZipFileEntry`, from `malloc(entry->csize)` on: the payload is read
at the current position and handed back as it is (method 0) or inflated (method 8). The
result is the returned buffer, the value stored in `*sizep`, and the stream. A negative
`csize` or `usize` makes `malloc` fail and the accesses through its null result
undefined; `inflate` on payload cells that were never written is not predicted either. -/
def readZipFileEntry_payload (z : Zlib) (entry : zip_entry_t) (method : Int) (fp : FILE) :
    Outcome ((List Cell × Int) × FILE) :=
  if entry.csize < 0 then Outcome.undefined else
  let rd := fread entry.csize.toNat fp
  let cdata : List Cell :=
    rd.1.map some ++ List.replicate (entry.csize.toNat - rd.1.length) none
  if method = 0 then Outcome.ok ((cdata, entry.usize), rd.2)
  else if method = 8 then
    if entry.usize < 0 then Outcome.undefined
    else if rd.1.length < entry.csize.toNat then Outcome.undefined
    else if z.inflateInit2 (-15) ≠ Z_OK then DoomRPG_Error Fatal.inflateInit2Error
    else
      let res := z.inflate rd.1 entry.usize.toNat
      if res.code ≠ Z_STREAM_END then DoomRPG_Error Fatal.inflateError
      else if z.inflateEnd rd.1 entry.usize.toNat ≠ Z_OK then
        DoomRPG_Error Fatal.inflateEndError
      else
        let udata : List Cell :=
          (res.out.take entry.usize.toNat).map some ++
            List.replicate (entry.usize.toNat - res.out.length) none
        Outcome.ok ((udata, entry.usize), rd.2)
  else DoomRPG_Error (Fatal.unknownMethod method)

/-- The part of `readZipFileEntry` after the lookup, for the matched entry: the local
header is read at `entry->offset`, its name and extra field are skipped, and the payload
is extracted. -/
def readZipFileEntry_extract (z : Zlib) (entry : zip_entry_t) (fp0 : FILE) :
    Outcome ((List Cell × Int) × FILE) :=
  let fp := fseek fp0 entry.offset Whence.SEEK_SET
  let r := _ReadInt fp
  let sig := r.1
  if sig ≠ ZIP_LOCAL_FILE_SIG then DoomRPG_Error (Fatal.wrongLocalSig sig) else
  let fp := (_ReadShort r.2).2
  let rg := _ReadShort fp
  let general := rg.1
  if flagSet general ZIP_ENCRYPTED_FLAG then DoomRPG_Error Fatal.encrypted else
  let rmeth := _ReadShort rg.2
  let method := rmeth.1
  let fp := (_ReadShort rmeth.2).2
  let fp := (_ReadShort fp).2
  let fp := (_ReadInt fp).2
  let fp := (_ReadInt fp).2
  let fp := (_ReadInt fp).2
  let rn := _ReadShort fp
  let rx := _ReadShort rn.2
  let fp := fseek rx.2 (rn.1 + rx.1) Whence.SEEK_CUR
  readZipFileEntry_payload z entry method fp

/-- The outcome of a step on the handle's stream, with the moved stream put back into
the handle. -/
def withStream {α : Type} (zipFile : zip_file_t) (o : Outcome (α × FILE)) :
    Outcome (α × zip_file_t) :=
  match o with
  | Outcome.ok (res, fp) => Outcome.ok (res, { zipFile with file := some fp })
  | Outcome.fatal f => Outcome.fatal f
  | Outcome.undefined => Outcome.undefined

/-- The part of `readZipFileEntry` after the lookup loop has left `entry` non-null:
extraction from the handle's stream, which a null stream makes undefined. -/
def readZipFileEntry_found (z : Zlib) (entry : zip_entry_t) (zipFile : zip_file_t) :
    Outcome ((List Cell × Int) × zip_file_t) :=
  match zipFile.file with
  | none => Outcome.undefined
  | some fp0 => withStream zipFile (readZipFileEntry_extract z entry fp0)

/-- The function `readZipFileEntry`: the buffer it returns, the length it stores in
`*sizep`, and the handle (whose stream has moved). -/
def readZipFileEntry (z : Zlib) (name : List Byte) (zipFile : zip_file_t) :
    Outcome ((List Cell × Int) × zip_file_t) :=
  match readZipFileEntry_for name zipFile.entry zipFile.entry_count.toNat 0 with
  | Outcome.undefined => Outcome.undefined
  | Outcome.fatal f => Outcome.fatal f
  | Outcome.ok none => DoomRPG_Error Fatal.didNotFind
  | Outcome.ok (some entry) => readZipFileEntry_found z entry zipFile

/-- What the caller of `readZipFileEntry` observes: the fatal path taken, or the buffer
and the reported length. -/
def observed {α β : Type} (o : Outcome (α × β)) : Outcome α :=
  match o with
  | Outcome.ok r => Outcome.ok r.1
  | Outcome.fatal f => Outcome.fatal f
  | Outcome.undefined => Outcome.undefined

/-! ## Notions used to state the properties -/

/-- ASCII lower-casing of one byte: the letters `A`..`Z` are mapped to `a`..`z`. -/
def asciiLower (c : Byte) : Byte :=
  if h : 65 ≤ c.val ∧ c.val ≤ 90 then ⟨c.val + 32, by omega⟩ else c

/-- The C string held by a buffer: its bytes before the first NUL. -/
def cstr (s : List Byte) : List Byte := s.takeWhile (fun b => b ≠ 0)

/-- Two names are equal up to ASCII letter case. -/
def sameUpToCase (a b : List Byte) : Prop :=
  (cstr a).map asciiLower = (cstr b).map asciiLower

instance (a b : List Byte) : Decidable (sameUpToCase a b) :=
  inferInstanceAs (Decidable ((cstr a).map asciiLower = (cstr b).map asciiLower))

/-- Byte `k` of the little-endian encoding of `n`. -/
def byteOf (n k : Nat) : Byte := ⟨n / 256 ^ k % 256, Nat.mod_lt _ (by decide)⟩

/-- A 16-bit field, little-endian. -/
def le16 (n : Nat) : List Byte := [byteOf n 0, byteOf n 1]

/-- A 32-bit field, little-endian. -/
def le32 (n : Nat) : List Byte := [byteOf n 0, byteOf n 1, byteOf n 2, byteOf n 3]

/-- A local file header: 30 fixed bytes, then the name and the extra field. -/
def localHeader (flags method crc csize usize : Nat) (name extra : List Byte) : List Byte :=
  List.flatten [[0x50, 0x4B, 3, 4], le16 20, le16 flags, le16 method, le16 0, le16 0,
    le32 crc, le32 csize, le32 usize, le16 name.length, le16 extra.length] ++ (name ++ extra)

/-- The content of a central-directory record. -/
structure CDRecord where
  versionMadeBy : Nat
  versionNeeded : Nat
  flags : Nat
  method : Nat
  time : Nat
  date : Nat
  crc : Nat
  csize : Nat
  usize : Nat
  diskStart : Nat
  intAttr : Nat
  extAttr : Nat
  offset : Nat
  name : List Byte
  extra : List Byte
  comment : List Byte
deriving DecidableEq, Repr

/-- The bytes of a central-directory record: 46 fixed bytes with a valid signature,
then name, extra field and comment. -/
def CDRecord.encode (r : CDRecord) : List Byte :=
  List.flatten [[0x50, 0x4B, 1, 2], le16 r.versionMadeBy, le16 r.versionNeeded, le16 r.flags,
    le16 r.method, le16 r.time, le16 r.date, le32 r.crc, le32 r.csize, le32 r.usize,
    le16 r.name.length, le16 r.extra.length, le16 r.comment.length, le16 r.diskStart,
    le16 r.intAttr, le32 r.extAttr, le32 r.offset] ++ (r.name ++ (r.extra ++ r.comment))

/-- The index entry that carries the name, sizes and local-header offset of a record. -/
def CDRecord.toEntry (r : CDRecord) : zip_entry_t :=
  { name := r.name, offset := toInt32 r.offset, csize := toInt32 r.csize,
    usize := toInt32 r.usize }

/-- The bytes of a run of central-directory records lying back to back. -/
def encodeRecords : List CDRecord → List Byte
  | [] => []
  | r :: rs => r.encode ++ encodeRecords rs

/-- An end-of-central-directory record (22 bytes, then the archive comment). -/
def eocdRecord (count cdsize cdoffset : Nat) (comment : List Byte) : List Byte :=
  List.flatten [[0x50, 0x4B, 5, 6], le16 0, le16 0, le16 count, le16 count, le32 cdsize,
    le32 cdoffset, le16 comment.length] ++ comment

/-- A member of an archive: its name, method, CRC, payload as stored in the archive and
uncompressed size. -/
structure Member where
  name : List Byte
  method : Nat
  crc : Nat
  payload : List Byte
  usize : Nat
deriving DecidableEq, Repr

/-- The local part of a member: its local header followed by its payload. -/
def Member.localPart (m : Member) : List Byte :=
  localHeader 0 m.method m.crc m.payload.length m.usize m.name [] ++ m.payload

/-- The central-directory record of a member whose local header is at `offset`. -/
def Member.record (m : Member) (offset : Nat) : CDRecord :=
  { versionMadeBy := 20, versionNeeded := 20, flags := 0, method := m.method, time := 0,
    date := 0, crc := m.crc, csize := m.payload.length, usize := m.usize, diskStart := 0,
    intAttr := 0, extAttr := 0, offset := offset, name := m.name, extra := [],
    comment := [] }

/-- The local parts of the members, in order. -/
def localParts : List Member → List Byte
  | [] => []
  | m :: ms => m.localPart ++ localParts ms

/-- The central-directory records of the members, the first local header being at
`offset`. -/
def memberRecords (offset : Nat) : List Member → List CDRecord
  | [] => []
  | m :: ms => m.record offset :: memberRecords (offset + m.localPart.length) ms

/-- A single-disk archive: the local parts, the central directory, the
end-of-central-directory record and the archive comment. -/
def zipArchive (ms : List Member) (comment : List Byte) : List Byte :=
  localParts ms ++ encodeRecords (memberRecords 0 ms) ++
    eocdRecord ms.length (encodeRecords (memberRecords 0 ms)).length (localParts ms).length
      comment

/-- The archive with the single stored member `name` holding `d`: one method-0 local
header followed by `d`, one central-directory record and the end-of-central-directory
record with the archive comment `comment`. -/
def storedArchive (name d comment : List Byte) (crc : Nat) : List Byte :=
  zipArchive [{ name := name, method := 0, crc := crc, payload := d, usize := d.length }]
    comment

/-- The `size` bytes of the stream that start at `off + 30 + n + m`: the payload behind a
local header at `off` whose name and extra field are `n` and `m` bytes long. -/
def localPayload (fp : FILE) (off n m size : Nat) : List Byte :=
  (fp.data.drop (off + 30 + n + m)).take size

/-- The `usize`-byte output buffer after `inflate` has stored `out` at its start. -/
def outputCells (out : List Byte) (usize : Nat) : List Cell :=
  (out.take usize).map some ++ List.replicate (usize - out.length) none

/-- The handle before the first `openZipFile`: the zero-initialised global `zipFile`. -/
def zipFile0 : zip_file_t := { file := none, entry_count := 0, entry := none }

/-- The zlib return code `Z_DATA_ERROR`. -/
def Z_DATA_ERROR : Int := -3

/-- The zlib return code `Z_BUF_ERROR`. -/
def Z_BUF_ERROR : Int := -5

/-- What zlib's `inflate(&stream, Z_FINISH)` does on a raw-DEFLATE stream that consists
of one final stored block (header byte with BFINAL = 1 and BTYPE = 00, then LEN, its
complement NLEN and LEN literal bytes): with enough room it copies the LEN bytes and
returns `Z_STREAM_END`, leaving any input after the block unread. Streams outside
this fragment are answered with an error code. -/
def inflateStoredBlock (input : List Byte) (avail_out : Nat) : InflateResult :=
  match input with
  | h :: l0 :: l1 :: n0 :: n1 :: rest =>
    if h.val % 8 = 1 ∧ l0.val + n0.val = 255 ∧ l1.val + n1.val = 255 then
      if l0.val + 256 * l1.val ≤ rest.length ∧ l0.val + 256 * l1.val ≤ avail_out then
        { code := Z_STREAM_END, consumed := 5 + (l0.val + 256 * l1.val),
          out := rest.take (l0.val + 256 * l1.val) }
      else { code := Z_BUF_ERROR, consumed := 5, out := [] }
    else { code := Z_DATA_ERROR, consumed := 0, out := [] }
  | _ => { code := Z_BUF_ERROR, consumed := 0, out := [] }

/-- A zlib whose `inflateInit2` and `inflateEnd` succeed and whose `inflate` is
`inflateStoredBlock`. -/
def zlibStored : Zlib :=
  { inflateInit2 := fun _ => Z_OK, inflate := inflateStoredBlock,
    inflateEnd := fun _ _ => Z_OK }

/-! ## Inputs of the examples -/

/-- The name `a.txt`. -/
def aTxt : List Byte := [97, 46, 116, 120, 116]

/-- The five bytes `hello`. -/
def hello : List Byte := [104, 101, 108, 108, 111]

/-- The CRC-32 of `hello`. -/
def crcHello : Nat := 0x3610A686

/-- The name `b.bin`. -/
def bBin : List Byte := [98, 46, 98, 105, 110]

/-- The name `DATA.BIN`. -/
def dataBinUpper : List Byte := [68, 65, 84, 65, 46, 66, 73, 78]

/-- The name `data.bin`. -/
def dataBinLower : List Byte := [100, 97, 116, 97, 46, 98, 105, 110]

/-- The name `README`. -/
def readme : List Byte := [82, 69, 65, 68, 77, 69]

/-- The archive with the one stored entry `a.txt` holding `hello` and no comment
(113 bytes; its end-of-central-directory record starts at offset 91). -/
def helloArchive : List Byte := storedArchive aTxt hello [] crcHello

/-- The archive `helloArchive` followed by an archive comment of 1000 zero bytes
(1113 bytes; its end-of-central-directory record still starts at offset 91). -/
def helloArchiveWithComment : List Byte :=
  storedArchive aTxt hello (List.replicate 1000 0) crcHello

/-- Two members that both hold `hello`: `a.txt`, stored, and `b.bin`, deflated as one
final stored block. -/
def twoMembers : List Member :=
  [{ name := aTxt, method := 0, crc := crcHello, payload := hello, usize := 5 },
    { name := bBin, method := 8, crc := crcHello,
      payload := [1, 5, 0, 0xFA, 0xFF] ++ hello, usize := 5 }]

/-- The archive of `twoMembers` without an archive comment (209 bytes). -/
def twoMemberArchive : List Byte := zipArchive twoMembers []

/-- A handle on `data` whose index holds the one entry `name` with local header at
offset 0. -/
def oneEntryHandle (data name : List Byte) (csize usize : Int) : zip_file_t :=
  { file := some { data := data, pos := 0 }, entry_count := 1,
    entry := some [{ name := name, offset := 0, csize := csize, usize := usize }] }

/-- The zero-initialised handle with its stream opened on `data`: the handle that
`openZipFile` passes to `findAndReadZipDir`. -/
def streamHandle (data : List Byte) : zip_file_t :=
  { file := some { data := data, pos := 0 }, entry_count := 0, entry := none }

/-- A handle whose index holds `README` and then `DATA.BIN`. -/
def lookupHandle : zip_file_t :=
  { file := some { data := [], pos := 0 }, entry_count := 2,
    entry := some [{ name := readme, offset := 0, csize := 0, usize := 0 },
      { name := dataBinUpper, offset := 0, csize := 0, usize := 0 }] }

/-- A stream made of a stored local header whose name-length field is 32768 (bytes
`00 80`) and whose extra-length field is 0, the 32768 name bytes `a`, and the payload
`hello`. -/
def longNameStream : List Byte :=
  [0x50, 0x4B, 3, 4, 20, 0, 0, 0, 0, 0, 0, 0, 0, 0, 0x86, 0xA6, 0x10, 0x36, 5, 0, 0, 0,
    5, 0, 0, 0, 0x00, 0x80, 0, 0] ++ (List.replicate 32768 97 ++ hello)

/-- A stream made of the local header of a deflated `b.bin` (compressed size 9,
uncompressed size 5) and a payload that is one final stored block holding `abc`
followed by one more byte. -/
def shortDeflateStream : List Byte :=
  localHeader 0 8 0 9 5 bBin [] ++ [1, 3, 0, 0xFC, 0xFF, 97, 98, 99, 0]

/-- A stream made of the local header of a deflated `b.bin` and a payload that is one
final stored block holding 1000 zero bytes. -/
def zerosStream : List Byte :=
  localHeader 0 8 0 1005 1000 bBin [] ++ ([1, 0xE8, 3, 0x17, 0xFC] ++ List.replicate 1000 0)

/-- A stream made of a local header with method 5 for `a.txt` and five payload bytes. -/
def method5Stream : List Byte := localHeader 0 5 crcHello 5 5 aTxt [] ++ hello

/-- A stream made of a stored local header for `a.txt` with the encryption bit set and
five payload bytes. -/
def encryptedStream : List Byte := localHeader 1 0 crcHello 5 5 aTxt [] ++ hello

/-- A 30-byte stored local header whose own size fields (bytes 18 to 25) are `sizes`,
whose name-length field is 0xFFF4 and whose extra-length field is 0. -/
def backwardHeader (sizes : List Byte) : List Byte :=
  [0x50, 0x4B, 3, 4, 20, 0, 0, 0, 0, 0, 0, 0, 0, 0, 0, 0, 0, 0] ++ (sizes ++ [0xF4, 0xFF, 0, 0])

/-- A central-directory record with empty name, extra field and comment. -/
def emptyRecord : CDRecord :=
  { versionMadeBy := 20, versionNeeded := 20, flags := 0, method := 0, time := 0, date := 0,
    crc := 0, csize := 0, usize := 0, diskStart := 0, intAttr := 0, extAttr := 0, offset := 0,
    name := [], extra := [], comment := [] }

/-- A central directory of 32768 records. -/
def manyRecords : List CDRecord := List.replicate 32768 emptyRecord

/-- A stream that starts with an end-of-central-directory record declaring 32768 entries
and the central directory at offset 22, followed by that directory. -/
def bigDirectory : List Byte :=
  eocdRecord 32768 (46 * 32768) 22 [] ++ encodeRecords manyRecords

/-! ## Opening and reading in one go -/

/-- Opening an archive with the zero-initialised handle and then extracting `name`:
what the caller observes. -/
def openAndRead (z : Zlib) (opened : Option (List Byte)) (name : List Byte) :
    Outcome (List Cell × Int) :=
  match openZipFile opened zipFile0 with
  | Outcome.ok h => observed (readZipFileEntry z name h)
  | Outcome.fatal f => Outcome.fatal f
  | Outcome.undefined => Outcome.undefined

/-! ## Notions and inputs for the search and the readers -/

/-- The four bytes `P`, `K`, 5, 6 occur in the stream at offset `p`. -/
def magicAt (data : List Byte) (p : Nat) : Prop := (data.drop p).take 4 = eocdMagic

instance (data : List Byte) (p : Nat) : Decidable (magicAt data p) :=
  inferInstanceAs (Decidable ((data.drop p).take 4 = eocdMagic))

/-- The value of `filesize` in `openZipFile`: `(int)ftell` at the end of the stream. -/
def filesizeOf (data : List Byte) : Int := toInt32 data.length

/-- The last value of `back` for which the loop of `openZipFile` scans a window when
`maxback` is `M`: the largest number of the form `512 + 508 * k` that is strictly below
`M` (for `M > 512`). -/
def lastBack (M : Nat) : Nat := 512 + 508 * ((M - 513) / 508)

/-- The offsets `hi`, `hi - 1`, ... : `n` of them, in descending order. -/
def descending (hi : Int) (n : Nat) : List Int :=
  (List.range n).map (fun (j : Nat) => hi - (j : Int))

/-- The indices at which the inner loop of `openZipFile`, started at `i`, calls `memcmp`,
in the order of the calls. -/
def openZipFile_for_examined (buf : List Cell) : Nat → List Nat
  | 0 => []
  | i + 1 =>
    match memcmpMagic buf (i + 1) with
    | some false => (i + 1) :: openZipFile_for_examined buf i
    | _ => [i + 1]

/-- The stream offsets `filesize - back + i` at which the loop `while (back < maxback)`
of `openZipFile` calls `memcmp`, in the order of the calls. It follows
`openZipFile_while` step by step. -/
def openZipFile_while_examined (filesize maxback : Int) :
    Nat → FILE → List Cell → Int → List Int
  | 0, _, _, _ => []
  | fuel + 1, fp, buf, back =>
    if back < maxback then
      let fp1 := fseek fp (filesize - back) Whence.SEEK_SET
      let r := fread 512 fp1
      let buf1 : List Cell := r.1.map some ++ buf.drop r.1.length
      (openZipFile_for_examined buf1 (512 - 4)).map
        (fun (i : Nat) => filesize - back + (i : Int)) ++
        match openZipFile_for buf1 (512 - 4) with
        | Outcome.ok none =>
          openZipFile_while_examined filesize maxback fuel r.2 buf1 (back + (512 - 4))
        | _ => []
    else []

/-- The stream offsets that `openZipFile` examines on the content `data`, in order. -/
def openZipFile_examined (data : List Byte) : List Int :=
  let fp : FILE := { data := data, pos := 0 }
  let fp := fseek fp 0 Whence.SEEK_END
  let filesize : Int := toInt32 fp.pos
  let fp := fseek fp 0 Whence.SEEK_SET
  let maxback := MIN filesize (0xFFFF + 512)
  let back := MIN maxback 512
  openZipFile_while_examined filesize maxback maxback.toNat fp (List.replicate 512 none) back

/-- The archive `helloArchive` with an archive comment of 490 zero bytes: 603 bytes, the
end-of-central-directory record at offset 91 = 603 - 512. -/
def helloArchiveComment490 : List Byte := storedArchive aTxt hello (List.replicate 490 0) crcHello

/-- The two-member archive with an archive comment of 400 zero bytes: 609 bytes. -/
def twoMemberArchiveComment400 : List Byte := zipArchive twoMembers (List.replicate 400 0)

/-- A central-directory record with an empty name, no extra field and a comment of 32768
zero bytes. -/
def longCommentRecord : CDRecord := { emptyRecord with comment := List.replicate 32768 0 }

/-- A central-directory record with the name `a.txt`, an extra field of 2 bytes and a
comment of 1 byte. -/
def namedRecord : CDRecord := { emptyRecord with name := aTxt, extra := [1, 2], comment := [3] }

/-- The number of entries held by the index of a handle, 0 when the index is absent. -/
def entriesHeld (zipFile : zip_file_t) : Nat :=
  match zipFile.entry with
  | none => 0
  | some es => es.length

/-- The handle that `openZipFile` leaves for `twoMemberArchiveComment400`. -/
def twoMemberHandle : zip_file_t :=
  { file := some { data := twoMemberArchiveComment400, pos := 187 }, entry_count := 2,
    entry := some [{ name := aTxt, offset := 0, csize := 5, usize := 5 },
      { name := bBin, offset := 40, csize := 10, usize := 5 }] }

/-- The offset that a run of the search hands to `findAndReadZipDir`, the stream left
aside. -/
def offsetHanded (o : Outcome (FILE × Int)) : Outcome Int :=
  match o with
  | Outcome.ok r => Outcome.ok r.2
  | Outcome.fatal f => Outcome.fatal f
  | Outcome.undefined => Outcome.undefined

/-- A downward scan of the stream offsets `lo + n`, `lo + n - 1`, ..., `lo + 1` for the
magic: the first offset at which it occurs, that is the greatest one. The search of
`openZipFile` is compared with it. -/
def scanDown (data : List Byte) (lo : Nat) : Nat → Option Nat
  | 0 => none
  | n + 1 => if magicAt data (lo + (n + 1)) then some (lo + (n + 1)) else scanDown data lo n

/-- The offsets that the downward scan `scanDown` visits, in order: it stops at the
first occurrence of the magic. -/
def scanTrace (data : List Byte) (lo : Nat) : Nat → List Nat
  | 0 => []
  | n + 1 => (lo + (n + 1)) :: (if magicAt data (lo + (n + 1)) then [] else scanTrace data lo n)

/-- The end of a search that scanned down to the result `r`: the offset is handed on, or
the run ends in the "cannot find end of central directory" fatal path. -/
def searchOutcome (r : Option Nat) : Outcome Int :=
  match r with
  | some p => Outcome.ok (p : Int)
  | none => Outcome.fatal Fatal.cannotFindEOCD

/-- The depth `B` down to which `openZipFile` scans a stream of more than 512 bytes: the
last value that `back` takes below `maxback = min(fileSize, 66047)`. -/
def searchDepth (data : List Byte) : Nat := lastBack (min data.length 66047)

/-- A stream of 66047 bytes: four zero bytes, the magic at offset 4, then 66039 zero
bytes. -/
def deepMagicStream : List Byte := [0, 0, 0, 0, 0x50, 0x4B, 5, 6] ++ List.replicate 66039 0

/-- A stream of 2^31 bytes: zero bytes, then the magic in the last 4 bytes. -/
def twoGiBStream : List Byte := List.replicate 2147483644 0 ++ eocdMagic

/-- The archive `helloArchive` with an archive comment of 950 zero bytes: 1063 bytes, the
end-of-central-directory record at offset 91, which lies in the second scan window. -/
def helloArchiveComment950 : List Byte := storedArchive aTxt hello (List.replicate 950 0) crcHello

/-- A stream of 2^32 + 1000 bytes: 500 zero bytes, the magic at offset 500, then zero
bytes. Its size does not fit an `int`: the code computes `filesize = 1000`. -/
def wrappedStream : List Byte :=
  List.replicate 500 0 ++ ([0x50, 0x4B, 5, 6] ++ List.replicate 4294967792 0)

/-- The name `A.TXT`. -/
def aTxtUpper : List Byte := [65, 46, 84, 88, 84]

/-- A stream with two local parts: the stored member `A.TXT` holding `hello` at offset 0
and, at offset 40, a member `a.txt` whose local header has the encryption bit set. -/
def twoVariantsStream : List Byte :=
  localHeader 0 0 crcHello 5 5 aTxtUpper [] ++ (hello ++ encryptedStream)

/-- A handle on `twoVariantsStream` whose index holds `A.TXT` (offset 0) and then `a.txt`
(offset 40). -/
def twoVariantsHandle : zip_file_t :=
  { file := some { data := twoVariantsStream, pos := 0 }, entry_count := 2,
    entry := some [{ name := aTxtUpper, offset := 0, csize := 5, usize := 5 },
      { name := aTxt, offset := 40, csize := 5, usize := 5 }] }

/-- A handle on `twoVariantsStream` whose index holds the two entries in the other order:
`a.txt` (offset 40, encryption bit set) and then `A.TXT` (offset 0). -/
def encryptedFirstHandle : zip_file_t :=
  { file := some { data := twoVariantsStream, pos := 0 }, entry_count := 2,
    entry := some [{ name := aTxt, offset := 40, csize := 5, usize := 5 },
      { name := aTxtUpper, offset := 0, csize := 5, usize := 5 }] }

/-! ## Basic facts about the stream operations -/

theorem drop_add_of_drop {α : Type} {data l : List α} {p : Nat} (h : data.drop p = l) (k : Nat) :
    data.drop (p + k) = l.drop k := by
  rw [← h, List.drop_drop, Nat.add_comm]

theorem length_of_drop_eq {α : Type} {data l : List α} {p : Nat} (h : data.drop p = l)
    (hl : 0 < l.length) : p + l.length = data.length := by
  have := congrArg List.length h
  rw [List.length_drop] at this
  omega

theorem fread_eq (n : Nat) (data : List Byte) (p : Nat) :
    fread n ⟨data, p⟩ =
      ((data.drop p).take n, ⟨data, p + ((data.drop p).take n).length⟩) := by
  unfold fread
  rfl

theorem ReadShort_eq (data : List Byte) (p : Nat) :
    _ReadShort ⟨data, p⟩ =
      (toInt16 (leValue ((data.drop p).take 2)),
        ⟨data, p + ((data.drop p).take 2).length⟩) := by
  unfold _ReadShort
  rw [fread_eq]

theorem ReadInt_eq (data : List Byte) (p : Nat) :
    _ReadInt ⟨data, p⟩ =
      (toInt32 (leValue ((data.drop p).take 4)),
        ⟨data, p + ((data.drop p).take 4).length⟩) := by
  unfold _ReadInt
  rw [fread_eq]

theorem fread_of_le (n : Nat) (data : List Byte) (p : Nat) (h : p + n ≤ data.length) :
    fread n ⟨data, p⟩ = ((data.drop p).take n, ⟨data, p + n⟩) := by
  rw [fread_eq]
  simp only [List.length_take, List.length_drop]
  rw [Nat.min_eq_left (by omega)]

theorem ReadShort_of_le (data : List Byte) (p : Nat) (h : p + 2 ≤ data.length) :
    _ReadShort ⟨data, p⟩ = (toInt16 (leValue ((data.drop p).take 2)), ⟨data, p + 2⟩) := by
  unfold _ReadShort
  rw [fread_of_le 2 data p h]

theorem ReadInt_of_le (data : List Byte) (p : Nat) (h : p + 4 ≤ data.length) :
    _ReadInt ⟨data, p⟩ = (toInt32 (leValue ((data.drop p).take 4)), ⟨data, p + 4⟩) := by
  unfold _ReadInt
  rw [fread_of_le 4 data p h]

theorem fseek_set_nat (fp : FILE) (n : Nat) :
    fseek fp (n : Int) Whence.SEEK_SET = ⟨fp.data, n⟩ := by
  unfold fseek
  simp

theorem fseek_cur_nonneg (data : List Byte) (p : Nat) (m : Int) (h : 0 ≤ m) :
    fseek ⟨data, p⟩ m Whence.SEEK_CUR = ⟨data, p + m.toNat⟩ := by
  unfold fseek
  simp only
  rw [if_pos (by omega)]
  congr 1
  omega

theorem fseek_cur_refused (data : List Byte) (p : Nat) (m : Int) (h : (p : Int) + m < 0) :
    fseek ⟨data, p⟩ m Whence.SEEK_CUR = ⟨data, p⟩ := by
  unfold fseek
  simp only
  rw [if_neg (by omega)]

theorem leValue_nil : leValue [] = 0 := by
  unfold leValue
  rfl

theorem leValue_cons (b : Byte) (bs : List Byte) :
    leValue (b :: bs) = b.val + 256 * leValue bs := by
  unfold leValue
  rfl

theorem toInt16_of_lt (n : Nat) (h : n < 32768) : toInt16 n = (n : Int) := by
  unfold toInt16
  rw [Nat.mod_eq_of_lt (by omega), if_pos h]

theorem toInt32_of_lt (n : Nat) (h : n < 2147483648) : toInt32 n = (n : Int) := by
  unfold toInt32
  rw [Nat.mod_eq_of_lt (by omega), if_pos h]

/-! ## Name comparison and lookup -/

theorem SDL_toupper_eq_zero (c : Byte) : SDL_toupper c = 0 ↔ c = 0 := by
  unfold SDL_toupper
  split_ifs with h
  · simp only [Fin.ext_iff]
    simp
    omega
  · rfl

theorem SDL_toupper_eq_iff (x y : Byte) :
    SDL_toupper x = SDL_toupper y ↔ asciiLower x = asciiLower y := by
  unfold SDL_toupper asciiLower
  split_ifs <;> simp only [Fin.ext_iff] <;> omega

theorem val_sub_eq_zero (x y : Byte) : ((x.val : Int) - (y.val : Int) = 0) ↔ x = y := by
  rw [Fin.ext_iff]; omega

theorem SDL_strcasecmp_eq_zero (a b : List Byte) :
    SDL_strcasecmp a b = 0 ↔ sameUpToCase a b := by
  induction a generalizing b with
  | nil =>
    cases b with
    | nil => simp [SDL_strcasecmp, sameUpToCase]
    | cons y bs =>
      have h0 := SDL_toupper_eq_zero y
      simp only [SDL_strcasecmp, sameUpToCase, cstr, List.takeWhile_nil, List.map_nil, List.takeWhile_cons]
      by_cases hy : y = 0
      · subst hy
        simp [SDL_toupper]
      · have : SDL_toupper y ≠ 0 := fun h => hy (h0.mp h)
        simp [hy]
        intro h
        exact this (Fin.ext (by simpa using h))
  | cons x as ih =>
    cases b with
    | nil =>
      have h0 := SDL_toupper_eq_zero x
      simp only [SDL_strcasecmp, sameUpToCase, cstr, List.takeWhile_nil, List.map_nil, List.takeWhile_cons]
      by_cases hx : x = 0
      · subst hx
        simp [SDL_toupper]
      · have : SDL_toupper x ≠ 0 := fun h => hx (h0.mp h)
        simp [hx]
        intro h
        exact this (Fin.ext (by simpa using h))
    | cons y bs =>
      have hx0 := SDL_toupper_eq_zero x
      have hy0 := SDL_toupper_eq_zero y
      have hxy := SDL_toupper_eq_iff x y
      rw [SDL_strcasecmp]
      by_cases hc : x ≠ 0 ∧ y ≠ 0 ∧ SDL_toupper x = SDL_toupper y
      · rw [if_pos hc, ih bs]
        obtain ⟨hx, hy, he⟩ := hc
        simp [sameUpToCase, cstr, hx, hy, hxy.mp he]
      · rw [if_neg hc, val_sub_eq_zero]
        by_cases hx : x = 0
        · by_cases hy : y = 0
          · subst hx; subst hy; simp [sameUpToCase, cstr]
          · subst hx
            simp only [sameUpToCase, cstr, List.takeWhile_cons]
            simp [hy]
            intro h
            exact hy (hy0.mp h.symm)
        · by_cases hy : y = 0
          · subst hy
            simp only [sameUpToCase, cstr, List.takeWhile_cons]
            simp [hx]
            intro h
            exact hx (hx0.mp h)
          · have hne : SDL_toupper x ≠ SDL_toupper y := fun h => hc ⟨hx, hy, h⟩
            simp only [sameUpToCase, cstr, List.takeWhile_cons]
            simp [hx, hy]
            constructor
            · intro h; exact absurd h hne
            · intro h; exact absurd (hxy.mpr h.1) hne

theorem readZipFileEntry_for_eq_find (name : List Byte) (es : List zip_entry_t) :
    ∀ (es1 : List zip_entry_t) (i : Nat), es.drop i = es1 →
      readZipFileEntry_for name (some es) es1.length i =
        Outcome.ok (es1.find? (fun e => decide (SDL_strcasecmp name e.name = 0))) := by
  intro es1
  induction es1 with
  | nil => intro i _; rfl
  | cons e t ih =>
    intro i h
    have hget : es.get? i = some e := by
      have := congrArg List.head? h
      simpa [List.head?_drop] using this
    have ht : es.drop (i + 1) = t := by
      rw [← List.drop_drop, h]
      rfl
    simp only [List.length_cons, readZipFileEntry_for, hget, List.find?_cons]
    by_cases hm : SDL_strcasecmp name e.name = 0
    · simp [hm]
    · simp [hm, ih (i + 1) ht]

theorem find_first {α : Type} (p : α → Bool) :
    ∀ (l : List α) (i : Nat) (a : α), l.get? i = some a → p a = true →
      (∀ j b, j < i → l.get? j = some b → p b = false) → l.find? p = some a := by
  intro l
  induction l with
  | nil => intro i a h; simp at h
  | cons x t ih =>
    intro i a h hp hfirst
    cases i with
    | zero =>
      simp at h
      subst h
      simp [List.find?_cons, hp]
    | succ i =>
      have hx : p x = false := hfirst 0 x (Nat.succ_pos i) rfl
      simp only [List.find?_cons, hx]
      apply ih i a (by simpa using h) hp
      intro j b hj hb
      exact hfirst (j + 1) b (by omega) (by simpa using hb)

theorem readZipFileEntry_payload_ne_didNotFind (z : Zlib) (e : zip_entry_t) (m : Int)
    (fp : FILE) : readZipFileEntry_payload z e m fp ≠ Outcome.fatal Fatal.didNotFind := by
  unfold readZipFileEntry_payload
  simp only [DoomRPG_Error]
  split_ifs <;> simp

theorem readZipFileEntry_extract_ne_didNotFind (z : Zlib) (e : zip_entry_t) (fp : FILE) :
    readZipFileEntry_extract z e fp ≠ Outcome.fatal Fatal.didNotFind := by
  unfold readZipFileEntry_extract
  simp only [DoomRPG_Error]
  split_ifs
  · simp
  · simp
  · exact readZipFileEntry_payload_ne_didNotFind _ _ _ _

theorem readZipFileEntry_found_ne_didNotFind (z : Zlib) (e : zip_entry_t) (h : zip_file_t) :
    readZipFileEntry_found z e h ≠ Outcome.fatal Fatal.didNotFind := by
  unfold readZipFileEntry_found
  cases hf : h.file with
  | none => simp
  | some fp =>
    have := readZipFileEntry_extract_ne_didNotFind z e fp
    simp only [withStream]
    cases hx : readZipFileEntry_extract z e fp with
    | ok r => simp
    | fatal f =>
      rw [hx] at this
      simpa using this
    | undefined => simp

/-! ## Local header -/

/-- With a complete 30-byte local header at `off`, extraction is decided by the
signature, the encryption bit, and then the payload step at the position reached by
skipping name and extra field. -/
theorem readZipFileEntry_extract_header (z : Zlib) (fp : FILE) (e : zip_entry_t) (off : Nat)
    (s0 s1 s2 s3 v0 v1 g0 g1 k0 k1 t0 t1 d0 d1 c0 c1 c2 c3 a0 a1 a2 a3 u0 u1 u2 u3 n0 n1 m0 m1 : Byte)
    (rest : List Byte)
    (hoff : e.offset = (off : Int))
    (hhdr : fp.data.drop off =
      [s0, s1, s2, s3, v0, v1, g0, g1, k0, k1, t0, t1, d0, d1, c0, c1, c2, c3,
        a0, a1, a2, a3, u0, u1, u2, u3, n0, n1, m0, m1] ++ rest) :
    readZipFileEntry_extract z e fp =
      if toInt32 (leValue [s0, s1, s2, s3]) ≠ ZIP_LOCAL_FILE_SIG then
        Outcome.fatal (Fatal.wrongLocalSig (toInt32 (leValue [s0, s1, s2, s3])))
      else if flagSet (toInt16 (leValue [g0, g1])) ZIP_ENCRYPTED_FLAG then
        Outcome.fatal Fatal.encrypted
      else
        readZipFileEntry_payload z e (toInt16 (leValue [k0, k1]))
          (fseek ⟨fp.data, off + 30⟩ (toInt16 (leValue [n0, n1]) + toInt16 (leValue [m0, m1]))
            Whence.SEEK_CUR) := by
  have hd : ∀ k, fp.data.drop (off + k) = ([s0, s1, s2, s3, v0, v1, g0, g1, k0, k1, t0, t1, d0, d1, c0, c1, c2, c3,
        a0, a1, a2, a3, u0, u1, u2, u3, n0, n1, m0, m1] ++ rest).drop k := fun k => drop_add_of_drop hhdr k
  unfold readZipFileEntry_extract
  rw [hoff]
  simp only [fseek_set_nat, ReadInt_eq, ReadShort_eq, hhdr, hd, List.cons_append, List.nil_append, List.drop_succ_cons, List.drop_zero, List.take_succ_cons, List.take_zero, List.length_cons, List.length_nil, Nat.add_assoc, Nat.reduceAdd, DoomRPG_Error]

/-! ## Extraction after the lookup -/

theorem readZipFileEntry_of_lookup (z : Zlib) (name : List Byte) (zipFile : zip_file_t)
    (e : zip_entry_t) (fp : FILE) (hfile : zipFile.file = some fp)
    (hlook : readZipFileEntry_for name zipFile.entry zipFile.entry_count.toNat 0 =
      Outcome.ok (some e)) :
    readZipFileEntry z name zipFile = withStream zipFile (readZipFileEntry_extract z e fp) := by
  unfold readZipFileEntry
  rw [hlook]
  simp only [readZipFileEntry_found, hfile]

theorem observed_withStream {α : Type} (zipFile : zip_file_t) (o : Outcome (α × FILE)) :
    observed (withStream zipFile o) = observed o := by
  cases o with
  | ok r => rfl
  | fatal f => rfl
  | undefined => rfl

theorem leValue_pair (a b : Byte) : leValue [a, b] = a.val + 256 * b.val := by
  simp [leValue_cons, leValue_nil]

theorem flagSet_general (g0 g1 : Byte) :
    flagSet (toInt16 (leValue [g0, g1])) ZIP_ENCRYPTED_FLAG = decide (g0.val % 2 = 1) := by
  have h0 := g0.isLt
  have h1 := g1.isLt
  rw [leValue_pair]
  unfold flagSet toInt16 ZIP_ENCRYPTED_FLAG
  rw [Nat.mod_eq_of_lt (by omega)]
  congr 1
  apply propext
  split_ifs <;> omega

theorem toInt16_pair_eq (k0 k1 : Byte) (c : Nat) (hc : c < 32768) :
    toInt16 (leValue [k0, k1]) = (c : Int) ↔ k0.val + 256 * k1.val = c := by
  have h0 := k0.isLt
  have h1 := k1.isLt
  rw [leValue_pair]
  unfold toInt16
  rw [Nat.mod_eq_of_lt (by omega)]
  split_ifs <;> omega

theorem toInt16_pair_of_lt (n0 n1 : Byte) (h : n1.val < 128) :
    toInt16 (leValue [n0, n1]) = ((n0.val + 256 * n1.val : Nat) : Int) := by
  have h0 := n0.isLt
  rw [leValue_pair]
  exact toInt16_of_lt _ (by omega)

theorem readZipFileEntry_payload_stored (z : Zlib) (e : zip_entry_t) (data : List Byte)
    (q : Nat) (hcs : 0 ≤ e.csize) (hq : q + e.csize.toNat ≤ data.length) :
    readZipFileEntry_payload z e 0 ⟨data, q⟩ =
      Outcome.ok ((((data.drop q).take e.csize.toNat).map some, e.usize),
        ⟨data, q + e.csize.toNat⟩) := by
  unfold readZipFileEntry_payload
  rw [if_neg (by omega), fread_of_le _ _ _ hq]
  simp only [if_true, List.length_take, List.length_drop]
  rw [Nat.min_eq_left (by omega)]
  simp

theorem readZipFileEntry_payload_unknown (z : Zlib) (e : zip_entry_t) (fp : FILE) (m : Int)
    (hcs : 0 ≤ e.csize) (h0 : m ≠ 0) (h8 : m ≠ 8) :
    readZipFileEntry_payload z e m fp = Outcome.fatal (Fatal.unknownMethod m) := by
  unfold readZipFileEntry_payload
  rw [if_neg (by omega)]
  simp only [if_neg h0, if_neg h8, DoomRPG_Error]

theorem readZipFileEntry_payload_deflated (z : Zlib) (e : zip_entry_t) (data : List Byte)
    (q : Nat) (hcs : 0 ≤ e.csize) (hus : 0 ≤ e.usize)
    (hq : q + e.csize.toNat ≤ data.length) :
    readZipFileEntry_payload z e 8 ⟨data, q⟩ =
      if z.inflateInit2 (-15) ≠ Z_OK then Outcome.fatal Fatal.inflateInit2Error
      else if (z.inflate ((data.drop q).take e.csize.toNat) e.usize.toNat).code ≠ Z_STREAM_END
      then Outcome.fatal Fatal.inflateError
      else if z.inflateEnd ((data.drop q).take e.csize.toNat) e.usize.toNat ≠ Z_OK then
        Outcome.fatal Fatal.inflateEndError
      else
        Outcome.ok
          ((((z.inflate ((data.drop q).take e.csize.toNat) e.usize.toNat).out.take
                  e.usize.toNat).map some ++
              List.replicate
                (e.usize.toNat -
                  (z.inflate ((data.drop q).take e.csize.toNat) e.usize.toNat).out.length)
                none,
            e.usize), ⟨data, q + e.csize.toNat⟩) := by
  unfold readZipFileEntry_payload
  rw [if_neg (by omega), fread_of_le _ _ _ hq]
  have hlen : ((data.drop q).take e.csize.toNat).length = e.csize.toNat := by
    simp only [List.length_take, List.length_drop]
    omega
  have hu : ¬ e.usize < 0 := by omega
  have h80 : ¬ ((8 : Int) = 0) := by decide
  simp only [hlen, DoomRPG_Error, hu, h80, Nat.lt_irrefl, if_false, if_true]

/-! ## Local header followed by a possibly truncated tail -/

theorem readZipFileEntry_extract_header26 (z : Zlib) (fp : FILE) (e : zip_entry_t) (off : Nat)
    (s0 s1 s2 s3 v0 v1 g0 g1 k0 k1 t0 t1 d0 d1 c0 c1 c2 c3 a0 a1 a2 a3 u0 u1 u2 u3 : Byte)
    (post : List Byte)
    (hoff : e.offset = (off : Int))
    (hhdr : fp.data.drop off =
      [s0, s1, s2, s3, v0, v1, g0, g1, k0, k1, t0, t1, d0, d1, c0, c1, c2, c3,
        a0, a1, a2, a3, u0, u1, u2, u3] ++ post) :
    readZipFileEntry_extract z e fp =
      if toInt32 (leValue [s0, s1, s2, s3]) ≠ ZIP_LOCAL_FILE_SIG then
        Outcome.fatal (Fatal.wrongLocalSig (toInt32 (leValue [s0, s1, s2, s3])))
      else if flagSet (toInt16 (leValue [g0, g1])) ZIP_ENCRYPTED_FLAG then
        Outcome.fatal Fatal.encrypted
      else
        readZipFileEntry_payload z e (toInt16 (leValue [k0, k1]))
          (fseek ⟨fp.data, off + 26 + min 4 post.length⟩
            (toInt16 (leValue (post.take 2)) + toInt16 (leValue ((post.drop 2).take 2)))
            Whence.SEEK_CUR) := by
  have hd : ∀ k, fp.data.drop (off + k) = ([s0, s1, s2, s3, v0, v1, g0, g1, k0, k1, t0, t1, d0, d1, c0, c1, c2, c3,
        a0, a1, a2, a3, u0, u1, u2, u3] ++ post).drop k := fun k => drop_add_of_drop hhdr k
  unfold readZipFileEntry_extract
  rw [hoff]
  rcases post with _ | ⟨p0, _ | ⟨p1, _ | ⟨p2, _ | ⟨p3, rest⟩⟩⟩⟩ <;>
  simp only [fseek_set_nat, ReadInt_eq, ReadShort_eq, hhdr, hd, List.cons_append, List.nil_append, List.append_nil, List.drop_succ_cons, List.drop_zero, List.take_succ_cons, List.take_zero, List.length_cons, List.length_nil, Nat.add_assoc, Nat.reduceAdd, DoomRPG_Error, List.drop_nil, List.take_nil, Nat.add_zero, Nat.min_def] <;> simp

theorem observed_payload_congr (z : Zlib) (e : zip_entry_t) (m : Int) (d1 d2 : List Byte)
    (q : Nat) (h : d1.drop q = d2.drop q) :
    observed (readZipFileEntry_payload z e m ⟨d1, q⟩) =
      observed (readZipFileEntry_payload z e m ⟨d2, q⟩) := by
  unfold readZipFileEntry_payload
  simp only [fread_eq, h, DoomRPG_Error]
  split_ifs <;> rfl

/-! ## Central directory -/

theorem byteOf_val (n k : Nat) : (byteOf n k).val = n / 256 ^ k % 256 := rfl

theorem leValue_le16 (n : Nat) : leValue [byteOf n 0, byteOf n 1] = n % 65536 := by
  simp only [leValue_cons, leValue_nil, byteOf_val]
  omega

theorem leValue_le32 (n : Nat) :
    leValue [byteOf n 0, byteOf n 1, byteOf n 2, byteOf n 3] = n % 4294967296 := by
  simp only [leValue_cons, leValue_nil, byteOf_val]
  omega

theorem toInt32_mod (n : Nat) : toInt32 (n % 4294967296) = toInt32 n := by
  unfold toInt32
  rw [Nat.mod_mod]

theorem toInt16_le16_of_le (n : Nat) (h : n ≤ 32767) :
    toInt16 (leValue [byteOf n 0, byteOf n 1]) = (n : Int) := by
  rw [leValue_le16, Nat.mod_eq_of_lt (by omega), toInt16_of_lt _ (by omega)]

theorem CDRecord.encode_eq (r : CDRecord) :
    r.encode =
      0x50 :: 0x4B :: 1 :: 2 :: byteOf r.versionMadeBy 0 :: byteOf r.versionMadeBy 1 ::
      byteOf r.versionNeeded 0 :: byteOf r.versionNeeded 1 ::
      byteOf r.flags 0 :: byteOf r.flags 1 :: byteOf r.method 0 :: byteOf r.method 1 ::
      byteOf r.time 0 :: byteOf r.time 1 :: byteOf r.date 0 :: byteOf r.date 1 ::
      byteOf r.crc 0 :: byteOf r.crc 1 :: byteOf r.crc 2 :: byteOf r.crc 3 ::
      byteOf r.csize 0 :: byteOf r.csize 1 :: byteOf r.csize 2 :: byteOf r.csize 3 ::
      byteOf r.usize 0 :: byteOf r.usize 1 :: byteOf r.usize 2 :: byteOf r.usize 3 ::
      byteOf r.name.length 0 :: byteOf r.name.length 1 ::
      byteOf r.extra.length 0 :: byteOf r.extra.length 1 ::
      byteOf r.comment.length 0 :: byteOf r.comment.length 1 ::
      byteOf r.diskStart 0 :: byteOf r.diskStart 1 ::
      byteOf r.intAttr 0 :: byteOf r.intAttr 1 ::
      byteOf r.extAttr 0 :: byteOf r.extAttr 1 :: byteOf r.extAttr 2 :: byteOf r.extAttr 3 ::
      byteOf r.offset 0 :: byteOf r.offset 1 :: byteOf r.offset 2 :: byteOf r.offset 3 ::
      (r.name ++ (r.extra ++ r.comment)) := rfl

theorem CDRecord.encode_length (r : CDRecord) :
    r.encode.length = 46 + r.name.length + r.extra.length + r.comment.length := by
  rw [CDRecord.encode_eq]
  simp only [List.length_cons, List.length_append]
  omega

theorem findAndReadZipDir_body_record (data : List Byte) (p : Nat) (r : CDRecord)
    (rest : List Byte) (h : data.drop p = r.encode ++ rest)
    (hn : r.name.length ≤ 32767) (hx : r.extra.length ≤ 32767)
    (hk : r.comment.length ≤ 32767) :
    findAndReadZipDir_body ⟨data, p⟩ =
      Outcome.ok (r.toEntry, ⟨data, p + r.encode.length⟩) := by
  rw [CDRecord.encode_eq] at h
  simp only [List.cons_append] at h
  have hd := fun k => drop_add_of_drop h k
  unfold findAndReadZipDir_body
  simp only [ReadInt_eq, ReadShort_eq, h, hd, List.cons_append, List.nil_append,
    List.drop_succ_cons, List.drop_zero, List.take_succ_cons, List.take_zero,
    List.length_cons, List.length_nil, Nat.add_assoc, Nat.reduceAdd, DoomRPG_Error,
    leValue_le16, leValue_le32]
  have h46 : data.drop (p + 46) = r.name ++ ((r.extra ++ r.comment) ++ rest) := by
    rw [hd 46]
    simp only [List.drop_succ_cons, List.drop_zero, List.append_assoc]
  have en : toInt16 (r.name.length % 65536) = (r.name.length : Int) := by
    rw [Nat.mod_eq_of_lt (by omega), toInt16_of_lt _ (by omega)]
  have ex : toInt16 (r.extra.length % 65536) = (r.extra.length : Int) := by
    rw [Nat.mod_eq_of_lt (by omega), toInt16_of_lt _ (by omega)]
  have ek : toInt16 (r.comment.length % 65536) = (r.comment.length : Int) := by
    rw [Nat.mod_eq_of_lt (by omega), toInt16_of_lt _ (by omega)]
  have es : toInt32 (leValue [80, 75, 1, 2]) = ZIP_CENTRAL_DIRECTORY_SIG := by decide!
  rw [en, ex, ek, Int.toNat_ofNat, fread_eq, h46, List.take_left, toInt32_mod, toInt32_mod,
    toInt32_mod]
  simp only [es, ne_eq, not_true_eq_false, if_false, Nat.lt_irrefl]
  rw [if_neg (by omega), fseek_cur_nonneg _ _ _ (by omega), fseek_cur_nonneg _ _ _ (by omega),
    CDRecord.encode_length]
  simp only [Int.toNat_ofNat, CDRecord.toEntry, Nat.add_assoc]

theorem encodeRecords_cons (r : CDRecord) (rs : List CDRecord) :
    encodeRecords (r :: rs) = r.encode ++ encodeRecords rs := rfl

theorem findAndReadZipDir_for_records (data : List Byte) :
    ∀ (recs : List CDRecord) (p : Nat) (rest : List Byte),
      data.drop p = encodeRecords recs ++ rest →
      (∀ r ∈ recs, r.name.length ≤ 32767 ∧ r.extra.length ≤ 32767 ∧
        r.comment.length ≤ 32767) →
      findAndReadZipDir_for recs.length ⟨data, p⟩ =
        Outcome.ok (recs.map CDRecord.toEntry, ⟨data, p + (encodeRecords recs).length⟩) := by
  intro recs
  induction recs with
  | nil =>
    intro p rest _ _
    rfl
  | cons r rs ih =>
    intro p rest h hl
    rw [encodeRecords_cons, List.append_assoc] at h
    obtain ⟨hn, hx, hk⟩ := hl r (List.mem_cons_self r rs)
    have hb := findAndReadZipDir_body_record data p r _ h hn hx hk
    have hnext : data.drop (p + r.encode.length) = encodeRecords rs ++ rest := by
      rw [drop_add_of_drop h, List.drop_left]
    have hrest := ih (p + r.encode.length) rest hnext
      (fun r1 h1 => hl r1 (List.mem_cons_of_mem r h1))
    simp only [List.length_cons, findAndReadZipDir_for, hb, hrest, List.map_cons,
      encodeRecords_cons, List.length_append, Nat.add_assoc]

theorem findAndReadZipDir_eocd (zipFile : zip_file_t) (fp : FILE) (startoffset : Nat)
    (s0 s1 s2 s3 d0 d1 b0 b1 e0 e1 c0 c1 z0 z1 z2 z3 o0 o1 o2 o3 : Byte) (tail : List Byte)
    (hfile : zipFile.file = some fp)
    (h : fp.data.drop startoffset =
      [s0, s1, s2, s3, d0, d1, b0, b1, e0, e1, c0, c1, z0, z1, z2, z3, o0, o1, o2, o3] ++
        tail) :
    findAndReadZipDir zipFile (startoffset : Int) =
      if toInt32 (leValue [s0, s1, s2, s3]) ≠ ZIP_END_OF_CENTRAL_DIRECTORY_SIG then
        Outcome.fatal (Fatal.wrongEOCDSig (toInt32 (leValue [s0, s1, s2, s3])))
      else if toInt16 (leValue [c0, c1]) ≤ 0 then Outcome.fatal Fatal.noEntries
      else
        withEntries (toInt16 (leValue [c0, c1]))
          (findAndReadZipDir_for (toInt16 (leValue [c0, c1])).toNat
            (fseek ⟨fp.data, startoffset + 20⟩ (toInt32 (leValue [o0, o1, o2, o3]))
              Whence.SEEK_SET)) := by
  have hd := fun k => drop_add_of_drop h k
  unfold findAndReadZipDir
  rw [hfile]
  simp only [fseek_set_nat, ReadInt_eq, ReadShort_eq, h, hd, List.cons_append,
    List.nil_append, List.drop_succ_cons, List.drop_zero, List.take_succ_cons, List.take_zero,
    List.length_cons, List.length_nil, Nat.add_assoc, Nat.reduceAdd, DoomRPG_Error]

theorem toInt16_zero : toInt16 0 = 0 := by unfold toInt16; simp

/-! ## The search loop has rounds to spare

One more round than `maxback - back` changes nothing: the bound on the rounds of
`openZipFile_while` is never what ends the loop. -/

theorem openZipFile_while_fuel (filesize maxback : Int) :
    ∀ (fuel : Nat) (fp : FILE) (buf : List Cell) (back : Int),
      maxback - back ≤ (fuel : Int) →
      openZipFile_while filesize maxback (fuel + 1) fp buf back =
        openZipFile_while filesize maxback fuel fp buf back := by
  intro fuel
  induction fuel with
  | zero =>
    intro fp buf back h
    have hb : ¬ back < maxback := by omega
    simp only [openZipFile_while, hb, if_false]
  | succ n ih =>
    intro fp buf back h
    by_cases hb : back < maxback
    · have hstep := fun (fp1 : FILE) (buf1 : List Cell) =>
        ih fp1 buf1 (back + (512 - 4)) (by omega)
      simp only [openZipFile_while, hb, if_true] at hstep ⊢
      simp only [hstep]
    · simp only [openZipFile_while, hb, if_false]

/-! ## Values of the readers -/

theorem leValue_quad (a b c d : Byte) :
    leValue [a, b, c, d] = a.val + 256 * b.val + 65536 * c.val + 16777216 * d.val := by
  simp only [leValue_cons, leValue_nil]
  omega

theorem toInt16_eq (n : Nat) (h : n < 65536) :
    toInt16 n = if n < 32768 then (n : Int) else (n : Int) - 65536 := by
  unfold toInt16
  rw [Nat.mod_eq_of_lt h]

theorem toInt32_eq (n : Nat) (h : n < 4294967296) :
    toInt32 n = if n < 2147483648 then (n : Int) else (n : Int) - 4294967296 := by
  unfold toInt32
  rw [Nat.mod_eq_of_lt h]

theorem leValue_lt (bs : List Byte) : leValue bs < 256 ^ bs.length := by
  induction bs with
  | nil => rw [leValue_nil]; simp
  | cons b bs ih =>
    rw [leValue_cons, List.length_cons, pow_succ]
    have := b.isLt
    omega

theorem leValue_eq_zero (bs : List Byte) : leValue bs = 0 ↔ ∀ b ∈ bs, b = 0 := by
  induction bs with
  | nil => rw [leValue_nil]; simp
  | cons b bs ih =>
    rw [leValue_cons]
    constructor
    · intro h
      have h1 : b.val = 0 := by omega
      have h2 : leValue bs = 0 := by omega
      intro c hc
      rcases List.mem_cons.mp hc with hc | hc
      · rw [hc]; exact Fin.ext h1
      · exact ih.mp h2 c hc
    · intro h
      have h1 : b = 0 := h b (List.mem_cons_self _ _)
      have h2 : leValue bs = 0 := ih.mpr (fun c hc => h c (List.mem_cons_of_mem _ hc))
      rw [h1, h2]
      rfl

theorem toInt32_zero : toInt32 0 = 0 := by unfold toInt32; simp

theorem fseek_end_zero (data : List Byte) (p : Nat) :
    fseek ⟨data, p⟩ 0 Whence.SEEK_END = ⟨data, data.length⟩ := by
  unfold fseek
  simp

theorem fseek_set_zero (fp : FILE) : fseek fp 0 Whence.SEEK_SET = ⟨fp.data, 0⟩ :=
  fseek_set_nat fp 0

theorem filesizeOf_of_lt (data : List Byte) (h : data.length < 2147483648) :
    filesizeOf data = (data.length : Int) := by
  unfold filesizeOf
  exact toInt32_of_lt _ h

theorem openZipFile_locate_eq (data : List Byte) :
    openZipFile_locate (some data) =
      openZipFile_while (filesizeOf data) (MIN (filesizeOf data) (0xFFFF + 512))
        (MIN (filesizeOf data) (0xFFFF + 512)).toNat ⟨data, 0⟩ (List.replicate 512 none)
        (MIN (MIN (filesizeOf data) (0xFFFF + 512)) 512) := by
  unfold openZipFile_locate filesizeOf
  simp only [fseek_end_zero, fseek_set_zero]

theorem openZipFile_while_done (filesize maxback : Int) (fuel : Nat) (fp : FILE)
    (buf : List Cell) (back : Int) (h : ¬ back < maxback) :
    openZipFile_while filesize maxback fuel fp buf back =
      Outcome.fatal Fatal.cannotFindEOCD := by
  cases fuel <;> simp only [openZipFile_while, h, if_false, DoomRPG_Error]

theorem readZipFileEntry_payload_ok (z : Zlib) (e : zip_entry_t) (m : Int) (fp fp' : FILE)
    (buf : List Cell) (len : Int)
    (h : readZipFileEntry_payload z e m fp = Outcome.ok ((buf, len), fp')) :
    len = e.usize ∧ 0 ≤ e.csize ∧
      ((m = 0 ∧ (buf.length : Int) = e.csize) ∨
        (m = 8 ∧ 0 ≤ e.usize ∧ (buf.length : Int) = e.usize)) := by
  unfold readZipFileEntry_payload at h
  simp only [DoomRPG_Error] at h
  split_ifs at h with h1 h2 h3 h4 h5 h6 h7 h8
  · simp only [Outcome.ok.injEq, Prod.mk.injEq] at h
    obtain ⟨⟨hb, hl⟩, _⟩ := h
    refine ⟨hl.symm, by omega, Or.inl ⟨h2, ?_⟩⟩
    rw [← hb]
    simp only [List.length_append, List.length_map, List.length_replicate, fread,
      List.length_take, List.length_drop]
    omega
  · simp only [Outcome.ok.injEq, Prod.mk.injEq] at h
    obtain ⟨⟨hb, hl⟩, _⟩ := h
    refine ⟨hl.symm, by omega, Or.inr ⟨h3, by omega, ?_⟩⟩
    rw [← hb]
    simp only [List.length_append, List.length_map, List.length_replicate,
      List.length_take]
    omega

theorem readZipFileEntry_extract_ok (z : Zlib) (e : zip_entry_t) (fp0 : FILE)
    (r : (List Cell × Int) × FILE) (h : readZipFileEntry_extract z e fp0 = Outcome.ok r) :
    ∃ (m : Int) (fp : FILE), readZipFileEntry_payload z e m fp = Outcome.ok r := by
  unfold readZipFileEntry_extract at h
  simp only [DoomRPG_Error] at h
  split_ifs at h
  exact ⟨_, _, h⟩

theorem readZipFileEntry_for_ok (name : List Byte) (entry : Option (List zip_entry_t))
    (e : zip_entry_t) :
    ∀ (n i : Nat), readZipFileEntry_for name entry n i = Outcome.ok (some e) →
      ∃ es, entry = some es ∧ e ∈ es ∧ SDL_strcasecmp name e.name = 0 := by
  intro n
  induction n with
  | zero => intro i h; simp [readZipFileEntry_for] at h
  | succ n ih =>
    intro i h
    cases entry with
    | none => simp [readZipFileEntry_for] at h
    | some es =>
      simp only [readZipFileEntry_for] at h
      cases hg : es.get? i with
      | none => rw [hg] at h; simp at h
      | some e1 =>
        rw [hg] at h
        simp only at h
        split_ifs at h with hc
        · simp only [Outcome.ok.injEq, Option.some.injEq] at h
          subst h
          exact ⟨es, rfl, List.get?_mem hg, hc⟩
        · exact ih (i + 1) h

theorem findAndReadZipDir_body_long_comment (data : List Byte) (p : Nat) (r : CDRecord)
    (rest : List Byte) (h : data.drop p = r.encode ++ rest)
    (hn : r.name.length ≤ 32767) (hx : r.extra.length ≤ 32767)
    (hk : 32768 ≤ r.comment.length) (hk2 : r.comment.length ≤ 65535)
    (hp : p + 46 + r.name.length + r.extra.length + r.comment.length < 65536) :
    findAndReadZipDir_body ⟨data, p⟩ =
      Outcome.ok (r.toEntry, ⟨data, p + 46 + r.name.length + r.extra.length⟩) := by
  rw [CDRecord.encode_eq] at h
  simp only [List.cons_append] at h
  have hd := fun k => drop_add_of_drop h k
  unfold findAndReadZipDir_body
  simp only [ReadInt_eq, ReadShort_eq, h, hd, List.cons_append, List.nil_append,
    List.drop_succ_cons, List.drop_zero, List.take_succ_cons, List.take_zero,
    List.length_cons, List.length_nil, Nat.add_assoc, Nat.reduceAdd, DoomRPG_Error,
    leValue_le16, leValue_le32]
  have h46 : data.drop (p + 46) = r.name ++ ((r.extra ++ r.comment) ++ rest) := by
    rw [hd 46]
    simp only [List.drop_succ_cons, List.drop_zero, List.append_assoc]
  have en : toInt16 (r.name.length % 65536) = (r.name.length : Int) := by
    rw [Nat.mod_eq_of_lt (by omega), toInt16_of_lt _ (by omega)]
  have ex : toInt16 (r.extra.length % 65536) = (r.extra.length : Int) := by
    rw [Nat.mod_eq_of_lt (by omega), toInt16_of_lt _ (by omega)]
  have ek : toInt16 (r.comment.length % 65536) = (r.comment.length : Int) - 65536 := by
    rw [Nat.mod_eq_of_lt (by omega), toInt16_eq _ (by omega), if_neg (by omega)]
  have es : toInt32 (leValue [80, 75, 1, 2]) = ZIP_CENTRAL_DIRECTORY_SIG := by decide!
  rw [en, ex, ek, Int.toNat_ofNat, fread_eq, h46, List.take_left, toInt32_mod, toInt32_mod,
    toInt32_mod]
  simp only [es, ne_eq, not_true_eq_false, if_false, Nat.lt_irrefl]
  rw [if_neg (by omega), fseek_cur_nonneg data _ (r.extra.length : Int) (by omega),
    fseek_cur_refused data _ ((r.comment.length : Int) - 65536)
      (by simp only [Int.toNat_ofNat]; omega)]
  simp only [Int.toNat_ofNat, CDRecord.toEntry, Nat.add_assoc]

/-! ## The search loop of `openZipFile` -/

theorem memcmpMagic_window (w : List Byte) (j : Nat) (h : j + 4 ≤ w.length) :
    memcmpMagic (w.map some) j = some (decide ((w.drop j).take 4 = eocdMagic)) := by
  unfold memcmpMagic
  rw [← List.map_drop]
  have hl : 4 ≤ (w.drop j).length := by rw [List.length_drop]; omega
  match hw : w.drop j, hl with
  | a :: b :: c :: d :: rest, _ =>
    simp only [List.map_cons, List.take_succ_cons, List.take_zero]

theorem take_drop_window (data : List Byte) (lo j : Nat) (h : j + 4 ≤ 512) :
    (((data.drop lo).take 512).drop j).take 4 = (data.drop (lo + j)).take 4 := by
  rw [List.drop_take, List.take_take, List.drop_drop, Nat.min_eq_left (by omega),
    Nat.add_comm]

theorem openZipFile_for_window (data : List Byte) (lo : Nat) (hlo : lo + 512 ≤ data.length) :
    ∀ i, i ≤ 508 →
      openZipFile_for (((data.drop lo).take 512).map some) i =
        Outcome.ok ((scanDown data lo i).map (fun p => p - lo)) := by
  intro i
  induction i with
  | zero => intro _; rfl
  | succ i ih =>
    intro hi
    have hlen : ((data.drop lo).take 512).length = 512 := by
      rw [List.length_take, List.length_drop]; omega
    rw [openZipFile_for, memcmpMagic_window _ _ (by omega), take_drop_window _ _ _ (by omega)]
    by_cases hm : magicAt data (lo + (i + 1))
    · have hm1 : (data.drop (lo + (i + 1))).take 4 = eocdMagic := hm
      simp only [hm1, decide_True, scanDown, hm, if_true, Option.map_some']
      congr 2
      omega
    · have hm1 : ¬ (data.drop (lo + (i + 1))).take 4 = eocdMagic := hm
      simp only [hm1, decide_False, scanDown, hm, if_false]
      exact ih (by omega)

theorem openZipFile_for_examined_window (data : List Byte) (lo : Nat)
    (hlo : lo + 512 ≤ data.length) :
    ∀ i, i ≤ 508 →
      openZipFile_for_examined (((data.drop lo).take 512).map some) i =
        (scanTrace data lo i).map (fun p => p - lo) := by
  intro i
  induction i with
  | zero => intro _; rfl
  | succ i ih =>
    intro hi
    have hlen : ((data.drop lo).take 512).length = 512 := by
      rw [List.length_take, List.length_drop]; omega
    rw [openZipFile_for_examined, memcmpMagic_window _ _ (by omega),
      take_drop_window _ _ _ (by omega)]
    have he : lo + (i + 1) - lo = i + 1 := by omega
    by_cases hm : magicAt data (lo + (i + 1))
    · have hm1 : (data.drop (lo + (i + 1))).take 4 = eocdMagic := hm
      simp only [hm1, decide_True, scanTrace, hm, if_true, List.map_cons, List.map_nil, he]
    · have hm1 : ¬ (data.drop (lo + (i + 1))).take 4 = eocdMagic := hm
      simp only [hm1, decide_False, scanTrace, hm, if_false, List.map_cons, he]
      rw [ih (by omega)]

theorem scanDown_some (data : List Byte) (lo : Nat) :
    ∀ (n p : Nat), scanDown data lo n = some p →
      lo < p ∧ p ≤ lo + n ∧ magicAt data p ∧
        ∀ q, p < q → q ≤ lo + n → ¬ magicAt data q := by
  intro n
  induction n with
  | zero => intro p h; simp [scanDown] at h
  | succ n ih =>
    intro p h
    simp only [scanDown] at h
    split_ifs at h with hm
    · simp only [Option.some.injEq] at h
      subst h
      exact ⟨by omega, by omega, hm, fun q h1 h2 => by omega⟩
    · obtain ⟨h1, h2, h3, h4⟩ := ih p h
      refine ⟨h1, by omega, h3, fun q hq1 hq2 => ?_⟩
      by_cases hq : q = lo + (n + 1)
      · rw [hq]; exact hm
      · exact h4 q hq1 (by omega)

theorem scanDown_none (data : List Byte) (lo : Nat) :
    ∀ (n : Nat), scanDown data lo n = none ↔
      ∀ q, lo < q → q ≤ lo + n → ¬ magicAt data q := by
  intro n
  induction n with
  | zero =>
    simp only [scanDown, true_iff]
    intro q h1 h2
    omega
  | succ n ih =>
    simp only [scanDown]
    constructor
    · intro h
      split_ifs at h with hm
      intro q h1 h2
      by_cases hq : q = lo + (n + 1)
      · rw [hq]; exact hm
      · exact ih.mp h q h1 (by omega)
    · intro h
      have hm : ¬ magicAt data (lo + (n + 1)) := h _ (by omega) (by omega)
      simp only [hm, if_false]
      exact ih.mpr (fun q h1 h2 => h q h1 (by omega))

theorem scanDown_of_greatest (data : List Byte) (lo n p : Nat) (h1 : lo < p) (h2 : p ≤ lo + n)
    (hm : magicAt data p) (hg : ∀ q, p < q → q ≤ lo + n → ¬ magicAt data q) :
    scanDown data lo n = some p := by
  cases hs : scanDown data lo n with
  | none => exact absurd hm ((scanDown_none data lo n).mp hs p h1 h2)
  | some p1 =>
    obtain ⟨a1, a2, a3, a4⟩ := scanDown_some data lo n p1 hs
    have : p1 = p := by
      rcases Nat.lt_trichotomy p1 p with hlt | heq | hgt
      · exact absurd hm (a4 p hlt h2)
      · exact heq
      · exact absurd a3 (hg p1 hgt a2)
    rw [this]

theorem scanDown_split (data : List Byte) (lo n : Nat) :
    ∀ m, scanDown data lo (n + m) =
      (scanDown data (lo + n) m).orElse (fun _ => scanDown data lo n) := by
  intro m
  induction m with
  | zero => rfl
  | succ m ih =>
    have e : lo + (n + (m + 1)) = lo + n + (m + 1) := by omega
    rw [← Nat.add_assoc n m 1]
    simp only [scanDown]
    rw [Nat.add_assoc n m 1, e]
    by_cases hm : magicAt data (lo + n + (m + 1))
    · simp only [hm, if_true, Option.orElse]
    · simp only [hm, if_false]
      exact ih

theorem scanTrace_split (data : List Byte) (lo n : Nat) :
    ∀ m, scanTrace data lo (n + m) =
      scanTrace data (lo + n) m ++
        (if scanDown data (lo + n) m = none then scanTrace data lo n else []) := by
  intro m
  induction m with
  | zero => simp [scanTrace, scanDown]
  | succ m ih =>
    have e : lo + (n + (m + 1)) = lo + n + (m + 1) := by omega
    rw [← Nat.add_assoc n m 1]
    simp only [scanTrace, scanDown]
    rw [Nat.add_assoc n m 1, e]
    by_cases hm : magicAt data (lo + n + (m + 1))
    · simp only [hm, if_true, List.cons_append, List.nil_append, reduceCtorEq, if_false]
    · simp only [hm, if_false, List.cons_append]
      rw [ih]

theorem scanTrace_eq (data : List Byte) (lo : Nat) :
    ∀ n, (scanDown data lo n = none →
        scanTrace data lo n = (List.range n).map (fun j => lo + n - j)) ∧
      (∀ p, scanDown data lo n = some p →
        scanTrace data lo n = (List.range (lo + n - p + 1)).map (fun j => lo + n - j)) := by
  intro n
  induction n with
  | zero =>
    constructor
    · intro _; rfl
    · intro p h; simp [scanDown] at h
  | succ n ih =>
    simp only [scanTrace, scanDown]
    by_cases hm : magicAt data (lo + (n + 1))
    · simp only [hm, if_true, reduceCtorEq, false_implies, true_and, Option.some.injEq]
      intro p hp
      subst hp
      simp only [Nat.sub_self, Nat.zero_add]
      rfl
    · simp only [hm, if_false]
      constructor
      · intro hs
        rw [ih.1 hs, List.range_succ_eq_map, List.map_cons, List.map_map]
        congr 1
        apply List.map_congr_left
        intro j _
        simp only [Function.comp]
        omega
      · intro p hs
        obtain ⟨a1, a2, _, _⟩ := scanDown_some data lo n p hs
        rw [ih.2 p hs]
        have e : lo + (n + 1) - p + 1 = (lo + n - p + 1) + 1 := by omega
        rw [e, List.range_succ_eq_map (lo + n - p + 1), List.map_cons, List.map_map]
        congr 1
        apply List.map_congr_left
        intro j _
        simp only [Function.comp]
        omega

theorem scanTrace_mem (data : List Byte) (lo : Nat) :
    ∀ (n q : Nat), q ∈ scanTrace data lo n → lo < q := by
  intro n
  induction n with
  | zero => intro q h; simp [scanTrace] at h
  | succ n ih =>
    intro q h
    simp only [scanTrace, List.mem_cons] at h
    rcases h with h | h
    · omega
    · split_ifs at h
      · simp at h
      · exact ih q h

theorem fread_window (data : List Byte) (lo : Nat) (h : lo + 512 ≤ data.length) :
    fread 512 ⟨data, lo⟩ = ((data.drop lo).take 512, ⟨data, lo + 512⟩) :=
  fread_of_le 512 data lo h

/-- One round of the loop on a window that lies within the stream. -/
theorem openZipFile_while_round (data : List Byte) (F : Nat) (maxback : Int) (fuel : Nat)
    (pos : Nat) (buf : List Cell) (b : Nat) (hF : F ≤ data.length) (hb : 512 ≤ b)
    (hbF : b ≤ F) (hlt : (b : Int) < maxback) (hbuf : buf.length = 512) :
    (∀ p, scanDown data (F - b) 508 = some p →
      openZipFile_while (F : Int) maxback (fuel + 1) ⟨data, pos⟩ buf (b : Int) =
        Outcome.ok (⟨data, F - b + 512⟩, (p : Int))) ∧
    (scanDown data (F - b) 508 = none →
      openZipFile_while (F : Int) maxback (fuel + 1) ⟨data, pos⟩ buf (b : Int) =
        openZipFile_while (F : Int) maxback fuel ⟨data, F - b + 512⟩
          (((data.drop (F - b)).take 512).map some) ((b + 508 : Nat) : Int)) := by
  have hseek : fseek ⟨data, pos⟩ ((F : Int) - (b : Int)) Whence.SEEK_SET = ⟨data, F - b⟩ := by
    have e : (F : Int) - (b : Int) = ((F - b : Nat) : Int) := by omega
    rw [e, fseek_set_nat]
  have hread := fread_window data (F - b) (by omega)
  have hlen : ((data.drop (F - b)).take 512).length = 512 := by
    rw [List.length_take, List.length_drop]; omega
  have hfor := openZipFile_for_window data (F - b) (by omega) 508 (Nat.le_refl _)
  have hdrop : buf.drop 512 = [] := List.drop_eq_nil_of_le (by omega)
  have h508 : (512 - 4 : Nat) = 508 := rfl
  constructor
  · intro p hp
    obtain ⟨h1, h2, _, _⟩ := scanDown_some data (F - b) 508 p hp
    rw [hp] at hfor
    simp only [openZipFile_while, hlt, if_true, hseek, hread, hlen, hdrop, List.append_nil,
      h508, hfor, Option.map_some']
    congr 2
    omega
  · intro hn
    rw [hn] at hfor
    have e : (b : Int) + (512 - 4) = ((b + 508 : Nat) : Int) := by omega
    simp only [openZipFile_while, hlt, if_true, hseek, hread, hlen, hdrop, List.append_nil,
      h508, hfor, Option.map_none', e]

/-- One round of the loop, for the list of the offsets examined. -/
theorem openZipFile_while_examined_round (data : List Byte) (F : Nat) (maxback : Int)
    (fuel : Nat) (pos : Nat) (buf : List Cell) (b : Nat) (hF : F ≤ data.length)
    (hb : 512 ≤ b) (hbF : b ≤ F) (hlt : (b : Int) < maxback) (hbuf : buf.length = 512) :
    (∀ p, scanDown data (F - b) 508 = some p →
      openZipFile_while_examined (F : Int) maxback (fuel + 1) ⟨data, pos⟩ buf (b : Int) =
        (scanTrace data (F - b) 508).map (fun (q : Nat) => (q : Int))) ∧
    (scanDown data (F - b) 508 = none →
      openZipFile_while_examined (F : Int) maxback (fuel + 1) ⟨data, pos⟩ buf (b : Int) =
        (scanTrace data (F - b) 508).map (fun (q : Nat) => (q : Int)) ++
          openZipFile_while_examined (F : Int) maxback fuel ⟨data, F - b + 512⟩
            (((data.drop (F - b)).take 512).map some) ((b + 508 : Nat) : Int)) := by
  have hseek : fseek ⟨data, pos⟩ ((F : Int) - (b : Int)) Whence.SEEK_SET = ⟨data, F - b⟩ := by
    have e : (F : Int) - (b : Int) = ((F - b : Nat) : Int) := by omega
    rw [e, fseek_set_nat]
  have hread := fread_window data (F - b) (by omega)
  have hlen : ((data.drop (F - b)).take 512).length = 512 := by
    rw [List.length_take, List.length_drop]; omega
  have hfor := openZipFile_for_window data (F - b) (by omega) 508 (Nat.le_refl _)
  have hex := openZipFile_for_examined_window data (F - b) (by omega) 508 (Nat.le_refl _)
  have hdrop : buf.drop 512 = [] := List.drop_eq_nil_of_le (by omega)
  have h508 : (512 - 4 : Nat) = 508 := rfl
  have hmap : ((scanTrace data (F - b) 508).map (fun p => p - (F - b))).map
      (fun (i : Nat) => (F : Int) - (b : Int) + (i : Int)) =
      (scanTrace data (F - b) 508).map (fun (q : Nat) => (q : Int)) := by
    rw [List.map_map]
    apply List.map_congr_left
    intro q hq
    have hq1 : F - b < q := scanTrace_mem data (F - b) 508 q hq
    simp only [Function.comp]
    omega
  constructor
  · intro p hp
    rw [hp] at hfor
    simp only [openZipFile_while_examined, hlt, if_true, hseek, hread, hlen, hdrop,
      List.append_nil, h508, hfor, hex, Option.map_some', hmap]
  · intro hn
    rw [hn] at hfor
    have e : (b : Int) + (512 - 4) = ((b + 508 : Nat) : Int) := by omega
    simp only [openZipFile_while_examined, hlt, if_true, hseek, hread, hlen, hdrop,
      List.append_nil, h508, hfor, hex, Option.map_none', e, hmap]

theorem openZipFile_while_examined_done (filesize maxback : Int) (fuel : Nat) (fp : FILE)
    (buf : List Cell) (back : Int) (h : ¬ back < maxback) :
    openZipFile_while_examined filesize maxback fuel fp buf back = [] := by
  cases fuel <;> simp only [openZipFile_while_examined, h, if_false]

/-- The last value of `back` reached from `b`: `b + 508 * k` for the largest `k` that
keeps it below `M`. -/
theorem lastBack_step (M b : Nat) (h : b + 508 < M) :
    b + 508 + 508 * ((M - 1 - (b + 508)) / 508) = b + 508 * ((M - 1 - b) / 508) := by
  have e : M - 1 - b = (M - 1 - (b + 508)) + 508 := by omega
  rw [e, Nat.add_div_right _ (by decide : 0 < 508)]
  omega

theorem lastBack_stop (M b : Nat) (h1 : b < M) (h2 : M ≤ b + 508) :
    b + 508 * ((M - 1 - b) / 508) = b := by
  rw [Nat.div_eq_of_lt (by omega)]
  rfl

theorem lastBack_bounds (M b : Nat) (h1 : b < M) :
    b ≤ b + 508 * ((M - 1 - b) / 508) ∧ b + 508 * ((M - 1 - b) / 508) < M := by
  have := Nat.div_mul_le_self (M - 1 - b) 508
  omega

/-- The search loop started at `back = b` scans the offsets `F - b + 508` down to
`F - B + 1`, where `B` is the last value of `back` below `maxback`. -/
theorem openZipFile_while_scan (data : List Byte) (F M : Nat) (hF : F ≤ data.length)
    (hM : M ≤ F) :
    ∀ (fuel : Nat) (b pos : Nat) (buf : List Cell), 512 ≤ b → b < M → M ≤ b + fuel →
      buf.length = 512 →
      offsetHanded (openZipFile_while (F : Int) (M : Int) fuel ⟨data, pos⟩ buf (b : Int)) =
          searchOutcome (scanDown data (F - (b + 508 * ((M - 1 - b) / 508)))
            (b + 508 * ((M - 1 - b) / 508) - b + 508)) ∧
        openZipFile_while_examined (F : Int) (M : Int) fuel ⟨data, pos⟩ buf (b : Int) =
          (scanTrace data (F - (b + 508 * ((M - 1 - b) / 508)))
            (b + 508 * ((M - 1 - b) / 508) - b + 508)).map (fun (q : Nat) => (q : Int)) := by
  intro fuel
  induction fuel with
  | zero => intro b pos buf h1 h2 h3; omega
  | succ fuel ih =>
    intro b pos buf h1 h2 h3 hbuf
    have hlt : (b : Int) < (M : Int) := by omega
    obtain ⟨hr1, hr2⟩ := openZipFile_while_round data F (M : Int) fuel pos buf b hF h1
      (by omega) hlt hbuf
    obtain ⟨ht1, ht2⟩ := openZipFile_while_examined_round data F (M : Int) fuel pos buf b hF h1
      (by omega) hlt hbuf
    obtain ⟨hB1, hB2⟩ := lastBack_bounds M b h2
    generalize hB : b + 508 * ((M - 1 - b) / 508) = B at hB1 hB2
    have hlo : F - B + (B - b) = F - b := by omega
    have hsplit := scanDown_split data (F - B) (B - b) 508
    have htsplit := scanTrace_split data (F - B) (B - b) 508
    rw [hlo] at hsplit htsplit
    cases hs : scanDown data (F - b) 508 with
    | some p =>
      rw [hr1 p hs, ht1 p hs, hsplit, htsplit, hs]
      simp only [offsetHanded, searchOutcome, Option.orElse, reduceCtorEq, if_false,
        List.append_nil, and_self]
    | none =>
      rw [hr2 hs, ht2 hs, hsplit, htsplit, hs]
      simp only [Option.orElse, if_true]
      by_cases hnext : b + 508 < M
      · have hlen : (((data.drop (F - b)).take 512).map some).length = 512 := by
          rw [List.length_map, List.length_take, List.length_drop]; omega
        obtain ⟨i1, i2⟩ := ih (b + 508) (F - b + 512) _ (by omega) hnext (by omega) hlen
        rw [lastBack_step M b hnext, hB] at i1 i2
        have e : B - (b + 508) + 508 = B - b := by omega
        rw [e] at i1 i2
        rw [i1, i2, List.map_append]
        exact ⟨rfl, rfl⟩
      · have hBb : B = b := by rw [← hB]; exact lastBack_stop M b h2 (by omega)
        have hge : ¬ (((b + 508 : Nat) : Int) < (M : Int)) := by omega
        rw [openZipFile_while_done _ _ _ _ _ _ hge, openZipFile_while_examined_done _ _ _ _ _ _ hge,
          hBb]
        have z1 : scanDown data (F - b) 0 = none := rfl
        have z2 : scanTrace data (F - b) 0 = [] := rfl
        simp only [Nat.sub_self, z1, z2, offsetHanded, searchOutcome, List.append_nil,
          and_self]

theorem toInt32_pos (n : Nat) (h : 0 < toInt32 n) :
    ∃ F : Nat, toInt32 n = (F : Int) ∧ F ≤ n ∧ F < 2147483648 := by
  unfold toInt32 at h ⊢
  split_ifs at h ⊢ with h1
  · exact ⟨n % 4294967296, rfl, Nat.mod_le _ _, h1⟩
  · omega

theorem openZipFile_examined_eq (data : List Byte) :
    openZipFile_examined data =
      openZipFile_while_examined (filesizeOf data) (MIN (filesizeOf data) (0xFFFF + 512))
        (MIN (filesizeOf data) (0xFFFF + 512)).toNat ⟨data, 0⟩ (List.replicate 512 none)
        (MIN (MIN (filesizeOf data) (0xFFFF + 512)) 512) := by
  unfold openZipFile_examined filesizeOf
  simp only [fseek_end_zero, fseek_set_zero]

theorem MIN_maxback (F : Nat) : MIN (F : Int) (0xFFFF + 512) = ((min F 66047 : Nat) : Int) := by
  unfold MIN
  split <;> omega

theorem MIN_back (M : Nat) (h : 512 < M) : MIN (M : Int) 512 = ((512 : Nat) : Int) := by
  unfold MIN
  split <;> omega

/-- A file whose size (as the `int` the code computes) is at most 512 is not searched. -/
theorem openZipFile_locate_small (data : List Byte) (h : filesizeOf data ≤ 512) :
    openZipFile_locate (some data) = Outcome.fatal Fatal.cannotFindEOCD ∧
      openZipFile_examined data = [] := by
  rw [openZipFile_locate_eq, openZipFile_examined_eq]
  have hge : ¬ (MIN (MIN (filesizeOf data) (0xFFFF + 512)) 512 <
      MIN (filesizeOf data) (0xFFFF + 512)) := by
    unfold MIN
    split <;> split <;> omega
  exact ⟨openZipFile_while_done _ _ _ _ _ _ hge, openZipFile_while_examined_done _ _ _ _ _ _ hge⟩

/-- For a file of more than 512 bytes the search is the downward scan of the offsets
`F - 4`, ..., `F - B + 1`, with `B = lastBack (min F 66047)`. -/
theorem openZipFile_locate_scan (data : List Byte) (F : Nat) (hfs : filesizeOf data = (F : Int))
    (hF : F ≤ data.length) (h512 : 512 < F) :
    offsetHanded (openZipFile_locate (some data)) =
        searchOutcome (scanDown data (F - lastBack (min F 66047))
          (lastBack (min F 66047) - 4)) ∧
      openZipFile_examined data =
        (scanTrace data (F - lastBack (min F 66047))
          (lastBack (min F 66047) - 4)).map (fun (q : Nat) => (q : Int)) := by
  rw [openZipFile_locate_eq, openZipFile_examined_eq, hfs, MIN_maxback,
    MIN_back _ (by omega), Int.toNat_ofNat]
  have h := openZipFile_while_scan data F (min F 66047) hF (Nat.min_le_left _ _)
    (min F 66047) 512 0 (List.replicate 512 none) (Nat.le_refl _) (by omega) (by omega)
    (List.length_replicate _ _)
  have e1 : min F 66047 - 1 - 512 = min F 66047 - 513 := by omega
  rw [e1] at h
  have e2 : 512 + 508 * ((min F 66047 - 513) / 508) - 512 + 508 =
      512 + 508 * ((min F 66047 - 513) / 508) - 4 := by omega
  rw [e2] at h
  exact h

theorem lastBack_spec (M : Nat) (h : 512 < M) :
    512 ≤ lastBack M ∧ lastBack M < M ∧ lastBack M = 512 + 508 * ((M - 513) / 508) ∧
      ∀ k, 512 + 508 * k < M → 512 + 508 * k ≤ lastBack M := by
  unfold lastBack
  have h1 := Nat.div_mul_le_self (M - 513) 508
  refine ⟨by omega, by omega, rfl, ?_⟩
  intro k hk
  have : k ≤ (M - 513) / 508 := by
    rw [Nat.le_div_iff_mul_le (by decide)]
    omega
  omega

/-- Every offset the loop hands on lies in a window that was read in full, at an index
from 1 to 508, and holds the magic. -/
theorem openZipFile_while_ok (data : List Byte) (F M : Nat) (hF : F ≤ data.length)
    (hM : M ≤ F) (fp : FILE) (p : Int) :
    ∀ (fuel : Nat) (b pos : Nat) (buf : List Cell), 512 ≤ b → (b - 512) % 508 = 0 →
      buf.length = 512 →
      openZipFile_while (F : Int) (M : Int) fuel ⟨data, pos⟩ buf (b : Int) =
        Outcome.ok (fp, p) →
      ∃ (back i : Nat), b ≤ back ∧ back < M ∧ (back - 512) % 508 = 0 ∧ 1 ≤ i ∧ i ≤ 508 ∧
        fp = ⟨data, F - back + 512⟩ ∧ p = ((F - back + i : Nat) : Int) ∧
        magicAt data (F - back + i) := by
  intro fuel
  induction fuel with
  | zero =>
    intro b pos buf _ _ _ h
    simp only [openZipFile_while, DoomRPG_Error] at h
    split_ifs at h
  | succ fuel ih =>
    intro b pos buf h1 hmod hbuf h
    by_cases hlt : (b : Int) < (M : Int)
    · obtain ⟨hr1, hr2⟩ := openZipFile_while_round data F (M : Int) fuel pos buf b hF h1
        (by omega) hlt hbuf
      cases hs : scanDown data (F - b) 508 with
      | some q =>
        rw [hr1 q hs] at h
        simp only [Outcome.ok.injEq, Prod.mk.injEq] at h
        obtain ⟨a1, a2, a3, _⟩ := scanDown_some data (F - b) 508 q hs
        refine ⟨b, q - (F - b), Nat.le_refl _, by omega, hmod, by omega, by omega, h.1.symm, ?_, ?_⟩
        · rw [← h.2]
          omega
        · have e : F - b + (q - (F - b)) = q := by omega
          rw [e]
          exact a3
      | none =>
        rw [hr2 hs] at h
        have hlen : (((data.drop (F - b)).take 512).map some).length = 512 := by
          rw [List.length_map, List.length_take, List.length_drop]; omega
        obtain ⟨back, i, c1, c2, c3, c4⟩ := ih (b + 508) (F - b + 512) _ (by omega)
          (by omega) hlen h
        exact ⟨back, i, by omega, c2, c3, c4⟩
    · rw [openZipFile_while_done _ _ _ _ _ _ hlt] at h
      simp at h

/-- What is known whenever the search of `openZipFile` hands an offset on. -/
theorem openZipFile_locate_ok (data : List Byte) (fp : FILE) (p : Int)
    (h : openZipFile_locate (some data) = Outcome.ok (fp, p)) :
    ∃ (F back i : Nat), filesizeOf data = (F : Int) ∧ F ≤ data.length ∧ 512 < F ∧
      512 ≤ back ∧ back < min F 66047 ∧ (back - 512) % 508 = 0 ∧ 1 ≤ i ∧ i ≤ 508 ∧
      fp = ⟨data, F - back + 512⟩ ∧ p = ((F - back + i : Nat) : Int) ∧
      magicAt data (F - back + i) := by
  by_cases hs : filesizeOf data ≤ 512
  · rw [(openZipFile_locate_small data hs).1] at h
    simp at h
  · obtain ⟨F, hF1, hF2, _⟩ := toInt32_pos data.length (by unfold filesizeOf at hs; omega)
    have hfs : filesizeOf data = (F : Int) := hF1
    have h512 : 512 < F := by rw [hfs] at hs; omega
    rw [openZipFile_locate_eq, hfs, MIN_maxback, MIN_back _ (by omega), Int.toNat_ofNat] at h
    obtain ⟨back, i, c1, c2, c3, c4⟩ := openZipFile_while_ok data F (min F 66047) hF2
      (Nat.min_le_left _ _) fp p _ 512 0 _ (Nat.le_refl _) rfl (List.length_replicate _ _) h
    exact ⟨F, back, i, hfs, hF2, h512, c1, c2, c3, c4⟩

/-- The search ends in no other fatal path than "cannot find end of central directory". -/
theorem openZipFile_locate_fatal (data : List Byte) (f : Fatal)
    (h : openZipFile_locate (some data) = Outcome.fatal f) : f = Fatal.cannotFindEOCD := by
  by_cases hs : filesizeOf data ≤ 512
  · rw [(openZipFile_locate_small data hs).1] at h
    simp only [Outcome.fatal.injEq] at h
    exact h.symm
  · obtain ⟨F, hF1, hF2, _⟩ := toInt32_pos data.length (by unfold filesizeOf at hs; omega)
    have hfs : filesizeOf data = (F : Int) := hF1
    have hsc := (openZipFile_locate_scan data F hfs hF2 (by rw [hfs] at hs; omega)).1
    rw [h] at hsc
    simp only [offsetHanded] at hsc
    cases hd : scanDown data (F - lastBack (min F 66047)) (lastBack (min F 66047) - 4) with
    | none =>
      rw [hd] at hsc
      simp only [searchOutcome, Outcome.fatal.injEq] at hsc
      exact hsc
    | some q =>
      rw [hd] at hsc
      simp [searchOutcome] at hsc

/-- The search of a file of more than 512 bytes never leaves defined behaviour. -/
theorem openZipFile_locate_defined (data : List Byte) (F : Nat)
    (hfs : filesizeOf data = (F : Int)) (hF : F ≤ data.length) (h512 : 512 < F) :
    openZipFile_locate (some data) ≠ Outcome.undefined := by
  intro h
  have hsc := (openZipFile_locate_scan data F hfs hF h512).1
  rw [h] at hsc
  cases hd : scanDown data (F - lastBack (min F 66047)) (lastBack (min F 66047) - 4) with
  | none => rw [hd] at hsc; simp [offsetHanded, searchOutcome] at hsc
  | some q => rw [hd] at hsc; simp [offsetHanded, searchOutcome] at hsc

theorem offsetHanded_ok (o : Outcome (FILE × Int)) (p : Int) (h : offsetHanded o = Outcome.ok p) :
    ∃ fp, o = Outcome.ok (fp, p) := by
  cases o with
  | ok r =>
    obtain ⟨fp, q⟩ := r
    simp only [offsetHanded, Outcome.ok.injEq] at h
    exact ⟨fp, by rw [h]⟩
  | fatal f => simp [offsetHanded] at h
  | undefined => simp [offsetHanded] at h

theorem offsetHanded_fatal (o : Outcome (FILE × Int)) (f : Fatal)
    (h : offsetHanded o = Outcome.fatal f) : o = Outcome.fatal f := by
  cases o with
  | ok r => simp [offsetHanded] at h
  | fatal g =>
    simp only [offsetHanded, Outcome.fatal.injEq] at h
    rw [h]
  | undefined => simp [offsetHanded] at h

/-! ## The fatal paths of `findAndReadZipDir` -/

theorem findAndReadZipDir_body_fatal (fp : FILE) (f : Fatal)
    (h : findAndReadZipDir_body fp = Outcome.fatal f) : ∃ s, f = Fatal.wrongCDSig s := by
  unfold findAndReadZipDir_body at h
  simp only [DoomRPG_Error] at h
  split_ifs at h
  simp only [Outcome.fatal.injEq] at h
  exact ⟨_, h.symm⟩

theorem findAndReadZipDir_for_fatal (f : Fatal) :
    ∀ (n : Nat) (fp : FILE), findAndReadZipDir_for n fp = Outcome.fatal f →
      ∃ s, f = Fatal.wrongCDSig s := by
  intro n
  induction n with
  | zero => intro fp h; simp [findAndReadZipDir_for] at h
  | succ n ih =>
    intro fp h
    simp only [findAndReadZipDir_for] at h
    cases hb : findAndReadZipDir_body fp with
    | ok r =>
      obtain ⟨e, fp1⟩ := r
      rw [hb] at h
      simp only at h
      cases hf : findAndReadZipDir_for n fp1 with
      | ok r2 => rw [hf] at h; simp at h
      | fatal g =>
        rw [hf] at h
        simp only [Outcome.fatal.injEq] at h
        subst h
        exact ih fp1 hf
      | undefined => rw [hf] at h; simp at h
    | fatal g =>
      rw [hb] at h
      simp only [Outcome.fatal.injEq] at h
      rw [← h]
      exact findAndReadZipDir_body_fatal fp g hb
    | undefined => rw [hb] at h; simp at h

theorem withEntries_fatal (count : Int) (o : Outcome (List zip_entry_t × FILE)) (f : Fatal)
    (h : withEntries count o = Outcome.fatal f) : o = Outcome.fatal f := by
  cases o with
  | ok r => simp [withEntries] at h
  | fatal g =>
    simp only [withEntries, Outcome.fatal.injEq] at h
    rw [h]
  | undefined => simp [withEntries] at h

theorem eocdMagic_sig : toInt32 (leValue eocdMagic) = ZIP_END_OF_CENTRAL_DIRECTORY_SIG := by
  decide!

/-- At an offset that holds the magic, `findAndReadZipDir` passes its signature test. -/
theorem findAndReadZipDir_at_magic (zipFile : zip_file_t) (data : List Byte) (pos p : Nat)
    (s : Int) (hfile : zipFile.file = some ⟨data, pos⟩) (hm : magicAt data p) :
    findAndReadZipDir zipFile (p : Int) ≠ Outcome.fatal (Fatal.wrongEOCDSig s) := by
  have hm1 : (data.drop p).take 4 = eocdMagic := hm
  unfold findAndReadZipDir
  rw [hfile]
  simp only [fseek_set_nat, ReadInt_eq, hm1, eocdMagic_sig, ne_eq, not_true_eq_false, if_false,
    DoomRPG_Error]
  split_ifs
  · simp
  · intro h
    obtain ⟨s1, hs1⟩ := findAndReadZipDir_for_fatal _ _ _ (withEntries_fatal _ _ _ h)
    simp at hs1

/-- The fatal path "cannot find end of central directory" is not one of
`findAndReadZipDir`. -/
theorem findAndReadZipDir_ne_cannotFindEOCD (zipFile : zip_file_t) (p : Int) :
    findAndReadZipDir zipFile p ≠ Outcome.fatal Fatal.cannotFindEOCD := by
  unfold findAndReadZipDir
  cases zipFile.file with
  | none => simp
  | some fp0 =>
    simp only [DoomRPG_Error]
    split_ifs
    · simp
    · simp
    · intro h
      obtain ⟨s1, hs1⟩ := findAndReadZipDir_for_fatal _ _ _ (withEntries_fatal _ _ _ h)
      simp at hs1

/-- The index that the loop of `findAndReadZipDir` builds has one entry per round. -/
theorem findAndReadZipDir_for_length :
    ∀ (n : Nat) (fp fp' : FILE) (es : List zip_entry_t),
      findAndReadZipDir_for n fp = Outcome.ok (es, fp') → es.length = n := by
  intro n
  induction n with
  | zero =>
    intro fp fp' es h
    simp only [findAndReadZipDir_for, Outcome.ok.injEq, Prod.mk.injEq] at h
    rw [← h.1]
    rfl
  | succ n ih =>
    intro fp fp' es h
    simp only [findAndReadZipDir_for] at h
    cases hb : findAndReadZipDir_body fp with
    | ok r =>
      obtain ⟨e, fp1⟩ := r
      rw [hb] at h
      simp only at h
      cases hf : findAndReadZipDir_for n fp1 with
      | ok r2 =>
        obtain ⟨es2, fp2⟩ := r2
        rw [hf] at h
        simp only [Outcome.ok.injEq, Prod.mk.injEq] at h
        rw [← h.1, List.length_cons, ih fp1 fp2 es2 hf]
      | fatal f => rw [hf] at h; simp at h
      | undefined => rw [hf] at h; simp at h
    | fatal f => rw [hb] at h; simp at h
    | undefined => rw [hb] at h; simp at h

theorem scanTrace_descending (data : List Byte) (lo n : Nat) :
    (scanDown data lo n = none →
      (scanTrace data lo n).map (fun (q : Nat) => (q : Int)) =
        descending ((lo + n : Nat) : Int) n) ∧
    (∀ p, scanDown data lo n = some p →
      (scanTrace data lo n).map (fun (q : Nat) => (q : Int)) =
        descending ((lo + n : Nat) : Int) (lo + n - p + 1)) := by
  obtain ⟨h1, h2⟩ := scanTrace_eq data lo n
  constructor
  · intro hs
    rw [h1 hs, List.map_map]
    unfold descending
    apply List.map_congr_left
    intro j hj
    have := List.mem_range.mp hj
    simp only [Function.comp]
    omega
  · intro p hs
    obtain ⟨a1, a2, _, _⟩ := scanDown_some data lo n p hs
    rw [h2 p hs, List.map_map]
    unfold descending
    apply List.map_congr_left
    intro j hj
    have := List.mem_range.mp hj
    simp only [Function.comp]
    omega

theorem deepMagicStream_length : deepMagicStream.length = 66047 := by
  unfold deepMagicStream
  rw [List.length_append, List.length_replicate]
  rfl

theorem deepMagicStream_magicAt : magicAt deepMagicStream 4 := by
  unfold magicAt deepMagicStream
  simp only [List.cons_append, List.nil_append, List.drop_succ_cons, List.drop_zero,
    List.take_succ_cons, List.take_zero]
  rfl

theorem deepMagicStream_no_magic (q : Nat) (h1 : 4 < q) (h2 : q ≤ 66043) :
    ¬ magicAt deepMagicStream q := by
  unfold magicAt deepMagicStream
  by_cases hq : 8 ≤ q
  · obtain ⟨r, rfl⟩ := Nat.exists_eq_add_of_le hq
    have hd : ([0, 0, 0, 0, 0x50, 0x4B, 5, 6] ++ List.replicate 66039 (0 : Byte)).drop (8 + r) =
        (List.replicate 66039 (0 : Byte)).drop r :=
      @List.drop_append _ [0, 0, 0, 0, 0x50, 0x4B, 5, 6] (List.replicate 66039 0) r
    rw [hd, List.drop_replicate, List.take_replicate, Nat.min_eq_left (by omega)]
    decide
  · have : q = 5 ∨ q = 6 ∨ q = 7 := by omega
    rcases this with h | h | h <;> subst h <;>
      simp only [List.cons_append, List.nil_append, List.drop_succ_cons, List.drop_zero,
        List.take_succ_cons, List.take_zero, eocdMagic] <;> decide

theorem withEntries_ok (count : Int) (o : Outcome (List zip_entry_t × FILE)) (h : zip_file_t)
    (hok : withEntries count o = Outcome.ok h) :
    ∃ es fp, o = Outcome.ok (es, fp) ∧ h.entry_count = count ∧ h.entry = some es := by
  cases o with
  | ok r =>
    obtain ⟨es, fp⟩ := r
    simp only [withEntries, Outcome.ok.injEq] at hok
    exact ⟨es, fp, rfl, by rw [← hok], by rw [← hok]⟩
  | fatal f => simp [withEntries] at hok
  | undefined => simp [withEntries] at hok

/-- The handle that `findAndReadZipDir` returns counts the entries of its index. -/
theorem findAndReadZipDir_ok (zipFile h : zip_file_t) (p : Int)
    (hok : findAndReadZipDir zipFile p = Outcome.ok h) :
    h.entry_count = (entriesHeld h : Int) ∧ 0 < entriesHeld h := by
  unfold findAndReadZipDir at hok
  cases hf : zipFile.file with
  | none => rw [hf] at hok; simp at hok
  | some fp0 =>
    rw [hf] at hok
    simp only [DoomRPG_Error] at hok
    split_ifs at hok with h1 h2
    obtain ⟨es, fp, ho, hc, he⟩ := withEntries_ok _ _ _ hok
    have hl := findAndReadZipDir_for_length _ _ _ _ ho
    simp only [entriesHeld, he, hc]
    omega

theorem openZipFile_ok (opened : Option (List Byte)) (zipFile h : zip_file_t)
    (hok : openZipFile opened zipFile = Outcome.ok h) :
    h.entry_count = (entriesHeld h : Int) ∧ 0 < entriesHeld h := by
  unfold openZipFile at hok
  cases hl : openZipFile_locate opened with
  | ok r =>
    obtain ⟨fp, p⟩ := r
    rw [hl] at hok
    exact findAndReadZipDir_ok _ _ _ hok
  | fatal f => rw [hl] at hok; simp at hok
  | undefined => rw [hl] at hok; simp at hok

/-- A successful `readZipFileEntry` changes nothing in the handle but the stream. -/
theorem readZipFileEntry_ok_handle (z : Zlib) (name : List Byte) (zipFile h : zip_file_t)
    (r : List Cell × Int) (hok : readZipFileEntry z name zipFile = Outcome.ok (r, h)) :
    h.entry_count = zipFile.entry_count ∧ h.entry = zipFile.entry := by
  unfold readZipFileEntry at hok
  cases hf : readZipFileEntry_for name zipFile.entry zipFile.entry_count.toNat 0 with
  | undefined => rw [hf] at hok; simp at hok
  | fatal f => rw [hf] at hok; simp at hok
  | ok o =>
    cases o with
    | none => rw [hf] at hok; simp [DoomRPG_Error] at hok
    | some e =>
      rw [hf] at hok
      simp only at hok
      unfold readZipFileEntry_found at hok
      cases hfile : zipFile.file with
      | none => rw [hfile] at hok; simp at hok
      | some fp0 =>
        rw [hfile] at hok
        simp only at hok
        cases hx : readZipFileEntry_extract z e fp0 with
        | undefined => rw [hx] at hok; simp [withStream] at hok
        | fatal f => rw [hx] at hok; simp [withStream] at hok
        | ok r1 =>
          rw [hx] at hok
          simp only [withStream, Outcome.ok.injEq, Prod.mk.injEq] at hok
          rw [← hok.2]
          exact ⟨rfl, rfl⟩

theorem openZipFile_of_locate_fatal (opened : Option (List Byte)) (zipFile : zip_file_t)
    (f : Fatal) (h : openZipFile_locate opened = Outcome.fatal f) :
    openZipFile opened zipFile = Outcome.fatal f := by
  unfold openZipFile
  rw [h]

theorem twoGiBStream_length : twoGiBStream.length = 2147483648 := by
  unfold twoGiBStream
  rw [List.length_append, List.length_replicate]
  rfl

/-! ## The example `helloArchiveComment950` -/

theorem helloArchiveComment950_length : helloArchiveComment950.length = 1063 := by decide!

theorem helloArchiveComment950_searchDepth : searchDepth helloArchiveComment950 = 1020 := by
  decide!

theorem helloArchiveComment950_magicAt : magicAt helloArchiveComment950 91 := by decide!

theorem helloArchiveComment950_no_magic_low :
    ∀ q, 92 ≤ q → q < 576 → ¬ magicAt helloArchiveComment950 q := by decide!

theorem helloArchiveComment950_no_magic_mid :
    ∀ q, 576 ≤ q → q < 818 → ¬ magicAt helloArchiveComment950 q := by decide!

theorem helloArchiveComment950_no_magic_high :
    ∀ q, 818 ≤ q → q < 1060 → ¬ magicAt helloArchiveComment950 q := by decide!

theorem helloArchiveComment950_no_magic (q : Nat) (h1 : 91 < q)
    (h2 : q ≤ helloArchiveComment950.length - 4) : ¬ magicAt helloArchiveComment950 q := by
  rw [helloArchiveComment950_length] at h2
  by_cases h576 : q < 576
  · exact helloArchiveComment950_no_magic_low q h1 h576
  · by_cases h818 : q < 818
    · exact helloArchiveComment950_no_magic_mid q (by omega) h818
    · exact helloArchiveComment950_no_magic_high q (by omega) (by omega)

/-! ## The example `wrappedStream` -/

theorem MIN_nat (a b : Nat) : MIN (a : Int) (b : Int) = ((min a b : Nat) : Int) := by
  unfold MIN
  split <;> omega

theorem wrappedStream_length : wrappedStream.length = 4294968296 := by
  unfold wrappedStream
  rw [List.length_append, List.length_replicate, List.length_append, List.length_replicate]
  rfl

theorem wrappedStream_filesize : filesizeOf wrappedStream = ((1000 : Nat) : Int) := by
  unfold filesizeOf
  rw [wrappedStream_length]
  decide!

theorem wrappedStream_magicAt : magicAt wrappedStream 500 := by
  unfold magicAt wrappedStream
  rw [List.drop_left' (List.length_replicate _ _)]
  rfl

theorem wrappedStream_no_magic (q : Nat) (h1 : 500 < q) (h2 : q ≤ 996) :
    ¬ magicAt wrappedStream q := by
  unfold magicAt wrappedStream
  obtain ⟨r, rfl⟩ := Nat.exists_eq_add_of_le (Nat.le_of_lt h1)
  have hd : (List.replicate 500 (0 : Byte) ++
      ([0x50, 0x4B, 5, 6] ++ List.replicate 4294967792 0)).drop (500 + r) =
      ([0x50, 0x4B, 5, 6] ++ List.replicate 4294967792 (0 : Byte)).drop r := by
    rw [← List.drop_drop, List.drop_left' (List.length_replicate _ _)]
  rw [hd]
  by_cases hr : 4 ≤ r
  · obtain ⟨s, rfl⟩ := Nat.exists_eq_add_of_le hr
    have hd2 : ([0x50, 0x4B, 5, 6] ++ List.replicate 4294967792 (0 : Byte)).drop (4 + s) =
        (List.replicate 4294967792 (0 : Byte)).drop s :=
      @List.drop_append _ [0x50, 0x4B, 5, 6] (List.replicate 4294967792 0) s
    rw [hd2, List.drop_replicate, List.take_replicate, Nat.min_eq_left (by omega)]
    decide
  · have : r = 1 ∨ r = 2 ∨ r = 3 := by omega
    rcases this with h | h | h <;> subst h <;>
      simp only [List.cons_append, List.nil_append, List.drop_succ_cons, List.drop_zero,
        List.take_succ_cons, List.take_zero, eocdMagic] <;> decide

/-! ## Rejected entries -/

/-- When the lookup loop has selected `e`: an encryption bit, or a method other than 0 and
8 with a compressed size that is not negative, ends the run in a fatal path. -/
theorem readZipFileEntry_rejects_of_lookup (z : Zlib) (name : List Byte) (zipFile : zip_file_t)
    (fp : FILE) (e : zip_entry_t) (off : Nat)
    (s0 s1 s2 s3 v0 v1 g0 g1 k0 k1 t0 t1 d0 d1 c0 c1 c2 c3 a0 a1 a2 a3 u0 u1 u2 u3 n0 n1 m0
      m1 : Byte)
    (rest : List Byte)
    (hfile : zipFile.file = some fp)
    (hlook : readZipFileEntry_for name zipFile.entry zipFile.entry_count.toNat 0 =
      Outcome.ok (some e))
    (hoff : e.offset = (off : Int))
    (hhdr : fp.data.drop off =
      [s0, s1, s2, s3, v0, v1, g0, g1, k0, k1, t0, t1, d0, d1, c0, c1, c2, c3,
        a0, a1, a2, a3, u0, u1, u2, u3, n0, n1, m0, m1] ++ rest)
    (hbad : g0.val % 2 = 1 ∨
      ((k0.val + 256 * k1.val ≠ 0 ∧ k0.val + 256 * k1.val ≠ 8) ∧ 0 ≤ e.csize)) :
    ∃ f, readZipFileEntry z name zipFile = Outcome.fatal f := by
  rw [readZipFileEntry_of_lookup z name zipFile e fp hfile hlook,
    readZipFileEntry_extract_header z fp e off _ _ _ _ _ _ _ _ _ _ _ _ _ _ _ _ _ _ _ _ _ _ _ _
      _ _ _ _ _ _ rest hoff hhdr, flagSet_general]
  split_ifs with hs hg
  · exact ⟨_, rfl⟩
  · exact ⟨_, rfl⟩
  · rcases hbad with hodd | ⟨⟨h0, h8⟩, hcs⟩
    · exact absurd (by simpa using hodd) hg
    · have hm0 : toInt16 (leValue [k0, k1]) ≠ 0 := fun h =>
        h0 ((toInt16_pair_eq k0 k1 0 (by omega)).mp (by simpa using h))
      have hm8 : toInt16 (leValue [k0, k1]) ≠ 8 := fun h =>
        h8 ((toInt16_pair_eq k0 k1 8 (by omega)).mp (by simpa using h))
      rw [readZipFileEntry_payload_unknown z e _ _ hcs hm0 hm8]
      exact ⟨_, rfl⟩

/-! ## Claims -/

/-- Claim C1, on the well-formed two-member archive `twoMemberArchive` (209 bytes, one
stored and one deflated member): opening it and extracting either member by its own name
does not succeed. `openZipFile` ends in the "cannot find end of central directory" fatal
path, as it does for every file of at most 512 bytes. The same two members followed by
an archive comment of 400 bytes do open, and `b.bin` then extracts to `hello`. -/
theorem openAndRead_twoMemberArchive_fatal :
    twoMemberArchive.length = 209 ∧
      openAndRead zlibStored (some twoMemberArchive) aTxt =
        Outcome.fatal Fatal.cannotFindEOCD ∧
      openAndRead zlibStored (some twoMemberArchive) bBin =
        Outcome.fatal Fatal.cannotFindEOCD ∧
      openAndRead zlibStored (some (zipArchive twoMembers (List.replicate 400 0))) bBin =
        Outcome.ok (hello.map some, 5) := by
  decide!

/-- Claim C2, on its own witness: for the archive with the one stored entry `a.txt`
holding `hello` (113 bytes), opening and extracting `a.txt` does not return `hello`:
`openZipFile` ends in the "cannot find end of central directory" fatal path. -/
theorem openAndRead_helloArchive_fatal :
    helloArchive.length = 113 ∧
      openAndRead zlibStored (some helloArchive) aTxt = Outcome.fatal Fatal.cannotFindEOCD := by
  decide!

/-- Claim C3, on the archive `helloArchiveWithComment` (1113 bytes): its
end-of-central-directory record starts at offset `fileSize - 22 - 1000 = 91`, the comment
is 1000 zero bytes and spans two scan windows, and the search of `openZipFile` hands no
offset on: it ends in the "cannot find end of central directory" fatal path. -/
theorem openZipFile_locate_comment_1000_fatal :
    helloArchiveWithComment.length = 1113 ∧
      helloArchiveWithComment.drop (1113 - 22 - 1000) =
        eocdRecord 1 51 40 (List.replicate 1000 0) ∧
      openZipFile_locate (some helloArchiveWithComment) =
        Outcome.fatal Fatal.cannotFindEOCD := by
  decide!

/-- Counterexample to C5 as stated: the local header at offset 0 has the signature, a
clear encryption bit, method 0, name length `n = 32768` and extra length `m = 0`; the 5
bytes of the stream at `0 + 30 + n + m` are `hello`, but `readZipFileEntry` returns the 5
bytes `aaaaa` found at offset 30 (the name length is read as the 16-bit signed value
-32768 and the backward seek is refused). -/
theorem readZipFileEntry_stored_long_name :
    longNameStream.take 30 =
        [0x50, 0x4B, 3, 4, 20, 0, 0, 0, 0, 0, 0, 0, 0, 0, 0x86, 0xA6, 0x10, 0x36, 5, 0, 0, 0,
          5, 0, 0, 0, 0x00, 0x80, 0, 0] ∧
      localPayload ⟨longNameStream, 0⟩ 0 32768 0 5 = hello ∧
      observed (readZipFileEntry zlibStored aTxt (oneEntryHandle longNameStream aTxt 5 5)) =
        Outcome.ok (List.replicate 5 (some 97), 5) ∧
      (Outcome.ok (List.replicate 5 (some 97), 5) : Outcome (List Cell × Int)) ≠
        Outcome.ok (hello.map some, 5) := by
  refine ⟨rfl, ?_, ?_, by decide⟩
  · unfold localPayload longNameStream
    have h1 : (0 + 30 + 32768 + 0 : Nat) = 30 + 32768 := rfl
    rw [h1, ← List.drop_drop, List.drop_left' (by rfl),
      List.drop_left' (List.length_replicate _ _)]
    rfl
  · have hlen : longNameStream.length = 30 + (32768 + 5) := by
      unfold longNameStream
      rw [List.length_append, List.length_append, List.length_replicate]
      rfl
    rw [readZipFileEntry_of_lookup zlibStored aTxt _ ⟨aTxt, 0, 5, 5⟩ ⟨longNameStream, 0⟩ rfl
        (by decide),
      observed_withStream,
      readZipFileEntry_extract_header zlibStored ⟨longNameStream, 0⟩ ⟨aTxt, 0, 5, 5⟩ 0
        _ _ _ _ _ _ _ _ _ _ _ _ _ _ _ _ _ _ _ _ _ _ _ _ _ _ _ _ _ _
        (List.replicate 32768 97 ++ hello) rfl rfl]
    rw [if_neg (by decide!), if_neg (by decide!)]
    have hn : toInt16 (leValue [0x00, 0x80]) + toInt16 (leValue [0, 0]) = -32768 := by decide!
    have hm : toInt16 (leValue [0, 0]) = 0 := by decide!
    rw [hn, hm, fseek_cur_refused _ _ _ (by decide),
      readZipFileEntry_payload_stored zlibStored _ longNameStream _ (by decide)
        (by rw [hlen]; decide)]
    have hd : longNameStream.drop (0 + 30) = List.replicate 32768 97 ++ hello := by
      unfold longNameStream
      rw [List.drop_left' (by rfl)]
    rw [hd]
    have ht : (List.replicate 32768 (97 : Byte) ++ hello).take 5 = List.replicate 5 97 := by
      rw [List.take_append_of_le_length (by rw [List.length_replicate]; decide),
        List.take_replicate]
      rfl
    show observed (Outcome.ok ((List.map some (List.take 5 _), _), _)) = _
    rw [ht]
    rfl

/-- Claim C5 (amended): stored extraction. When the matched entry has a non-negative
offset and a non-negative compressed size, its local header has the signature, a clear
encryption bit and method 0, its name and extra lengths `n` and `m` are at most 32767
(high bytes below 128), and the stream holds the `compressedSize` payload bytes, then
`readZipFileEntry` returns exactly the `compressedSize` bytes of the stream that start at
`localHeaderOffset + 30 + n + m` and reports the length `uncompressedSize`. -/
theorem readZipFileEntry_stored (z : Zlib) (name : List Byte) (zipFile : zip_file_t)
    (fp : FILE) (e : zip_entry_t) (off : Nat)
    (v0 v1 g0 g1 t0 t1 d0 d1 c0 c1 c2 c3 a0 a1 a2 a3 u0 u1 u2 u3 n0 n1 m0 m1 : Byte)
    (rest : List Byte)
    (hfile : zipFile.file = some fp)
    (hlook : readZipFileEntry_for name zipFile.entry zipFile.entry_count.toNat 0 =
      Outcome.ok (some e))
    (hoff : e.offset = (off : Int))
    (hhdr : fp.data.drop off =
      [0x50, 0x4B, 3, 4, v0, v1, g0, g1, 0, 0, t0, t1, d0, d1, c0, c1, c2, c3,
        a0, a1, a2, a3, u0, u1, u2, u3, n0, n1, m0, m1] ++ rest)
    (hg : g0.val % 2 = 0) (hn : n1.val < 128) (hm : m1.val < 128)
    (hcs : 0 ≤ e.csize)
    (hpay : (n0.val + 256 * n1.val) + (m0.val + 256 * m1.val) + e.csize.toNat ≤ rest.length) :
    readZipFileEntry z name zipFile =
      Outcome.ok
        (((localPayload fp off (n0.val + 256 * n1.val) (m0.val + 256 * m1.val)
              e.csize.toNat).map some, e.usize),
          { zipFile with
            file := some ⟨fp.data,
              off + 30 + (n0.val + 256 * n1.val) + (m0.val + 256 * m1.val) + e.csize.toNat⟩ }) := by
  have hlen : off + (30 + rest.length) = fp.data.length := by
    have := length_of_drop_eq hhdr (by simp)
    simp only [List.length_append, List.length_cons, List.length_nil] at this
    omega
  rw [readZipFileEntry_of_lookup z name zipFile e fp hfile hlook,
    readZipFileEntry_extract_header z fp e off _ _ _ _ _ _ _ _ _ _ _ _ _ _ _ _ _ _ _ _ _ _ _ _
      _ _ _ _ _ _ rest hoff hhdr]
  rw [if_neg (by decide!), flagSet_general, toInt16_pair_of_lt n0 n1 hn,
    toInt16_pair_of_lt m0 m1 hm]
  have hz : toInt16 (leValue [0, 0]) = 0 := by decide!
  rw [hz, fseek_cur_nonneg _ _ _ (by omega)]
  have hq : (((n0.val + 256 * n1.val : Nat) : Int) + ((m0.val + 256 * m1.val : Nat) : Int)).toNat
      = (n0.val + 256 * n1.val) + (m0.val + 256 * m1.val) := by omega
  rw [hq, ← Nat.add_assoc]
  rw [readZipFileEntry_payload_stored z e fp.data _ hcs (by omega)]
  simp [hg, withStream, localPayload]

/-- Witness of C5: extracting `a.txt` from `helloArchive` returns `hello` and the
length 5. -/
theorem readZipFileEntry_stored_witness :
    readZipFileEntry zlibStored aTxt (oneEntryHandle helloArchive aTxt 5 5) =
      Outcome.ok ((hello.map some, 5),
        { oneEntryHandle helloArchive aTxt 5 5 with file := some ⟨helloArchive, 40⟩ }) := by
  have h := readZipFileEntry_stored zlibStored aTxt (oneEntryHandle helloArchive aTxt 5 5)
    ⟨helloArchive, 0⟩ ⟨aTxt, 0, 5, 5⟩ 0 20 0 0 0 0 0 0 0 0x86 0xA6 0x10 0x36 5 0 0 0 5 0 0 0
    5 0 0 0 (helloArchive.drop 30) rfl (by decide!) rfl (by decide!) (by decide) (by decide)
    (by decide) (by decide) (by decide!)
  rw [h]
  decide!

/-- Counterexample to C6 as stated: a deflated entry with compressed size 9 and
uncompressed size 5 whose payload is one final stored block holding `abc` plus one
trailing byte. `inflate` reaches the end of the stream after 8 of the 9 input bytes with
3 output bytes, and `readZipFileEntry` succeeds with a 5-byte buffer whose last two
bytes were never written. -/
theorem readZipFileEntry_deflated_short_output :
    observed (readZipFileEntry zlibStored bBin (oneEntryHandle shortDeflateStream bBin 9 5)) =
        Outcome.ok ([some 97, some 98, some 99, none, none], 5) ∧
      localPayload ⟨shortDeflateStream, 0⟩ 0 5 0 9 = [1, 3, 0, 0xFC, 0xFF, 97, 98, 99, 0] ∧
      (zlibStored.inflate (localPayload ⟨shortDeflateStream, 0⟩ 0 5 0 9) 5).code =
        Z_STREAM_END ∧
      (zlibStored.inflate (localPayload ⟨shortDeflateStream, 0⟩ 0 5 0 9) 5).consumed = 8 ∧
      (zlibStored.inflate (localPayload ⟨shortDeflateStream, 0⟩ 0 5 0 9) 5).out =
        [97, 98, 99] := by
  decide!

/-- Claim C6 (amended): deflated extraction over an abstract zlib. For a method-8 entry
with non-negative sizes whose local header is well formed (lengths at most 32767) and
whose `compressedSize` payload bytes lie in the stream, `readZipFileEntry` succeeds
exactly when `inflateInit2` returns `Z_OK`, `inflate` returns `Z_STREAM_END` and
`inflateEnd` returns `Z_OK`; it then returns the `uncompressedSize`-byte output buffer
holding what `inflate` stored, and reports `uncompressedSize`; each of the three
failures ends in its fatal path. When `inflate` stored exactly `uncompressedSize` bytes
the buffer is exactly those bytes. -/
theorem readZipFileEntry_deflated (z : Zlib) (name : List Byte) (zipFile : zip_file_t)
    (fp : FILE) (e : zip_entry_t) (off : Nat)
    (v0 v1 g0 g1 t0 t1 d0 d1 c0 c1 c2 c3 a0 a1 a2 a3 u0 u1 u2 u3 n0 n1 m0 m1 : Byte)
    (rest : List Byte)
    (hfile : zipFile.file = some fp)
    (hlook : readZipFileEntry_for name zipFile.entry zipFile.entry_count.toNat 0 =
      Outcome.ok (some e))
    (hoff : e.offset = (off : Int))
    (hhdr : fp.data.drop off =
      [0x50, 0x4B, 3, 4, v0, v1, g0, g1, 8, 0, t0, t1, d0, d1, c0, c1, c2, c3,
        a0, a1, a2, a3, u0, u1, u2, u3, n0, n1, m0, m1] ++ rest)
    (hg : g0.val % 2 = 0) (hn : n1.val < 128) (hm : m1.val < 128)
    (hcs : 0 ≤ e.csize) (hus : 0 ≤ e.usize)
    (hpay : (n0.val + 256 * n1.val) + (m0.val + 256 * m1.val) + e.csize.toNat ≤ rest.length) :
    (readZipFileEntry z name zipFile =
      if z.inflateInit2 (-15) ≠ Z_OK then Outcome.fatal Fatal.inflateInit2Error
      else if (z.inflate (localPayload fp off (n0.val + 256 * n1.val) (m0.val + 256 * m1.val)
          e.csize.toNat) e.usize.toNat).code ≠ Z_STREAM_END then
        Outcome.fatal Fatal.inflateError
      else if z.inflateEnd (localPayload fp off (n0.val + 256 * n1.val) (m0.val + 256 * m1.val)
          e.csize.toNat) e.usize.toNat ≠ Z_OK then
        Outcome.fatal Fatal.inflateEndError
      else
        Outcome.ok
          ((outputCells (z.inflate (localPayload fp off (n0.val + 256 * n1.val)
              (m0.val + 256 * m1.val) e.csize.toNat) e.usize.toNat).out e.usize.toNat, e.usize),
            { zipFile with
              file := some ⟨fp.data,
                off + 30 + (n0.val + 256 * n1.val) + (m0.val + 256 * m1.val) +
                  e.csize.toNat⟩ })) ∧
      ∀ out : List Byte, out.length = e.usize.toNat →
        outputCells out e.usize.toNat = out.map some := by
  have hlen : off + (30 + rest.length) = fp.data.length := by
    have := length_of_drop_eq hhdr (by simp)
    simp only [List.length_append, List.length_cons, List.length_nil] at this
    omega
  constructor
  · rw [readZipFileEntry_of_lookup z name zipFile e fp hfile hlook,
      readZipFileEntry_extract_header z fp e off _ _ _ _ _ _ _ _ _ _ _ _ _ _ _ _ _ _ _ _ _ _ _ _
        _ _ _ _ _ _ rest hoff hhdr]
    rw [if_neg (by decide!), flagSet_general, toInt16_pair_of_lt n0 n1 hn,
      toInt16_pair_of_lt m0 m1 hm]
    have hz : toInt16 (leValue [8, 0]) = 8 := by decide!
    rw [hz, fseek_cur_nonneg _ _ _ (by omega)]
    have hq : (((n0.val + 256 * n1.val : Nat) : Int) +
        ((m0.val + 256 * m1.val : Nat) : Int)).toNat
        = (n0.val + 256 * n1.val) + (m0.val + 256 * m1.val) := by omega
    rw [hq, ← Nat.add_assoc]
    rw [readZipFileEntry_payload_deflated z e fp.data _ hcs hus (by omega)]
    simp only [hg, localPayload, outputCells]
    split_ifs <;> simp_all [withStream]
  · intro out hout
    simp [outputCells, hout]

/-- Witness of C6: an entry deflated from 1000 zero bytes extracts to exactly 1000 zero
bytes. -/
theorem readZipFileEntry_deflated_witness :
    observed (readZipFileEntry zlibStored bBin (oneEntryHandle zerosStream bBin 1005 1000)) =
      Outcome.ok (List.replicate 1000 (some 0), 1000) := by
  have h := (readZipFileEntry_deflated zlibStored bBin
    (oneEntryHandle zerosStream bBin 1005 1000) ⟨zerosStream, 0⟩ ⟨bBin, 0, 1005, 1000⟩ 0
    20 0 0 0 0 0 0 0 0 0 0 0 0xED 3 0 0 0xE8 3 0 0 5 0 0 0 (zerosStream.drop 30) rfl
    (by decide!) rfl (by decide!) (by decide) (by decide) (by decide) (by decide) (by decide)
    (by decide!)).1
  rw [h]
  decide!

/-- Claim C8: when the total-entry-count field of the record at `startoffset` (its bytes
10 and 11) is zero, `findAndReadZipDir` ends in the fatal path: wrong signature, or
"No entries in central directory disk"; no handle with an entry index results. -/
theorem findAndReadZipDir_zero_count (zipFile : zip_file_t) (fp : FILE) (startoffset : Nat)
    (rest : List Byte) (hfile : zipFile.file = some fp)
    (hcount : fp.data.drop (startoffset + 10) = 0 :: 0 :: rest) :
    ∃ f, findAndReadZipDir zipFile (startoffset : Int) = Outcome.fatal f ∧
      (f = Fatal.noEntries ∨ ∃ sig, f = Fatal.wrongEOCDSig sig) := by
  have hlen : startoffset + 12 ≤ fp.data.length := by
    have := length_of_drop_eq hcount (by simp)
    simp at this
    omega
  have hc : leValue ((fp.data.drop (startoffset + 10)).take 2) = 0 := by
    rw [hcount]; unfold leValue; simp
  unfold findAndReadZipDir
  rw [hfile]
  simp (disch := omega) only [fseek_set_nat, ReadInt_of_le, ReadShort_of_le, Nat.add_assoc, Nat.reduceAdd, hc, toInt16_zero]
  split
  · exact ⟨_, rfl, Or.inr ⟨_, rfl⟩⟩
  · exact ⟨Fatal.noEntries, by simp [DoomRPG_Error], Or.inl rfl⟩

/-- Witness of C8: a stream that is one end-of-central-directory record declaring zero
entries. -/
theorem findAndReadZipDir_zero_count_witness :
    ∃ f, findAndReadZipDir (streamHandle (eocdRecord 0 0 0 [])) ((0 : Nat) : Int) =
        Outcome.fatal f ∧
      (f = Fatal.noEntries ∨ ∃ sig, f = Fatal.wrongEOCDSig sig) :=
  findAndReadZipDir_zero_count _ ⟨eocdRecord 0 0 0 [], 0⟩ 0 ((eocdRecord 0 0 0 []).drop 12)
    rfl (by decide!)

/-- Counterexample to C9 as stated: the record at offset 0 has the signature, a total
entry count of 32768 and central-directory offset 22, and 32768 valid records lie back
to back from offset 22; `findAndReadZipDir` reads the count as the 16-bit signed value
-32768 and ends in the "No entries in central directory disk" fatal path. -/
theorem findAndReadZipDir_32768_entries :
    bigDirectory.take 22 =
        [0x50, 0x4B, 5, 6, 0, 0, 0, 0, 0x00, 0x80, 0x00, 0x80, 0, 0, 0x17, 0, 22, 0, 0, 0,
          0, 0] ∧
      manyRecords.length = 32768 ∧
      bigDirectory.drop 22 = encodeRecords manyRecords ∧
      findAndReadZipDir (streamHandle bigDirectory) 0 = Outcome.fatal Fatal.noEntries := by
  have hrec : eocdRecord 32768 (46 * 32768) 22 [] =
      [0x50, 0x4B, 5, 6, 0, 0, 0, 0, 0x00, 0x80, 0x00, 0x80, 0, 0, 0x17, 0, 22, 0, 0, 0,
        0, 0] := by decide
  have hhead : bigDirectory =
      0x50 :: 0x4B :: 5 :: 6 :: 0 :: 0 :: 0 :: 0 :: 0x00 :: 0x80 :: 0x00 :: 0x80 :: 0 :: 0 ::
        0x17 :: 0 :: 22 :: 0 :: 0 :: 0 :: 0 :: 0 :: encodeRecords manyRecords := by
    unfold bigDirectory
    rw [hrec]
    simp only [List.cons_append, List.nil_append]
  refine ⟨?_, ?_, ?_, ?_⟩
  · rw [hhead]
    simp only [List.take_succ_cons, List.take_zero]
  · exact List.length_replicate _ _
  · rw [hhead]
    simp only [List.drop_succ_cons, List.drop_zero]
  · have hdrop : (⟨bigDirectory, 0⟩ : FILE).data.drop 0 =
        [0x50, 0x4B, 5, 6, 0, 0, 0, 0, 0x00, 0x80, 0x00, 0x80, 0, 0, 0x17, 0, 22, 0, 0, 0] ++
          (0 :: 0 :: encodeRecords manyRecords) := by
      rw [List.drop_zero]
      simp only [List.cons_append, List.nil_append]
      exact hhead
    have h := findAndReadZipDir_eocd (streamHandle bigDirectory) ⟨bigDirectory, 0⟩ 0
      0x50 0x4B 5 6 0 0 0 0 0x00 0x80 0x00 0x80 0 0 0x17 0 22 0 0 0
      (0 :: 0 :: encodeRecords manyRecords) rfl hdrop
    have h0 : (((0 : Nat) : Int)) = 0 := rfl
    rw [h0] at h
    rw [h, if_neg (by decide!), if_pos (by decide!)]

/-- Claim C9 (amended): central-directory walk. When the record at `startoffset` has the
end-of-central-directory signature, a total entry count `n` with `1 ≤ n ≤ 32767` and a
central-directory offset `o` below 2^31, and `n` records with valid signatures and with
name, extra-field and comment lengths of at most 32767 lie back to back from `o`, then
`findAndReadZipDir` succeeds with `entry_count = n` and an index whose i-th entry carries
the name of the i-th record and its sizes and local-header offset as 32-bit signed
values, in central-directory order; the stream is left right behind the last record. -/
theorem findAndReadZipDir_walk (zipFile : zip_file_t) (fp : FILE) (startoffset : Nat)
    (d0 d1 b0 b1 e0 e1 c0 c1 z0 z1 z2 z3 o0 o1 o2 o3 : Byte) (tail rest : List Byte)
    (recs : List CDRecord)
    (hfile : zipFile.file = some fp)
    (heocd : fp.data.drop startoffset =
      [0x50, 0x4B, 5, 6, d0, d1, b0, b1, e0, e1, c0, c1, z0, z1, z2, z3, o0, o1, o2, o3] ++
        tail)
    (hcount : recs.length = c0.val + 256 * c1.val)
    (hpos : 1 ≤ recs.length) (hmax : recs.length ≤ 32767)
    (hoff : leValue [o0, o1, o2, o3] < 2147483648)
    (hrecs : fp.data.drop (leValue [o0, o1, o2, o3]) = encodeRecords recs ++ rest)
    (hlens : ∀ r ∈ recs, r.name.length ≤ 32767 ∧ r.extra.length ≤ 32767 ∧
      r.comment.length ≤ 32767) :
    findAndReadZipDir zipFile (startoffset : Int) =
      Outcome.ok
        { file := some ⟨fp.data, leValue [o0, o1, o2, o3] + (encodeRecords recs).length⟩,
          entry_count := (recs.length : Int),
          entry := some (recs.map CDRecord.toEntry) } := by
  have hc : toInt16 (leValue [c0, c1]) = (recs.length : Int) := by
    rw [leValue_pair, ← hcount]
    exact toInt16_of_lt _ (by omega)
  rw [findAndReadZipDir_eocd zipFile fp startoffset _ _ _ _ _ _ _ _ _ _ _ _ _ _ _ _ _ _ _ _
    tail hfile heocd]
  rw [if_neg (by decide!), hc, if_neg (by omega), toInt32_of_lt _ hoff, fseek_set_nat,
    Int.toNat_ofNat, findAndReadZipDir_for_records fp.data recs _ rest hrecs hlens]
  rfl

/-- Witness of C9: the central directory of `helloArchive`, read from offset 91. -/
theorem findAndReadZipDir_walk_witness :
    findAndReadZipDir (streamHandle helloArchive) ((91 : Nat) : Int) =
      Outcome.ok
        { file := some ⟨helloArchive, 91⟩, entry_count := 1,
          entry := some [{ name := aTxt, offset := 0, csize := 5, usize := 5 }] } := by
  have h := findAndReadZipDir_walk (streamHandle helloArchive) ⟨helloArchive, 0⟩ 91
    0 0 0 0 1 0 1 0 51 0 0 0 40 0 0 0 [0, 0] (helloArchive.drop 91)
    [{ versionMadeBy := 20, versionNeeded := 20, flags := 0, method := 0, time := 0,
        date := 0, crc := crcHello, csize := 5, usize := 5, diskStart := 0, intAttr := 0,
        extAttr := 0, offset := 0, name := aTxt, extra := [], comment := [] }]
    rfl (by decide!) (by decide) (by decide) (by decide) (by decide!) (by decide!)
    (by decide)
  rw [h]
  decide!

/-- Counterexample to C10 as stated: two streams that differ only in bytes 18 to 25 of
the local header of the matched entry. The name-length field 0xFFF4 is read as -12, the
seek goes back to byte 18, and the 8 payload bytes returned are the local size fields
themselves: all zero for one stream, 1 to 8 for the other. -/
theorem readZipFileEntry_local_sizes_read_back :
    observed (readZipFileEntry zlibStored aTxt
        (oneEntryHandle (backwardHeader [0, 0, 0, 0, 0, 0, 0, 0]) aTxt 8 8)) ≠
      observed (readZipFileEntry zlibStored aTxt
        (oneEntryHandle (backwardHeader [1, 2, 3, 4, 5, 6, 7, 8]) aTxt 8 8)) ∧
      observed (readZipFileEntry zlibStored aTxt
        (oneEntryHandle (backwardHeader [0, 0, 0, 0, 0, 0, 0, 0]) aTxt 8 8)) =
        Outcome.ok (List.replicate 8 (some 0), 8) ∧
      observed (readZipFileEntry zlibStored aTxt
        (oneEntryHandle (backwardHeader [1, 2, 3, 4, 5, 6, 7, 8]) aTxt 8 8)) =
        Outcome.ok ([some 1, some 2, some 3, some 4, some 5, some 6, some 7, some 8], 8) := by
  decide!

/-- Claim C10 (amended): central-directory sizes are authoritative. Two streams that
differ only in the 8 bytes at local header offsets 18 to 25 of the matched entry, the
entry offset being non-negative, give the same outcome of `readZipFileEntry` (the same
fatal path or the same bytes and reported length), provided the name-length and
extra-length fields of that header, read as 16-bit signed values, have a non-negative
sum (as they do when both are at most 32767). -/
theorem readZipFileEntry_local_sizes_ignored (z : Zlib) (name : List Byte)
    (pre post : List Byte)
    (s0 s1 s2 s3 v0 v1 g0 g1 k0 k1 t0 t1 d0 d1 c0 c1 c2 c3 : Byte)
    (x0 x1 x2 x3 x4 x5 x6 x7 y0 y1 y2 y3 y4 y5 y6 y7 : Byte)
    (pos : Nat) (count : Int) (es : Option (List zip_entry_t))
    (hoff : ∀ e, readZipFileEntry_for name es count.toNat 0 = Outcome.ok (some e) →
      e.offset = (pre.length : Int))
    (hlens : 0 ≤ toInt16 (leValue (post.take 2)) + toInt16 (leValue ((post.drop 2).take 2))) :
    observed (readZipFileEntry z name
        { file := some ⟨pre ++ ([s0, s1, s2, s3, v0, v1, g0, g1, k0, k1, t0, t1, d0, d1, c0, c1,
            c2, c3, x0, x1, x2, x3, x4, x5, x6, x7] ++ post), pos⟩,
          entry_count := count, entry := es }) =
      observed (readZipFileEntry z name
        { file := some ⟨pre ++ ([s0, s1, s2, s3, v0, v1, g0, g1, k0, k1, t0, t1, d0, d1, c0, c1,
            c2, c3, y0, y1, y2, y3, y4, y5, y6, y7] ++ post), pos⟩,
          entry_count := count, entry := es }) := by
  cases hl : readZipFileEntry_for name es count.toNat 0 with
  | undefined => simp only [readZipFileEntry, hl]
  | fatal f => simp only [readZipFileEntry, hl]
  | ok r =>
    cases r with
    | none => simp only [readZipFileEntry, hl]
    | some e =>
      have ho := hoff e hl
      rw [readZipFileEntry_of_lookup z name _ e _ rfl hl,
        readZipFileEntry_of_lookup z name _ e _ rfl hl, observed_withStream,
        observed_withStream]
      rw [readZipFileEntry_extract_header26 z _ e pre.length _ _ _ _ _ _ _ _ _ _ _ _ _ _ _ _ _ _
          _ _ _ _ _ _ _ _ post ho (List.drop_left _ _),
        readZipFileEntry_extract_header26 z _ e pre.length _ _ _ _ _ _ _ _ _ _ _ _ _ _ _ _ _ _
          _ _ _ _ _ _ _ _ post ho (List.drop_left _ _)]
      split_ifs
      · rfl
      · rfl
      · rw [fseek_cur_nonneg _ _ _ hlens, fseek_cur_nonneg _ _ _ hlens]
        apply observed_payload_congr
        have e1 : ∀ (w : List Byte), w.length = 26 → ∀ k,
            (pre ++ (w ++ post)).drop (pre.length + 26 + k) = post.drop k := by
          intro w hw k
          rw [Nat.add_assoc, ← List.drop_drop, List.drop_left, ← hw, ← List.drop_drop,
            List.drop_left]
        generalize (toInt16 (leValue (List.take 2 post)) +
          toInt16 (leValue (List.take 2 (List.drop 2 post)))).toNat = t
        rw [Nat.add_assoc (pre.length + 26), e1, e1]
        all_goals rfl

/-- Witness of C10: the local header of `a.txt` with its own size fields set to other
values. -/
theorem readZipFileEntry_local_sizes_ignored_witness :
    observed (readZipFileEntry zlibStored aTxt
        { file := some ⟨[] ++ ([0x50, 0x4B, 3, 4, 20, 0, 0, 0, 0, 0, 0, 0, 0, 0, 0x86, 0xA6,
            0x10, 0x36, 5, 0, 0, 0, 5, 0, 0, 0] ++ ([5, 0, 0, 0] ++ (aTxt ++ hello))), 0⟩,
          entry_count := 1,
          entry := some [{ name := aTxt, offset := 0, csize := 5, usize := 5 }] }) =
      observed (readZipFileEntry zlibStored aTxt
        { file := some ⟨[] ++ ([0x50, 0x4B, 3, 4, 20, 0, 0, 0, 0, 0, 0, 0, 0, 0, 0x86, 0xA6,
            0x10, 0x36, 9, 9, 9, 9, 7, 7, 7, 7] ++ ([5, 0, 0, 0] ++ (aTxt ++ hello))), 0⟩,
          entry_count := 1,
          entry := some [{ name := aTxt, offset := 0, csize := 5, usize := 5 }] }) :=
  readZipFileEntry_local_sizes_ignored zlibStored aTxt [] ([5, 0, 0, 0] ++ (aTxt ++ hello))
    0x50 0x4B 3 4 20 0 0 0 0 0 0 0 0 0 0x86 0xA6 0x10 0x36 5 0 0 0 5 0 0 0 9 9 9 9 7 7 7 7
    0 1 (some [{ name := aTxt, offset := 0, csize := 5, usize := 5 }])
    (by
      intro e h
      have h1 : readZipFileEntry_for aTxt
          (some [{ name := aTxt, offset := 0, csize := 5, usize := 5 }]) (1 : Int).toNat 0 =
          Outcome.ok (some { name := aTxt, offset := 0, csize := 5, usize := 5 }) := by decide
      rw [h1] at h
      injection h with h
      injection h with h
      rw [← h]
      rfl)
    (by decide!)

/-- C11 (counterexample). On the two bytes 0x00 0x80 `_ReadShort` returns -32768, not the
unsigned value 32768, and on four bytes 0xFF `_ReadInt` returns -1, not 4294967295. -/
theorem ReadShort_high_bit_negative :
    _ReadShort ⟨[0x00, 0x80], 0⟩ = (-32768, ⟨[0x00, 0x80], 2⟩) ∧
    _ReadInt ⟨[0xFF, 0xFF, 0xFF, 0xFF], 0⟩ = (-1, ⟨[0xFF, 0xFF, 0xFF, 0xFF], 4⟩) := by
  decide!

/-- C11 (amended). With at least 2 (resp. 4) bytes remaining, `_ReadShort` (resp.
`_ReadInt`) returns the little-endian value of the bytes at the position read as a
two's-complement `int16_t` (resp. `int32_t`): the unsigned value `u` when `u` is below
2^15 (resp. 2^31) and `u - 2^16` (resp. `u - 2^32`) otherwise, so a result in
-32768..32767 (resp. -2^31..2^31-1); the position advances by exactly 2 (resp. 4). -/
theorem ReadShort_ReadInt_value_and_advance (data : List Byte) (p : Nat) :
    (∀ (b0 b1 : Byte) (rest : List Byte), data.drop p = b0 :: b1 :: rest →
      _ReadShort ⟨data, p⟩ =
        ((if b0.val + 256 * b1.val < 32768 then ((b0.val + 256 * b1.val : Nat) : Int)
          else ((b0.val + 256 * b1.val : Nat) : Int) - 65536), ⟨data, p + 2⟩) ∧
      -32768 ≤ (_ReadShort ⟨data, p⟩).1 ∧ (_ReadShort ⟨data, p⟩).1 ≤ 32767) ∧
    (∀ (b0 b1 b2 b3 : Byte) (rest : List Byte), data.drop p = b0 :: b1 :: b2 :: b3 :: rest →
      _ReadInt ⟨data, p⟩ =
        ((if b0.val + 256 * b1.val + 65536 * b2.val + 16777216 * b3.val < 2147483648 then
            ((b0.val + 256 * b1.val + 65536 * b2.val + 16777216 * b3.val : Nat) : Int)
          else ((b0.val + 256 * b1.val + 65536 * b2.val + 16777216 * b3.val : Nat) : Int)
            - 4294967296), ⟨data, p + 4⟩) ∧
      -2147483648 ≤ (_ReadInt ⟨data, p⟩).1 ∧ (_ReadInt ⟨data, p⟩).1 ≤ 2147483647) := by
  constructor
  · intro b0 b1 rest h
    have hv : _ReadShort ⟨data, p⟩ =
        ((if b0.val + 256 * b1.val < 32768 then ((b0.val + 256 * b1.val : Nat) : Int)
          else ((b0.val + 256 * b1.val : Nat) : Int) - 65536), ⟨data, p + 2⟩) := by
      rw [ReadShort_eq, h]
      simp only [List.take_succ_cons, List.take_zero, List.length_cons, List.length_nil,
        leValue_pair]
      rw [toInt16_eq _ (by omega)]
    refine ⟨hv, ?_, ?_⟩ <;> rw [hv] <;> simp only <;> split <;> omega
  · intro b0 b1 b2 b3 rest h
    have hv : _ReadInt ⟨data, p⟩ =
        ((if b0.val + 256 * b1.val + 65536 * b2.val + 16777216 * b3.val < 2147483648 then
            ((b0.val + 256 * b1.val + 65536 * b2.val + 16777216 * b3.val : Nat) : Int)
          else ((b0.val + 256 * b1.val + 65536 * b2.val + 16777216 * b3.val : Nat) : Int)
            - 4294967296), ⟨data, p + 4⟩) := by
      rw [ReadInt_eq, h]
      simp only [List.take_succ_cons, List.take_zero, List.length_cons, List.length_nil,
        leValue_quad]
      rw [toInt32_eq _ (by omega)]
    refine ⟨hv, ?_, ?_⟩ <;> rw [hv] <;> simp only <;> split <;> omega

theorem ReadShort_ReadInt_value_and_advance_witness :
    _ReadShort ⟨[0x34, 0x12, 0xFF, 0xFF, 0xFF, 0xFF], 0⟩ =
        ((0x1234 : Int), ⟨[0x34, 0x12, 0xFF, 0xFF, 0xFF, 0xFF], 2⟩) ∧
    _ReadInt ⟨[0x34, 0x12, 0xFF, 0xFF, 0xFF, 0xFF], 2⟩ =
        ((-1 : Int), ⟨[0x34, 0x12, 0xFF, 0xFF, 0xFF, 0xFF], 6⟩) :=
  ⟨((ReadShort_ReadInt_value_and_advance [0x34, 0x12, 0xFF, 0xFF, 0xFF, 0xFF] 0).1
      0x34 0x12 [0xFF, 0xFF, 0xFF, 0xFF] rfl).1,
   ((ReadShort_ReadInt_value_and_advance [0x34, 0x12, 0xFF, 0xFF, 0xFF, 0xFF] 2).2
      0xFF 0xFF 0xFF 0xFF [] rfl).1⟩

/-- C12. On `helloArchiveComment490` (603 bytes) the magic occurs at offset
91 = fileSize - 512, inside the trailing region, and nowhere after it; the one window
that is read starts at offset 91, index 0 of a window is never compared, and the next
value of `back` is not below `maxback`: `openZipFile` ends in the "cannot find end of
central directory" fatal path. -/
theorem openZipFile_helloArchiveComment490_fatal :
    helloArchiveComment490.length = 603 ∧ magicAt helloArchiveComment490 91 ∧
      (∀ q, 92 ≤ q → q < 600 → ¬ magicAt helloArchiveComment490 q) ∧
      openZipFile_locate (some helloArchiveComment490) =
        Outcome.fatal Fatal.cannotFindEOCD ∧
      openZipFile (some helloArchiveComment490) zipFile0 =
        Outcome.fatal Fatal.cannotFindEOCD := by
  decide!

/-- C13. A stream of at most 512 bytes is never searched: whatever it holds,
`openZipFile` ends in the "cannot find end of central directory" fatal path, no window
being read and no offset handed to `findAndReadZipDir`. -/
theorem openZipFile_small_file_fatal (data : List Byte) (zipFile : zip_file_t)
    (h : data.length ≤ 512) :
    openZipFile_locate (some data) = Outcome.fatal Fatal.cannotFindEOCD ∧
      openZipFile (some data) zipFile = Outcome.fatal Fatal.cannotFindEOCD := by
  have h1 : openZipFile_locate (some data) = Outcome.fatal Fatal.cannotFindEOCD := by
    rw [openZipFile_locate_eq]
    apply openZipFile_while_done
    rw [filesizeOf_of_lt data (by omega)]
    unfold MIN
    split <;> split <;> omega
  refine ⟨h1, ?_⟩
  unfold openZipFile
  rw [h1]

theorem openZipFile_small_file_fatal_witness :
    helloArchive.length = 113 ∧ magicAt helloArchive 91 ∧
      openZipFile_locate (some helloArchive) = Outcome.fatal Fatal.cannotFindEOCD ∧
      openZipFile (some helloArchive) zipFile0 = Outcome.fatal Fatal.cannotFindEOCD :=
  ⟨by decide, by decide,
    openZipFile_small_file_fatal helloArchive zipFile0 (by decide)⟩

/-- C14 (counterexample). In `deepMagicStream` (66047 bytes) the magic occurs at offset
4; `openZipFile` hands offset 4 on, at distance 66043 from the end of the file, beyond the
65557 of the claim. In `wrappedStream` (2^32 + 1000 bytes, a size the `int` of the code
cannot hold) offset 500 is handed on, at distance 2^32 + 500 from the end of the file. -/
theorem openZipFile_locate_deepMagicStream :
    (deepMagicStream.length = 66047 ∧
      (∃ fp, openZipFile_locate (some deepMagicStream) = Outcome.ok (fp, 4)) ∧
      65557 < (deepMagicStream.length : Int) - 4) ∧
    (wrappedStream.length = 4294968296 ∧
      (∃ fp, openZipFile_locate (some wrappedStream) = Outcome.ok (fp, 500)) ∧
      65557 < (wrappedStream.length : Int) - 500) := by
  constructor
  · have hlen := deepMagicStream_length
    have hfs : filesizeOf deepMagicStream = ((66047 : Nat) : Int) := by
      rw [filesizeOf_of_lt _ (by rw [hlen]; decide), hlen]
    have hsc :=
      (openZipFile_locate_scan deepMagicStream 66047 hfs (by rw [hlen]) (by decide)).1
    have hB : lastBack (min 66047 66047) = 66044 := by decide
    rw [hB] at hsc
    have hs : scanDown deepMagicStream (66047 - 66044) (66044 - 4) = some 4 :=
      scanDown_of_greatest deepMagicStream _ _ 4 (by decide) (by decide) deepMagicStream_magicAt
        (fun q h1 h2 => deepMagicStream_no_magic q h1 (by omega))
    rw [hs] at hsc
    refine ⟨hlen, offsetHanded_ok _ _ hsc, ?_⟩
    rw [hlen]
    decide
  · have hlen := wrappedStream_length
    have hsc := (openZipFile_locate_scan wrappedStream 1000 wrappedStream_filesize
      (by rw [hlen]; decide) (by decide)).1
    have hB : lastBack (min 1000 66047) = 512 := by decide
    rw [hB] at hsc
    have hs : scanDown wrappedStream (1000 - 512) (512 - 4) = some 500 :=
      scanDown_of_greatest wrappedStream _ _ 500 (by decide) (by decide) wrappedStream_magicAt
        (fun q h1 h2 => wrappedStream_no_magic q h1 (by omega))
    rw [hs] at hsc
    refine ⟨hlen, offsetHanded_ok _ _ hsc, ?_⟩
    rw [hlen]
    decide

/-- C14 (amended). Search depth, for a stream of fewer than 2^31 bytes (a size that fits
the `int` the code keeps it in). The search is the loop run with
`maxback = min(fileSize, 0xFFFF + 512) = min(fileSize, 66047)` from
`back = min(maxback, 512)`. Every offset `p` that `openZipFile` hands to
`findAndReadZipDir` is `fileSize - back + i` for a value `back = 512 + 508 * k` below
`maxback` and an index `1 ≤ i ≤ 508`, and holds the magic, so `4 ≤ fileSize - p ≤ 66043`.
Every such value of `back` is reached: an offset `fileSize - back + i` of this form that
holds the magic, no greater offset up to `fileSize - 4` holding it, is handed on. -/
theorem openZipFile_search_depth (data : List Byte) (h : data.length < 2147483648) :
    openZipFile_locate (some data) =
        openZipFile_while (data.length : Int) ((min data.length 66047 : Nat) : Int)
          (min data.length 66047) ⟨data, 0⟩ (List.replicate 512 none)
          ((min (min data.length 66047) 512 : Nat) : Int) ∧
    (∀ (fp : FILE) (p : Int), openZipFile_locate (some data) = Outcome.ok (fp, p) →
      ∃ k i : Nat, 512 + 508 * k < min data.length 66047 ∧ 1 ≤ i ∧ i ≤ 508 ∧
        p = ((data.length - (512 + 508 * k) + i : Nat) : Int) ∧
        magicAt data (data.length - (512 + 508 * k) + i) ∧
        4 ≤ (data.length : Int) - p ∧ (data.length : Int) - p ≤ 66043) ∧
    (∀ k i : Nat, 512 + 508 * k < min data.length 66047 → 1 ≤ i → i ≤ 508 →
      magicAt data (data.length - (512 + 508 * k) + i) →
      (∀ q, data.length - (512 + 508 * k) + i < q → q ≤ data.length - 4 →
        ¬ magicAt data q) →
      ∃ fp, openZipFile_locate (some data) =
        Outcome.ok (fp, ((data.length - (512 + 508 * k) + i : Nat) : Int))) := by
  have hfs : filesizeOf data = (data.length : Int) := filesizeOf_of_lt data h
  refine ⟨?_, ?_, ?_⟩
  · rw [openZipFile_locate_eq, hfs, MIN_maxback]
    have e : ((512 : Int)) = ((512 : Nat) : Int) := rfl
    rw [e, MIN_nat, Int.toNat_ofNat]
  · intro fp p hok
    obtain ⟨F, back, i, hF1, hF2, h512, c1, c2, c3, c4, c5, c6, c7, c8⟩ :=
      openZipFile_locate_ok data fp p hok
    have hFN : F = data.length := by omega
    subst hFN
    have hk : back = 512 + 508 * ((back - 512) / 508) := by omega
    refine ⟨(back - 512) / 508, i, by omega, c4, c5, ?_, ?_, ?_, ?_⟩
    · rw [← hk]; exact c7
    · rw [← hk]; exact c8
    · rw [c7]; omega
    · rw [c7]; omega
  · intro k i hk hi1 hi2 hm hg
    have h512 : 512 < data.length := by omega
    obtain ⟨hsc, _⟩ := openZipFile_locate_scan data data.length hfs (Nat.le_refl _) h512
    obtain ⟨b1, b2, b3, b4⟩ := lastBack_spec (min data.length 66047) (by omega)
    have hkB := b4 k hk
    have hs := scanDown_of_greatest data (data.length - lastBack (min data.length 66047))
      (lastBack (min data.length 66047) - 4) (data.length - (512 + 508 * k) + i)
      (by omega) (by omega) hm (fun q hq1 hq2 => hg q hq1 (by omega))
    rw [hs] at hsc
    exact offsetHanded_ok _ _ hsc

theorem openZipFile_search_depth_witness :
    (deepMagicStream.length < 2147483648 ∧
      deepMagicStream.length - (512 + 508 * 129) + 1 = 4 ∧
      ∃ fp, openZipFile_locate (some deepMagicStream) =
        Outcome.ok (fp, ((deepMagicStream.length - (512 + 508 * 129) + 1 : Nat) : Int))) ∧
    (openZipFile_locate (some twoMemberArchiveComment400) =
        Outcome.ok (⟨twoMemberArchiveComment400, 609⟩, 187) ∧
      ∃ k i : Nat, 512 + 508 * k < min twoMemberArchiveComment400.length 66047 ∧ 1 ≤ i ∧
        i ≤ 508 ∧
        (187 : Int) = ((twoMemberArchiveComment400.length - (512 + 508 * k) + i : Nat) : Int) ∧
        magicAt twoMemberArchiveComment400
          (twoMemberArchiveComment400.length - (512 + 508 * k) + i) ∧
        4 ≤ (twoMemberArchiveComment400.length : Int) - 187 ∧
        (twoMemberArchiveComment400.length : Int) - 187 ≤ 66043) :=
  ⟨⟨by rw [deepMagicStream_length]; decide, by rw [deepMagicStream_length],
    (openZipFile_search_depth deepMagicStream (by rw [deepMagicStream_length]; decide)).2.2
      129 1 (by rw [deepMagicStream_length]; decide) (by decide) (by decide)
      (by rw [deepMagicStream_length]; exact deepMagicStream_magicAt)
      (fun q h1 h2 => deepMagicStream_no_magic q
        (by rw [deepMagicStream_length] at h1; omega)
        (by rw [deepMagicStream_length] at h2; omega))⟩,
   ⟨by decide!,
    (openZipFile_search_depth twoMemberArchiveComment400 (by decide!)).2.1
      ⟨twoMemberArchiveComment400, 609⟩ 187 (by decide!)⟩⟩

/-- C15 (counterexample). A record at offset 0 with a valid signature, an empty name, no
extra field and a comment of 32768 bytes, all within the stream: the comment length is
read as -32768, the seek to a negative position is refused, and the cursor is left at
offset 46 instead of 46 + 32768, the start of the next record. -/
theorem findAndReadZipDir_body_comment_32768 :
    longCommentRecord.encode.length = 46 + 32768 ∧
      longCommentRecord.comment.length = 32768 ∧
      findAndReadZipDir_body ⟨longCommentRecord.encode, 0⟩ =
        Outcome.ok (longCommentRecord.toEntry, ⟨longCommentRecord.encode, 46⟩) := by
  have hc : longCommentRecord.comment.length = 32768 := List.length_replicate _ _
  have hn : longCommentRecord.name.length = 0 := rfl
  have hx : longCommentRecord.extra.length = 0 := rfl
  refine ⟨?_, hc, ?_⟩
  · rw [CDRecord.encode_length, hc, hn, hx]
  · have h := findAndReadZipDir_body_long_comment longCommentRecord.encode 0 longCommentRecord
      [] (by rw [List.drop_zero, List.append_nil]) (by rw [hn]; omega) (by rw [hx]; omega)
      (by rw [hc]) (by rw [hc]; omega) (by rw [hc, hn, hx]; omega)
    rw [hn, hx] at h
    exact h

/-- C15 (amended). Per-record cursor step, for name, extra-field and comment lengths
`n`, `m`, `k` of at most 32767 each: for a record that starts at offset `r` with a valid
signature and lies within the stream, the loop body of `findAndReadZipDir` stores as the
entry name exactly the `n` bytes at `r + 46 .. r + 46 + n` and leaves the cursor at
`r + 46 + n + m + k`, the start of the next record. -/
theorem findAndReadZipDir_body_cursor_step (data : List Byte) (r : Nat) (rec : CDRecord)
    (rest : List Byte) (h : data.drop r = rec.encode ++ rest)
    (hn : rec.name.length ≤ 32767) (hm : rec.extra.length ≤ 32767)
    (hk : rec.comment.length ≤ 32767) :
    ∃ e : zip_entry_t,
      findAndReadZipDir_body ⟨data, r⟩ =
        Outcome.ok (e, ⟨data, r + 46 + rec.name.length + rec.extra.length +
          rec.comment.length⟩) ∧
      e.name = (data.drop (r + 46)).take rec.name.length ∧
      e.name.length = rec.name.length := by
  refine ⟨rec.toEntry, ?_, ?_, rfl⟩
  · rw [findAndReadZipDir_body_record data r rec rest h hn hm hk, CDRecord.encode_length]
    simp only [Nat.add_assoc]
  · rw [drop_add_of_drop h 46, CDRecord.encode_eq]
    simp only [List.cons_append, List.drop_succ_cons, List.drop_zero, List.append_assoc]
    rw [List.take_left]
    rfl

theorem findAndReadZipDir_body_cursor_step_witness :
    (namedRecord.encode ++ hello).drop 0 = namedRecord.encode ++ hello ∧
      ∃ e : zip_entry_t,
        findAndReadZipDir_body ⟨namedRecord.encode ++ hello, 0⟩ =
          Outcome.ok (e, ⟨namedRecord.encode ++ hello, 0 + 46 + namedRecord.name.length +
            namedRecord.extra.length + namedRecord.comment.length⟩) ∧
        e.name = ((namedRecord.encode ++ hello).drop (0 + 46)).take namedRecord.name.length ∧
        e.name.length = namedRecord.name.length :=
  ⟨rfl, findAndReadZipDir_body_cursor_step (namedRecord.encode ++ hello) 0 namedRecord hello
    rfl (by decide) (by decide) (by decide)⟩

/-- C16 (counterexample). With a partial tail of one byte 0x41, `_ReadShort` and `_ReadInt`
return 65, not 0. -/
theorem ReadShort_partial_tail_nonzero :
    _ReadShort ⟨[0x41], 0⟩ = (65, ⟨[0x41], 1⟩) ∧ _ReadInt ⟨[0x41], 0⟩ = (65, ⟨[0x41], 1⟩) := by
  decide!

/-- C16 (amended). The readers are total: no input makes them fail. At a position with no
byte remaining, `_ReadShort` and `_ReadInt` return 0 and leave the position unchanged.
With a partial tail (1 byte for `_ReadShort`, 1 to 3 bytes for `_ReadInt`) they return
the little-endian value of the bytes that remain, which is 0 exactly when all of them
are 0, and leave the position at the end of the stream. -/
theorem ReadShort_ReadInt_at_end (data : List Byte) (p : Nat) :
    (data.length ≤ p →
      _ReadShort ⟨data, p⟩ = (0, ⟨data, p⟩) ∧ _ReadInt ⟨data, p⟩ = (0, ⟨data, p⟩)) ∧
    (∀ tail : List Byte, data.drop p = tail → 0 < tail.length →
      (tail.length < 2 →
        _ReadShort ⟨data, p⟩ = (((leValue tail : Nat) : Int), ⟨data, data.length⟩)) ∧
      (tail.length < 4 →
        _ReadInt ⟨data, p⟩ = (((leValue tail : Nat) : Int), ⟨data, data.length⟩)) ∧
      (leValue tail = 0 ↔ ∀ b ∈ tail, b = 0)) := by
  constructor
  · intro h
    have hd : data.drop p = [] := List.drop_eq_nil_of_le h
    rw [ReadShort_eq, ReadInt_eq, hd]
    simp only [List.take_nil, List.length_nil, leValue_nil, toInt16_zero, toInt32_zero,
      Nat.add_zero, and_self]
  · intro tail hd hpos
    have hlen : p + tail.length = data.length := length_of_drop_eq hd hpos
    have hlt := leValue_lt tail
    refine ⟨?_, ?_, leValue_eq_zero tail⟩
    · intro h2
      have h1 : tail.length = 1 := by omega
      rw [ReadShort_eq, hd, List.take_of_length_le (by omega), hlen]
      rw [h1] at hlt
      rw [toInt16_of_lt _ (by omega)]
    · intro h4
      have hp : (256 : Nat) ^ tail.length ≤ 256 ^ 3 :=
        Nat.pow_le_pow_right (by decide) (by omega)
      rw [ReadInt_eq, hd, List.take_of_length_le (by omega), hlen]
      rw [toInt32_of_lt _ (by omega)]

theorem ReadShort_ReadInt_at_end_witness :
    _ReadShort ⟨[0x41], 0⟩ = (((leValue [0x41] : Nat) : Int), ⟨[0x41], 1⟩) ∧
    _ReadInt ⟨[0x41, 0, 1], 3⟩ = (0, ⟨[0x41, 0, 1], 3⟩) :=
  ⟨((ReadShort_ReadInt_at_end [0x41] 0).2 [0x41] rfl (by decide)).1 (by decide),
   ((ReadShort_ReadInt_at_end [0x41, 0, 1] 3).1 (by decide)).2⟩

/-- C17 (counterexample). A stream of 2^31 bytes whose last 4 bytes are the magic: the
offset `fileSize - 4` lies in the range of the claim (`B = 66044`) and holds the magic,
but `(int)ftell` is -2^31, `maxback` and `back` are both -2^31, the loop runs zero times
and `openZipFile` ends in the "cannot find end of central directory" fatal path, no
offset being examined. -/
theorem openZipFile_twoGiBStream_fatal :
    twoGiBStream.length = 2147483648 ∧ searchDepth twoGiBStream = 66044 ∧
      magicAt twoGiBStream 2147483644 ∧ filesizeOf twoGiBStream = -2147483648 ∧
      openZipFile_locate (some twoGiBStream) = Outcome.fatal Fatal.cannotFindEOCD ∧
      openZipFile (some twoGiBStream) zipFile0 = Outcome.fatal Fatal.cannotFindEOCD ∧
      openZipFile_examined twoGiBStream = [] := by
  have hlen := twoGiBStream_length
  have hfs : filesizeOf twoGiBStream = -2147483648 := by
    unfold filesizeOf
    rw [hlen]
    decide!
  have hloc := openZipFile_locate_small twoGiBStream (by rw [hfs]; decide)
  refine ⟨hlen, ?_, ?_, hfs, hloc.1, openZipFile_of_locate_fatal _ _ _ hloc.1, hloc.2⟩
  · unfold searchDepth
    rw [hlen]
    decide
  · unfold magicAt twoGiBStream
    rw [List.drop_left' (List.length_replicate _ _)]
    rfl

/-- C17 (amended). Window tiling, for a stream of more than 512 and fewer than 2^31 bytes
(a size that fits the `int` the code keeps it in). With `B = searchDepth data`, the
largest number of the form `512 + 508 * k` strictly below `min(fileSize, 66047)`: the
search compares the offsets `fileSize - 4`, `fileSize - 5`, ... in this order, each once
and without a gap, down to the first one that holds the magic, or down to
`fileSize - B + 1` when none does. It hands to `findAndReadZipDir` the greatest offset `p`
with `fileSize - B < p ≤ fileSize - 4` at which the magic occurs, and it ends in the
"cannot find end of central directory" fatal path if and only if there is none. -/
theorem openZipFile_window_tiling (data : List Byte) (zipFile : zip_file_t)
    (h1 : 512 < data.length) (h2 : data.length < 2147483648) :
    (512 ≤ searchDepth data ∧ searchDepth data < min data.length 66047 ∧
      (∃ k, searchDepth data = 512 + 508 * k) ∧
      ∀ k, 512 + 508 * k < min data.length 66047 → 512 + 508 * k ≤ searchDepth data) ∧
    (∀ p, data.length - searchDepth data < p → p ≤ data.length - 4 → magicAt data p →
      (∀ q, p < q → q ≤ data.length - 4 → ¬ magicAt data q) →
      (∃ fp, openZipFile_locate (some data) = Outcome.ok (fp, (p : Int)) ∧
        openZipFile (some data) zipFile =
          findAndReadZipDir { zipFile with file := some fp } (p : Int)) ∧
      openZipFile_examined data =
        descending ((data.length : Int) - 4) (data.length - 4 - p + 1)) ∧
    ((∀ p, data.length - searchDepth data < p → p ≤ data.length - 4 → ¬ magicAt data p) →
      openZipFile_examined data =
        descending ((data.length : Int) - 4) (searchDepth data - 4)) ∧
    ((∀ p, data.length - searchDepth data < p → p ≤ data.length - 4 → ¬ magicAt data p) ↔
      openZipFile_locate (some data) = Outcome.fatal Fatal.cannotFindEOCD) ∧
    ((∀ p, data.length - searchDepth data < p → p ≤ data.length - 4 → ¬ magicAt data p) ↔
      openZipFile (some data) zipFile = Outcome.fatal Fatal.cannotFindEOCD) := by
  have hfs : filesizeOf data = (data.length : Int) := filesizeOf_of_lt data h2
  obtain ⟨hsc, htr⟩ := openZipFile_locate_scan data data.length hfs (Nat.le_refl _) h1
  obtain ⟨b1, b2, b3, b4⟩ := lastBack_spec (min data.length 66047) (by omega)
  have hB : lastBack (min data.length 66047) = searchDepth data := rfl
  rw [hB] at hsc htr b1 b2 b3 b4
  have hBN : searchDepth data ≤ data.length := by omega
  have hhi : data.length - searchDepth data + (searchDepth data - 4) = data.length - 4 := by
    omega
  have hcast : (((data.length - 4 : Nat) : Int)) = (data.length : Int) - 4 := by omega
  have hdesc := scanTrace_descending data (data.length - searchDepth data) (searchDepth data - 4)
  rw [hhi, hcast] at hdesc
  have hnone := scanDown_none data (data.length - searchDepth data) (searchDepth data - 4)
  rw [hhi] at hnone
  have hfatal : (∀ p, data.length - searchDepth data < p → p ≤ data.length - 4 →
      ¬ magicAt data p) ↔
      openZipFile_locate (some data) = Outcome.fatal Fatal.cannotFindEOCD := by
    constructor
    · intro hno
      rw [hnone.mpr hno] at hsc
      exact offsetHanded_fatal _ _ hsc
    · intro hf
      rw [hf] at hsc
      cases hs : scanDown data (data.length - searchDepth data) (searchDepth data - 4) with
      | none => exact hnone.mp hs
      | some q => rw [hs] at hsc; simp [offsetHanded, searchOutcome] at hsc
  refine ⟨⟨b1, b2, ⟨_, b3⟩, b4⟩, ?_, ?_, hfatal, ?_⟩
  · intro p hp1 hp2 hm hg
    have hs := scanDown_of_greatest data (data.length - searchDepth data) (searchDepth data - 4)
      p hp1 (by omega) hm (fun q hq1 hq2 => hg q hq1 (by omega))
    rw [hs] at hsc
    obtain ⟨fp, hfp⟩ := offsetHanded_ok _ _ hsc
    refine ⟨⟨fp, hfp, ?_⟩, ?_⟩
    · unfold openZipFile
      rw [hfp]
    · rw [htr, hdesc.2 p hs]
  · intro hno
    rw [htr, hdesc.1 (hnone.mpr hno)]
  · constructor
    · intro hno
      unfold openZipFile
      rw [hfatal.mp hno]
    · intro hf
      apply hfatal.mpr
      unfold openZipFile at hf
      cases hl : openZipFile_locate (some data) with
      | ok r =>
        obtain ⟨fp, p⟩ := r
        rw [hl] at hf
        exact absurd hf (findAndReadZipDir_ne_cannotFindEOCD _ _)
      | fatal f =>
        rw [hl] at hf
        simp only [Outcome.fatal.injEq] at hf
        rw [hf]
      | undefined => rw [hl] at hf; simp at hf

theorem openZipFile_window_tiling_witness :
    helloArchiveComment950.length = 1063 ∧ searchDepth helloArchiveComment950 = 1020 ∧
      magicAt helloArchiveComment950 91 ∧
      (∃ fp, openZipFile_locate (some helloArchiveComment950) =
          Outcome.ok (fp, ((91 : Nat) : Int)) ∧
        openZipFile (some helloArchiveComment950) zipFile0 =
          findAndReadZipDir { zipFile0 with file := some fp } ((91 : Nat) : Int)) ∧
      openZipFile_examined helloArchiveComment950 =
        descending ((helloArchiveComment950.length : Int) - 4)
          (helloArchiveComment950.length - 4 - 91 + 1) :=
  ⟨helloArchiveComment950_length, helloArchiveComment950_searchDepth,
    helloArchiveComment950_magicAt,
    (openZipFile_window_tiling helloArchiveComment950 zipFile0
      (by rw [helloArchiveComment950_length]; decide)
      (by rw [helloArchiveComment950_length]; decide)).2.1 91
      (by rw [helloArchiveComment950_length, helloArchiveComment950_searchDepth]; decide)
      (by rw [helloArchiveComment950_length]; decide)
      helloArchiveComment950_magicAt
      (fun q h1 h2 => helloArchiveComment950_no_magic q h1 h2)⟩

/-- C18. Whenever the search of `openZipFile` hands an offset `p` to `findAndReadZipDir`,
it comes from a round of the loop (`back` at least 512 and at most the file size) whose
`fread` obtained all 512 bytes of the window, `p` is the offset of an index from 1 to 508
of that window, and the 4 stream bytes at `p` are the magic, so that the `_ReadInt` at `p`
returns the expected signature; and no run of `openZipFile` ends in the "wrong zip end of
central directory signature" fatal path. -/
theorem openZipFile_handed_offset_holds_magic (data : List Byte) (zipFile : zip_file_t) :
    (∀ (fp : FILE) (p : Int), openZipFile_locate (some data) = Outcome.ok (fp, p) →
      ∃ (back i : Nat) (w : List Byte),
        512 ≤ back ∧ (back : Int) ≤ filesizeOf data ∧ 1 ≤ i ∧ i ≤ 508 ∧
        p = filesizeOf data - (back : Int) + (i : Int) ∧
        fread 512 (fseek ⟨data, 0⟩ (filesizeOf data - (back : Int)) Whence.SEEK_SET) =
          (w, fp) ∧
        w.length = 512 ∧ (w.drop i).take 4 = eocdMagic ∧
        0 ≤ p ∧ magicAt data p.toNat ∧
        (_ReadInt (fseek fp p Whence.SEEK_SET)).1 = ZIP_END_OF_CENTRAL_DIRECTORY_SIG) ∧
    (∀ sig : Int, openZipFile (some data) zipFile ≠ Outcome.fatal (Fatal.wrongEOCDSig sig)) := by
  constructor
  · intro fp p h
    obtain ⟨F, back, i, hfs, hF, h512, c1, c2, _, c4, c5, c6, c7, c8⟩ :=
      openZipFile_locate_ok data fp p h
    have hbF : back ≤ F := by omega
    have hseek : fseek ⟨data, 0⟩ ((F : Int) - (back : Int)) Whence.SEEK_SET =
        ⟨data, F - back⟩ := by
      have e : (F : Int) - (back : Int) = ((F - back : Nat) : Int) := by omega
      rw [e, fseek_set_nat]
    have hlen : ((data.drop (F - back)).take 512).length = 512 := by
      rw [List.length_take, List.length_drop]; omega
    have hm : (data.drop (F - back + i)).take 4 = eocdMagic := c8
    refine ⟨back, i, (data.drop (F - back)).take 512, c1, by omega, c4, c5, ?_, ?_, hlen, ?_,
      by omega, ?_, ?_⟩
    · rw [c7, hfs]; omega
    · rw [hfs, hseek, fread_window data (F - back) (by omega), c6]
    · rw [take_drop_window _ _ _ (by omega)]
      exact hm
    · rw [c7, Int.toNat_ofNat]
      exact c8
    · rw [c7, c6, fseek_set_nat, ReadInt_eq, hm, eocdMagic_sig]
  · intro sig
    unfold openZipFile
    cases h : openZipFile_locate (some data) with
    | ok r =>
      obtain ⟨fp, p⟩ := r
      obtain ⟨F, back, i, _, _, _, _, _, _, _, _, c6, c7, c8⟩ :=
        openZipFile_locate_ok data fp p h
      simp only
      rw [c7]
      exact findAndReadZipDir_at_magic _ data (F - back + 512) _ sig (by rw [c6]) c8
    | fatal f =>
      simp only [ne_eq, Outcome.fatal.injEq]
      intro hf
      have := openZipFile_locate_fatal data f h
      rw [hf] at this
      simp at this
    | undefined => simp

theorem openZipFile_handed_offset_holds_magic_witness :
    openZipFile_locate (some twoMemberArchiveComment400) =
        Outcome.ok (⟨twoMemberArchiveComment400, 609⟩, 187) ∧
      ∃ (back i : Nat) (w : List Byte),
        512 ≤ back ∧ (back : Int) ≤ filesizeOf twoMemberArchiveComment400 ∧ 1 ≤ i ∧ i ≤ 508 ∧
        (187 : Int) = filesizeOf twoMemberArchiveComment400 - (back : Int) + (i : Int) ∧
        fread 512 (fseek ⟨twoMemberArchiveComment400, 0⟩
          (filesizeOf twoMemberArchiveComment400 - (back : Int)) Whence.SEEK_SET) =
          (w, ⟨twoMemberArchiveComment400, 609⟩) ∧
        w.length = 512 ∧ (w.drop i).take 4 = eocdMagic ∧
        0 ≤ (187 : Int) ∧ magicAt twoMemberArchiveComment400 (187 : Int).toNat ∧
        (_ReadInt (fseek ⟨twoMemberArchiveComment400, 609⟩ 187 Whence.SEEK_SET)).1 =
          ZIP_END_OF_CENTRAL_DIRECTORY_SIG :=
  ⟨by decide!,
    (openZipFile_handed_offset_holds_magic twoMemberArchiveComment400 zipFile0).1
      ⟨twoMemberArchiveComment400, 609⟩ 187 (by decide!)⟩

/-- C19 (counterexample). A stored entry whose index sizes are csize 5 and usize 8: the
returned buffer has 5 bytes and the reported length is 8. -/
theorem readZipFileEntry_stored_length_mismatch :
    observed (readZipFileEntry zlibStored aTxt (oneEntryHandle helloArchive aTxt 5 8)) =
      Outcome.ok (hello.map some, 8) := by
  decide!

/-- C19 (amended). Whenever `readZipFileEntry` succeeds, the length it reports is the
`usize` of the matched index entry; the buffer it returns has `usize` bytes for method 8
and `csize` bytes for method 0. So the reported length equals the number of bytes of the
buffer for method 8, and for method 0 when the entry has `csize = usize`. -/
theorem readZipFileEntry_reported_length (z : Zlib) (name : List Byte)
    (zipFile zipFile' : zip_file_t) (buf : List Cell) (len : Int)
    (h : readZipFileEntry z name zipFile = Outcome.ok ((buf, len), zipFile')) :
    ∃ (es : List zip_entry_t) (e : zip_entry_t) (method : Int) (fp fp' : FILE),
      zipFile.entry = some es ∧ e ∈ es ∧ SDL_strcasecmp name e.name = 0 ∧
      readZipFileEntry_payload z e method fp = Outcome.ok ((buf, len), fp') ∧
      len = e.usize ∧
      ((method = 8 ∧ (buf.length : Int) = len) ∨
        (method = 0 ∧ (buf.length : Int) = e.csize ∧
          (e.csize = e.usize → (buf.length : Int) = len))) := by
  unfold readZipFileEntry at h
  cases hf : readZipFileEntry_for name zipFile.entry zipFile.entry_count.toNat 0 with
  | undefined => rw [hf] at h; simp at h
  | fatal f => rw [hf] at h; simp at h
  | ok o =>
    cases o with
    | none => rw [hf] at h; simp [DoomRPG_Error] at h
    | some e =>
      rw [hf] at h
      simp only at h
      obtain ⟨es, hes, hmem, hcmp⟩ := readZipFileEntry_for_ok name _ e _ _ hf
      unfold readZipFileEntry_found at h
      cases hfile : zipFile.file with
      | none => rw [hfile] at h; simp at h
      | some fp0 =>
        rw [hfile] at h
        simp only at h
        cases hx : readZipFileEntry_extract z e fp0 with
        | undefined => rw [hx] at h; simp [withStream] at h
        | fatal f => rw [hx] at h; simp [withStream] at h
        | ok r =>
          rw [hx] at h
          obtain ⟨⟨b1, l1⟩, fp'⟩ := r
          simp only [withStream, Outcome.ok.injEq, Prod.mk.injEq] at h
          obtain ⟨⟨hb, hl⟩, _⟩ := h
          subst hb hl
          obtain ⟨m, fp, hp⟩ := readZipFileEntry_extract_ok z e fp0 _ hx
          obtain ⟨h1, _, h3⟩ := readZipFileEntry_payload_ok z e m fp fp' _ _ hp
          refine ⟨es, e, m, fp, fp', hes, hmem, hcmp, hp, h1, ?_⟩
          rcases h3 with ⟨hm, hlen⟩ | ⟨hm, _, hlen⟩
          · exact Or.inr ⟨hm, hlen, fun hcu => by rw [hlen, hcu, h1]⟩
          · exact Or.inl ⟨hm, by rw [hlen, h1]⟩

theorem readZipFileEntry_reported_length_witness :
    readZipFileEntry zlibStored aTxt (oneEntryHandle helloArchive aTxt 5 5) =
        Outcome.ok ((hello.map some, 5),
          { oneEntryHandle helloArchive aTxt 5 5 with file := some ⟨helloArchive, 40⟩ }) ∧
      ∃ (es : List zip_entry_t) (e : zip_entry_t) (method : Int) (fp fp' : FILE),
        (oneEntryHandle helloArchive aTxt 5 5).entry = some es ∧ e ∈ es ∧
        SDL_strcasecmp aTxt e.name = 0 ∧
        readZipFileEntry_payload zlibStored e method fp =
          Outcome.ok ((hello.map some, 5), fp') ∧
        (5 : Int) = e.usize ∧
        ((method = 8 ∧ (((hello.map some : List Cell).length : Nat) : Int) = 5) ∨
          (method = 0 ∧ (((hello.map some : List Cell).length : Nat) : Int) = e.csize ∧
            (e.csize = e.usize → (((hello.map some : List Cell).length : Nat) : Int) = 5))) :=
  ⟨by decide!,
    readZipFileEntry_reported_length zlibStored aTxt (oneEntryHandle helloArchive aTxt 5 5)
      { oneEntryHandle helloArchive aTxt 5 5 with file := some ⟨helloArchive, 40⟩ }
      (hello.map some) 5 (by decide!)⟩

/-- C20. After a successful `openZipFile`, `entry_count` equals the number of entries held
by the index, and a successful `readZipFileEntry` leaves both as they are. `closeZipFile`
drops the index and the stream but leaves `entry_count` as it is. So after opening
`twoMemberArchiveComment400` with the zero-initialised handle (`entry_count = 2`, 2
entries) and closing it, `entry_count` is still 2 while no entry is held, and the lookup
loop of a following `readZipFileEntry` indexes the absent index. -/
theorem closeZipFile_keeps_entry_count :
    (∀ (opened : Option (List Byte)) (zipFile h : zip_file_t),
      openZipFile opened zipFile = Outcome.ok h → h.entry_count = (entriesHeld h : Int)) ∧
    (∀ (z : Zlib) (name : List Byte) (zipFile h : zip_file_t) (r : List Cell × Int),
      readZipFileEntry z name zipFile = Outcome.ok (r, h) →
        h.entry_count = zipFile.entry_count ∧ entriesHeld h = entriesHeld zipFile) ∧
    (∀ zipFile : zip_file_t, (closeZipFile zipFile).entry_count = zipFile.entry_count ∧
      entriesHeld (closeZipFile zipFile) = 0) ∧
    openZipFile (some twoMemberArchiveComment400) zipFile0 = Outcome.ok twoMemberHandle ∧
    entriesHeld twoMemberHandle = 2 ∧
    (closeZipFile twoMemberHandle).entry_count = 2 ∧
    entriesHeld (closeZipFile twoMemberHandle) = 0 ∧
    readZipFileEntry zlibStored aTxt (closeZipFile twoMemberHandle) = Outcome.undefined := by
  refine ⟨fun opened zipFile h hok => (openZipFile_ok opened zipFile h hok).1, ?_,
    fun zipFile => ⟨rfl, rfl⟩, by decide!, by decide!, by decide!, by decide!, by decide!⟩
  intro z name zipFile h r hok
  obtain ⟨h1, h2⟩ := readZipFileEntry_ok_handle z name zipFile h r hok
  exact ⟨h1, by simp only [entriesHeld, h2]⟩

end ZZip
